import Mathlib

/-!
# Aether chemistry: the reaction table reader, the chemistry step, the time routines, the conduction solver

A shallow embedding of `src/chemistry.cpp` (`Chemistry::Chemistry`,
`Chemistry::read_chemistry_file`, `Chemistry::interpret_reaction_line`,
`Chemistry::find_species_id`), of `src/calc_chemistry.cpp`
(`Chemistry::calc_chemistry`), of `src/time_conversion.cpp` (`day_of_year`,
`time_int_to_real`, `time_real_to_int`) and of `src/solver_conduction.cpp`
(`solver_conduction`), and theorems about them.

Conventions of the embedding.

* `precision_t` values are carried as rationals; no arithmetic is rounded
  anywhere in the reader, values are only parsed, copied and compared.
* `std::stof` and `std::stoi` belong to the C++ library and the species
  registries (`Neutrals::get_species_id`, `Ions::get_species_id`) to other
  files, so all four are parameters.  A parser returning `none` stands for
  the exception the library throws.
* An unchecked `operator[]` outside a vector, `back()` of an empty vector and
  an uncaught exception do not produce a value: the functions return in
  `Except Fault`.
* `std::unordered_map<std::string,int>` is an association list read through
  `hashtable.find`; `operator[]` on it is `hashtable.index`, which inserts the
  value `0` for a missing key exactly as the C++ container does.
-/

namespace Aether

set_option linter.dupNamespace false

/-- Ways in which the C++ code fails to produce a value of the embedding. -/
inductive Fault where
  /-- An `operator[]` of a `std::vector` past its end. -/
  | out_of_range
  /-- The call `back()` on an empty `std::vector`. -/
  | back_of_empty
  /-- An exception thrown by `std::stof`, `std::stoi` or `substr`, which nothing
  in the file catches. -/
  | exception
  /-- An operation on `int`s whose result is outside the 32-bit range. -/
  | overflow
  /-- A `double` that is an infinity or not a number. -/
  | not_finite
  deriving DecidableEq, Repr

/-- The type `std::unordered_map<std::string, int>` of the source (`hashtable`).
Only column indices (never negative) are stored in it. -/
structure hashtable where
  entries : List (String × Nat)
  deriving DecidableEq, Repr

/-- The lookup `headers.find(k)`: the value bound to `k`, if any. -/
def hashtable.find (h : hashtable) (k : String) : Option Nat :=
  h.entries.lookup k

/-- The assignment `headers[k] = v`. The newest binding of a key shadows the
older ones. -/
def hashtable.assign (h : hashtable) (k : String) (v : Nat) : hashtable :=
  ⟨(k, v) :: h.entries⟩

/-- The read `headers[k]`: the value bound to `k`; a missing key is inserted
with the value-initialised `int`, that is `0`. -/
def hashtable.index (h : hashtable) (k : String) : Nat × hashtable :=
  match h.find k with
  | some v => (v, h)
  | none => (0, h.assign k 0)

/-- The loop `for (i = 0; i < csv[0].size(); ++i) headers[csv[0][i]] = i`,
started at column `i`. -/
def build_headers : List String → Nat → hashtable → hashtable
  | [], _, h => h
  | name :: rest, i, h => build_headers rest (i + 1) (h.assign name i)

/-- The struct `Chemistry::reaction_type`. -/
structure reaction_type where
  sources_names : List String
  losses_names : List String
  sources_ids : List Int
  losses_ids : List Int
  sources_IsNeutral : List Bool
  losses_IsNeutral : List Bool
  nLosses : Int
  nSources : Int
  rate : ℚ
  branching_ratio : ℚ
  energy : ℚ
  numerator : ℚ
  denominator : String
  exponent : ℚ
  piecewiseVar : String
  min : Int
  max : Int
  type : Int
  deriving DecidableEq, Repr

/-- A default-constructed `reaction_type` (`reaction_type reaction;`): the
vectors and strings are empty. The declaration of the struct is not part of
the sources, so what its scalar members hold is taken from `u`. -/
def reaction_type.fresh (u : reaction_type) : reaction_type :=
  { u with
    sources_names := [], losses_names := [],
    sources_ids := [], losses_ids := [],
    sources_IsNeutral := [], losses_IsNeutral := [],
    denominator := "", piecewiseVar := "" }

/-- The function `Chemistry::find_species_id`: the pair `(id_, IsNeutral)` it
leaves in its two reference parameters. -/
def find_species_id (neutrals ions : String → Int) (name : String) : Int × Bool :=
  let id_ := neutrals name
  if id_ > -1 then (id_, true) else (ions name, false)

/-- The element `line[i]` of a `std::vector<std::string>`. -/
def cell (line : List String) (i : Nat) : Except Fault String :=
  match (line)[i]? with
  | some s => .ok s
  | none => .error .out_of_range

/-- A call of `std::stof` or `std::stoi`. -/
def parse {α : Type} (conv : String → Option α) (s : String) : Except Fault α :=
  match conv s with
  | some v => .ok v
  | none => .error .exception

/-- Body of the loss loop of `interpret_reaction_line` at column `i`. -/
def add_loss (neutrals ions : String → Int) (line : List String)
    (reaction : reaction_type) (i : Nat) : Except Fault reaction_type :=
  match cell line i with
  | .error e => .error e
  | .ok name =>
    let found := find_species_id neutrals ions name
    if found.1 ≥ 0 then
      .ok { reaction with
            losses_names := reaction.losses_names ++ [name],
            losses_ids := reaction.losses_ids ++ [found.1],
            losses_IsNeutral := reaction.losses_IsNeutral ++ [found.2],
            nLosses := reaction.nLosses + 1 }
    else .ok reaction

/-- Body of the source loop of `interpret_reaction_line` at column `i`. -/
def add_source (neutrals ions : String → Int) (line : List String)
    (reaction : reaction_type) (i : Nat) : Except Fault reaction_type :=
  match cell line i with
  | .error e => .error e
  | .ok name =>
    let found := find_species_id neutrals ions name
    if found.1 ≥ 0 then
      .ok { reaction with
            sources_names := reaction.sources_names ++ [name],
            sources_ids := reaction.sources_ids ++ [found.1],
            sources_IsNeutral := reaction.sources_IsNeutral ++ [found.2],
            nSources := reaction.nSources + 1 }
    else .ok reaction

/-- A loop `for (i = lo; i <= hi; i++) body`, given as the columns
`lo, lo+1, ...` still to visit (`n` of them). -/
def column_loop (body : reaction_type → Nat → Except Fault reaction_type) :
    Nat → Nat → reaction_type → Except Fault reaction_type
  | 0, _, reaction => .ok reaction
  | n + 1, i, reaction =>
    match body reaction i with
    | .error e => .error e
    | .ok reaction => column_loop body n (i + 1) reaction

/-- The section "Losses (left side) first" of `interpret_reaction_line`:
`for (i = headers["loss1"]; i <= headers["loss3"]; i++)`. -/
def interpret_losses (neutrals ions : String → Int) (line : List String)
    (reaction : reaction_type) (headers : hashtable) :
    Except Fault (reaction_type × hashtable) :=
  let reaction := { reaction with nLosses := 0 }
  let lo := (headers.index "loss1").1
  let headers := (headers.index "loss1").2
  let hi := (headers.index "loss3").1
  let headers := (headers.index "loss3").2
  match column_loop (add_loss neutrals ions line) (hi + 1 - lo) lo reaction with
  | .error e => .error e
  | .ok reaction => .ok (reaction, headers)

/-- The section "Sources (right side) second" of `interpret_reaction_line`:
`for (i = headers["source1"]; i <= headers["source3"]; i++)`. -/
def interpret_sources (neutrals ions : String → Int) (line : List String)
    (reaction : reaction_type) (headers : hashtable) :
    Except Fault (reaction_type × hashtable) :=
  let reaction := { reaction with nSources := 0 }
  let lo := (headers.index "source1").1
  let headers := (headers.index "source1").2
  let hi := (headers.index "source3").1
  let headers := (headers.index "source3").2
  match column_loop (add_source neutrals ions line) (hi + 1 - lo) lo reaction with
  | .error e => .error e
  | .ok reaction => .ok (reaction, headers)

/-- The pattern `if (line[c].length() > 0) x = conv(line[c]); else x = dflt;`
on the text `s` of the cell: the value that `x` gets. -/
def parse_or {α : Type} (conv : String → Option α) (s : String) (dflt : α) :
    Except Fault α :=
  if s.length > 0 then parse conv s else .ok dflt

/-- The sections "Reaction Rate", "Branching Ratio" and "energy released" of
`interpret_reaction_line`. -/
def interpret_rate (stof : String → Option ℚ) (line : List String)
    (reaction : reaction_type) (headers : hashtable) :
    Except Fault (reaction_type × hashtable) := do
  -- reaction.rate = stof(line[headers["rate"]]);
  let s ← cell line (headers.index "rate").1
  let headers := (headers.index "rate").2
  let rate ← parse stof s
  let reaction := { reaction with rate := rate }
  -- if (line[headers["branching"]].length() > 0) ... else branching_ratio = 1
  let s ← cell line (headers.index "branching").1
  let headers := (headers.index "branching").2
  let branching_ratio ← parse_or stof s 1
  let reaction := { reaction with branching_ratio := branching_ratio }
  -- if (line[headers["heat"]].length() > 0) ... else energy = 0
  let s ← cell line (headers.index "heat").1
  let headers := (headers.index "heat").2
  let energy ← parse_or stof s 0
  let reaction := { reaction with energy := energy }
  pure (reaction, headers)

/-- The statement `if (line[headers["Numerator"]].length() > 0) { ... } else
{ reaction.type = 0; }` of `interpret_reaction_line`. -/
def interpret_temperature (stof : String → Option ℚ) (line : List String)
    (reaction : reaction_type) (headers : hashtable) :
    Except Fault (reaction_type × hashtable) := do
  let s ← cell line (headers.index "Numerator").1
  let headers := (headers.index "Numerator").2
  if s.length > 0 then do
    -- reaction.numerator = stof(line[headers["Numerator"]]);
    let numerator ← parse stof s
    let reaction := { reaction with numerator := numerator }
    -- reaction.denominator = line[headers["Denominator"]];
    let d ← cell line (headers.index "Denominator").1
    let headers := (headers.index "Denominator").2
    let reaction := { reaction with denominator := d }
    -- if (line[headers["Exponent"]].length() > 0) reaction.exponent = stof(...)
    let e ← cell line (headers.index "Exponent").1
    let headers := (headers.index "Exponent").2
    let exponent ← parse_or stof e reaction.exponent
    pure ({ reaction with exponent := exponent }, headers)
  else
    pure ({ reaction with type := 0 }, headers)

/-- The rest of `interpret_reaction_line`: the defaults `min = max = type = 0`
and the block guarded by `if (headers["branching"] = 10)`. The guard is an
assignment: it stores `10` under `branching` and, `10` being non-zero, the
block is always entered. The tests and reads of `Min`, `Max` and
`Formula Type` are taken with their brackets closed, as
`line[headers["Min"]]` and so on. -/
def interpret_formula (stof : String → Option ℚ) (stoi : String → Option Int)
    (line : List String) (reaction : reaction_type) (headers : hashtable) :
    Except Fault (reaction_type × hashtable) := do
  let reaction := { reaction with min := 0, max := 0, type := 0 }
  -- if (headers["branching"] = 10) {
  let headers := headers.assign "branching" 10
  let temperature ← interpret_temperature stof line reaction headers
  let reaction := temperature.1
  let headers := temperature.2
  -- reaction.piecewiseVar = line[headers["Piecewise"]];
  let p ← cell line (headers.index "Piecewise").1
  let headers := (headers.index "Piecewise").2
  let reaction := { reaction with piecewiseVar := p }
  -- if (line[headers["Min"]].length() > 0) reaction.min = stoi(...)
  let s ← cell line (headers.index "Min").1
  let headers := (headers.index "Min").2
  let min ← parse_or stoi s reaction.min
  let reaction := { reaction with min := min }
  -- if (line[headers["Max"]].length() > 0) reaction.max = stoi(...)
  let s ← cell line (headers.index "Max").1
  let headers := (headers.index "Max").2
  let max ← parse_or stoi s reaction.max
  let reaction := { reaction with max := max }
  -- if (line[headers["Formula Type"]].length() > 0) reaction.type = stoi(...)
  let s ← cell line (headers.index "Formula Type").1
  let headers := (headers.index "Formula Type").2
  let type ← parse_or stoi s reaction.type
  let reaction := { reaction with type := type }
  pure (reaction, headers)

/-- The function `Chemistry::interpret_reaction_line`. The header table is a
reference parameter, so the table as the call leaves it is returned next to
the reaction. -/
def interpret_reaction_line (neutrals ions : String → Int)
    (stof : String → Option ℚ) (stoi : String → Option Int) (u : reaction_type)
    (line : List String) (headers : hashtable) :
    Except Fault (reaction_type × hashtable) := do
  let reaction := reaction_type.fresh u
  let losses ← interpret_losses neutrals ions line reaction headers
  let sources ← interpret_sources neutrals ions line losses.1 losses.2
  let rates ← interpret_rate stof line sources.1 sources.2
  interpret_formula stof stoi line rates.1 rates.2

/-- The data members of the class `Chemistry` that the reader writes. -/
structure Chemistry where
  nReactions : Int
  reactions : List reaction_type
  deriving DecidableEq, Repr

/-- What `read_chemistry_file` obtains from `args`: whether the file named by
`args.get_chemistry_file()` could be opened, whether the stream is `good()`,
the table `read_csv` returns for it, and `args.get_perturb_values()`. -/
structure Inputs where
  is_open : Bool
  good : Bool
  csv : List (List String)
  perturb_values : List String
  deriving DecidableEq, Repr

/-- The variables that live across the iterations of the row loop of
`read_chemistry_file`: the header table, the local `reaction` (declared before
the loop, so it keeps its value from one row to the next) and the object. -/
structure reader_state where
  headers : hashtable
  reaction : reaction_type
  chem : Chemistry
  deriving DecidableEq, Repr

/-- The assignments made when a row is "part of a piecewise function": the
species lists, counts, branching ratio, energy and piecewise variable of
`reactions.back()` are copied into `reaction`. -/
def inherit (reaction last : reaction_type) : reaction_type :=
  { reaction with
    sources_names := last.sources_names,
    losses_names := last.losses_names,
    sources_ids := last.sources_ids,
    losses_ids := last.losses_ids,
    sources_IsNeutral := last.sources_IsNeutral,
    losses_IsNeutral := last.losses_IsNeutral,
    nLosses := last.nLosses,
    nSources := last.nSources,
    branching_ratio := last.branching_ratio,
    energy := last.energy,
    piecewiseVar := last.piecewiseVar }

/-- The statement `if (csv[iLine][headers["rate"]].length() > 0) { ... }` of
the row loop: the local `reaction` and the header table after it. The
argument of `report.print` is evaluated whatever the verbosity, so
`csv[iLine][headers["loss1"]]` is read; what is printed is not part of the
embedding. `interpret_reaction_line` takes the header table by reference as
its last parameter: it works on the table of the loop. -/
def read_line_interpret (neutrals ions : String → Int)
    (stof : String → Option ℚ) (stoi : String → Option Int) (u : reaction_type)
    (st : reader_state) (row : List String) : Except Fault (reaction_type × hashtable) := do
  let s ← cell row (st.headers.index "rate").1
  let headers := (st.headers.index "rate").2
  if s.length > 0 then do
    let _ ← cell row (headers.index "loss1").1
    let headers := (headers.index "loss1").2
    interpret_reaction_line neutrals ions stof stoi u row headers
  else
    pure (st.reaction, headers)

/-- The statement `if (reaction.nLosses == 0 && reaction.nSources == 0) { ... }`
of the row loop, which reads `reactions.back()`. -/
def read_line_inherit (reactions : List reaction_type) (reaction : reaction_type) :
    Except Fault reaction_type :=
  if reaction.nLosses = 0 ∧ reaction.nSources = 0 then
    match reactions.getLast? with
    | none => .error .back_of_empty
    | some last => .ok (inherit reaction last)
  else .ok reaction

/-- The statement `if (reaction.nLosses > 0 && reaction.nSources > 0) { ... }`
of the row loop: `reactions.push_back(reaction); nReactions++;`. What
`display_reaction` prints is not part of the embedding. -/
def read_line_store (chem : Chemistry) (reaction : reaction_type) : Chemistry :=
  if reaction.nLosses > 0 ∧ reaction.nSources > 0 then
    { nReactions := chem.nReactions + 1, reactions := chem.reactions ++ [reaction] }
  else chem

/-- One iteration of `for (iLine = 2; iLine < nLines; iLine++)` on the row
`csv[iLine]`. -/
def read_line (neutrals ions : String → Int)
    (stof : String → Option ℚ) (stoi : String → Option Int) (u : reaction_type)
    (st : reader_state) (row : List String) : Except Fault reader_state := do
  let interpreted ← read_line_interpret neutrals ions stof stoi u st row
  let reaction ← read_line_inherit st.chem.reactions interpreted.1
  pure { headers := interpreted.2, reaction := reaction,
         chem := read_line_store st.chem reaction }

/-- The row loop of `read_chemistry_file` over the rows `csv[2], csv[3], ...`. -/
def read_lines (neutrals ions : String → Int)
    (stof : String → Option ℚ) (stoi : String → Option Int) (u : reaction_type) :
    List (List String) → reader_state → Except Fault reader_state
  | [], st => .ok st
  | row :: rows, st =>
    match read_line neutrals ions stof stoi u st row with
    | .error e => .error e
    | .ok st => read_lines neutrals ions stof stoi u rows st

/-- The element `v[i]` of a vector for an `int` index. -/
def at_index {α : Type} (v : List α) (i : Int) : Except Fault α :=
  if i < 0 then .error .out_of_range
  else
    match v[i.toNat]? with
    | some x => .ok x
    | none => .error .out_of_range

/-- The statements both perturbation loops run for the reaction `i`, `draw`
being the ordinal of the sample taken. `stdv` is `0` when the distribution is
built: the product `perturb_rate * reactions[i].rate` initialises a second
variable `stdv`, local to the `if`. The mean written `reactions[i]` is read as
`reactions[i].rate`. -/
def perturb_reaction (stoi : String → Option Int) (sample : Nat → ℚ → ℚ → ℚ)
    (csv : List (List String)) (headers : hashtable) (draw : Nat)
    (reactions : List reaction_type) (i : Int) : Except Fault (List reaction_type) := do
  -- precision_t perturb_rate = stoi(csv[i+2][headers["perturb"]]);
  let row ← at_index csv (i + 2)
  let s ← cell row (headers.index "perturb").1
  let _ ← parse stoi s
  let stdv : ℚ := 0
  let r ← at_index reactions i
  pure (reactions.set i.toNat { r with rate := sample draw r.rate stdv })

/-- The loop `for (int i = 0; i < reactions.size(); ++i)` of the "all" case,
with `n` iterations left. -/
def perturb_all (stoi : String → Option Int) (sample : Nat → ℚ → ℚ → ℚ)
    (csv : List (List String)) (headers : hashtable) :
    Nat → Nat → List reaction_type → Except Fault (List reaction_type)
  | 0, _, reactions => .ok reactions
  | n + 1, i, reactions =>
    match perturb_reaction stoi sample csv headers i reactions i with
    | .error e => .error e
    | .ok reactions => perturb_all stoi sample csv headers n (i + 1) reactions

/-- The loop `for (auto &i : values)` of the explicit list: the index is
`line = stoi(i.substr(1))`, and `substr(1)` of an empty token throws. -/
def perturb_listed (stoi : String → Option Int) (sample : Nat → ℚ → ℚ → ℚ)
    (csv : List (List String)) (headers : hashtable) :
    List String → Nat → List reaction_type → Except Fault (List reaction_type)
  | [], _, reactions => .ok reactions
  | tok :: rest, draw, reactions =>
    if tok.length = 0 then .error .exception
    else
      match parse stoi (tok.drop 1) with
      | .error e => .error e
      | .ok line =>
        match perturb_reaction stoi sample csv headers draw reactions line with
        | .error e => .error e
        | .ok reactions => perturb_listed stoi sample csv headers rest (draw + 1) reactions

/-- The block "add perturb to the all the reaction lines" of
`read_chemistry_file`. -/
def perturb (stoi : String → Option Int) (sample : Nat → ℚ → ℚ → ℚ)
    (csv : List (List String)) (values : List String) (headers : hashtable)
    (reactions : List reaction_type) : Except Fault (List reaction_type) :=
  if (headers.find "perturb").isSome then
    match values with
    | [] => .ok reactions
    | first :: _ =>
      if first = "all" then
        perturb_all stoi sample csv headers reactions.length 0 reactions
      else
        perturb_listed stoi sample csv headers values 0 reactions
  else .ok reactions

/-- The function `Chemistry::read_chemistry_file`, on the object `chem`: the
error code `iErr` it returns and the object as it leaves it. -/
def read_chemistry_file (neutrals ions : String → Int)
    (stof : String → Option ℚ) (stoi : String → Option Int) (u : reaction_type)
    (sample : Nat → ℚ → ℚ → ℚ) (args : Inputs) (chem : Chemistry) :
    Except Fault (Int × Chemistry) :=
  if ¬ args.is_open then .ok (1, chem)
  else if args.good then
    let nLines : Int := args.csv.length
    if nLines ≤ 2 then .ok (1, chem)
    else
      let chem := { chem with nReactions := 0 }
      let headers := build_headers (args.csv.headD []) 0 ⟨[]⟩
      match read_lines neutrals ions stof stoi u (args.csv.drop 2)
          ⟨headers, reaction_type.fresh u, chem⟩ with
      | .error e => .error e
      | .ok st =>
        match perturb stoi sample args.csv args.perturb_values st.headers
            st.chem.reactions with
        | .error e => .error e
        | .ok reactions => .ok (0, { st.chem with reactions := reactions })
  else .ok (0, chem)

/-- The constructor `Chemistry::Chemistry`: it calls `read_chemistry_file` on
the new object, whose `reactions` is empty and whose `nReactions` holds `n0`,
and drops the value returned. -/
def Chemistry.Chemistry (neutrals ions : String → Int)
    (stof : String → Option ℚ) (stoi : String → Option Int) (u : reaction_type)
    (sample : Nat → ℚ → ℚ → ℚ) (args : Inputs) (n0 : Int) : Except Fault Chemistry :=
  match read_chemistry_file neutrals ions stof stoi u sample args ⟨n0, []⟩ with
  | .error e => .error e
  | .ok result => .ok result.2

/-! ### Notions used in the statements -/

/-- Whether `find_species_id` resolves a cell, that is, gives it an id that is
not negative. -/
def resolves (neutrals ions : String → Int) (name : String) : Bool :=
  decide (0 ≤ (find_species_id neutrals ions name).1)

/-- The members of a reaction that the two species loops write: names, ids,
kind flags and count of the losses, then of the sources. -/
def species_part (r : reaction_type) :
    (List String × List Int × List Bool × Int) ×
      (List String × List Int × List Bool × Int) :=
  ((r.losses_names, r.losses_ids, r.losses_IsNeutral, r.nLosses),
   (r.sources_names, r.sources_ids, r.sources_IsNeutral, r.nSources))

/-- The cells of `line` in the columns `lo, lo+1, ..., hi`, which is what a
loop `for (i = lo; i <= hi; i++)` visits. -/
def columns (line : List String) (lo hi : Nat) : List String :=
  (line.drop lo).take (hi + 1 - lo)

/-- The id that `find_species_id` leaves in `id_` for a cell. -/
def species_id (neutrals ions : String → Int) (name : String) : Int :=
  (find_species_id neutrals ions name).1

/-- The cells the loss loop of `interpret_reaction_line` visits under the header
table `headers`: the columns from `headers["loss1"]` to `headers["loss3"]`. -/
def loss_cells (line : List String) (headers : hashtable) : List String :=
  columns line (headers.index "loss1").1 (headers.index "loss3").1

/-- The cells the source loop of `interpret_reaction_line` visits: the columns
from `headers["source1"]` to `headers["source3"]`. -/
def source_cells (line : List String) (headers : hashtable) : List String :=
  columns line (headers.index "source1").1 (headers.index "source3").1

/-- What a species loop stores for the cells it visits: the names of the cells
that resolve, their ids, their kind flags and their number. -/
def resolved_species (neutrals ions : String → Int) (cells : List String) :
    List String × List Int × List Bool × Int :=
  ((cells.filter (resolves neutrals ions),
    (cells.filter (resolves neutrals ions)).map (fun c => (find_species_id neutrals ions c).1),
    (cells.filter (resolves neutrals ions)).map (fun c => (find_species_id neutrals ions c).2),
    ((cells.filter (resolves neutrals ions)).length : Int)))

/-- The number of cells that resolve among the columns `lo, ..., j-1` of a row:
the position that the id of a resolving cell of column `j` takes in the id list
of a loop started at column `lo`. -/
def resolved_before (neutrals ions : String → Int) (line : List String) (lo j : Nat) : Nat :=
  (((line.drop lo).take (j - lo)).filter (resolves neutrals ions)).length

/-- A reaction with its `rate` put to zero: what the perturbation block leaves
alone. -/
def without_rate (r : reaction_type) : reaction_type :=
  { r with rate := 0 }

/-- The invariant of the stored reactions: at least one loss and at least one
source species. -/
def has_both_sides (r : reaction_type) : Prop :=
  1 ≤ r.nLosses ∧ 1 ≤ r.nSources

/-- The state in which the row loop of `read_chemistry_file` starts on the
table `csv` and the object `chem`: `nReactions = 0`, the header table built
from `csv[0]`, and the local `reaction` default-constructed. -/
def loop_start (u : reaction_type) (csv : List (List String)) (chem : Chemistry) :
    reader_state :=
  ⟨build_headers (csv.headD []) 0 ⟨[]⟩, reaction_type.fresh u,
    { chem with nReactions := 0 }⟩

/-- The three lists of one side of a reaction describe `count` species: each
list has `count` entries, and the id and the kind flag at a position are what
`find_species_id` gives for the name at that position. -/
def describes_species (neutrals ions : String → Int) (names : List String)
    (ids : List Int) (kinds : List Bool) (count : Int) : Prop :=
  (names.length : Int) = count ∧ (ids.length : Int) = count ∧
  (kinds.length : Int) = count ∧
  ∀ (i : Nat) (name : String), names[i]? = some name →
    ids[i]? = some (find_species_id neutrals ions name).1 ∧
    kinds[i]? = some (find_species_id neutrals ions name).2

/-- The list-shape invariant of a reaction: its loss lists describe `nLosses`
species and its source lists describe `nSources` species. -/
def list_shape (neutrals ions : String → Int) (r : reaction_type) : Prop :=
  describes_species neutrals ions r.losses_names r.losses_ids r.losses_IsNeutral r.nLosses ∧
  describes_species neutrals ions r.sources_names r.sources_ids r.sources_IsNeutral r.nSources

/-! ### Concrete data for the examples -/

/-- A neutral registry for the examples: four species `A`, `B`, `C`, `D`;
every other name gets `-1`. -/
def demo_neutrals (name : String) : Int :=
  if name = "A" then 0 else if name = "B" then 1
  else if name = "C" then 2 else if name = "D" then 3 else -1

/-- An ion registry for the examples: the species `A+` and `B+`. -/
def demo_ions (name : String) : Int :=
  if name = "A+" then 0 else if name = "B+" then 1 else -1

/-- The values of `std::stof` on the numerals of the examples. It throws on
the empty string and on a word. -/
def demo_stof (s : String) : Option ℚ :=
  if s = "1.0" then some 1 else if s = "2.0" then some 2
  else if s = "0.5" then some (1 / 2) else none

/-- The values of `std::stoi` on the numerals of the examples. -/
def demo_stoi (s : String) : Option Int :=
  if s = "0" then some 0 else if s = "1" then some 1
  else if s = "200" then some 200 else if s = "300" then some 300 else none

/-- Scalars of a default-constructed `reaction_type` in the examples. -/
def demo_u : reaction_type :=
  { sources_names := [], losses_names := [], sources_ids := [], losses_ids := [],
    sources_IsNeutral := [], losses_IsNeutral := [], nLosses := 0, nSources := 0,
    rate := 0, branching_ratio := 0, energy := 0, numerator := 0, denominator := "",
    exponent := 0, piecewiseVar := "", min := 0, max := 0, type := 0 }

/-- A sampler for the examples: it returns the mean. -/
def demo_sample (_ : Nat) (mean _ : ℚ) : ℚ := mean

/-- The header row of the examples. -/
def demo_header : List String :=
  ["loss1", "loss2", "loss3", "->", "source1", "source2", "source3", "rate",
   "branching", "heat", "reference", "Numerator", "Denominator", "Exponent",
   "Piecewise", "Min", "Max", "Formula Type"]

/-- The reserved second row of the examples (units). -/
def demo_units : List String :=
  ["", "", "", "", "", "", "", "m3/s", "", "eV", "", "", "", "", "", "", "", ""]

/-- The row `A + B -> C` with rate `1.0`. -/
def demo_row_AB_C : List String :=
  ["A", "B", "", "->", "C", "", "", "1.0", "", "", "", "", "", "", "", "", "", ""]

/-- A row with empty species cells and rate `2.0`. -/
def demo_row_continuation : List String :=
  ["", "", "", "", "", "", "", "2.0", "", "", "", "", "", "", "", "", "", ""]

/-- A trailing row whose `rate` cell is empty. -/
def demo_row_blank : List String :=
  ["a comment", "", "", "", "", "", "", "", "", "", "", "", "", "", "", "", "", ""]

/-- An input whose file opened and reads well, with no perturbation asked. -/
def demo_args (csv : List (List String)) : Inputs :=
  { is_open := true, good := true, csv := csv, perturb_values := [] }

/-- The header table built from the header row of the examples. -/
def demo_headers : hashtable :=
  build_headers demo_header 0 ⟨[]⟩

/-- The reaction `A + B -> C` with rate `1`, as the reader stores it for
`demo_row_AB_C`. -/
def demo_reaction_AB_C : reaction_type :=
  { sources_names := ["C"], losses_names := ["A", "B"], sources_ids := [2],
    losses_ids := [0, 1], sources_IsNeutral := [true], losses_IsNeutral := [true, true],
    nLosses := 2, nSources := 1, rate := 1, branching_ratio := 1, energy := 0,
    numerator := 0, denominator := "", exponent := 0, piecewiseVar := "",
    min := 0, max := 0, type := 0 }

/-- The reaction stored for `demo_row_continuation` after `demo_row_AB_C`: the
species of `A + B -> C` with the rate `2`. -/
def demo_reaction_continued : reaction_type :=
  { demo_reaction_AB_C with rate := 2 }

/-- What `interpret_reaction_line` returns for `demo_row_continuation`: no
species, the rate `2`, the default branching ratio `1`. -/
def demo_reaction_bare : reaction_type :=
  { demo_u with rate := 2, branching_ratio := 1 }

/-- The reaction `A -> C`, as read from `demo_row_AB_C` with `X` in place of
`B`. -/
def demo_reaction_A_C : reaction_type :=
  { demo_reaction_AB_C with
    losses_names := ["A"], losses_ids := [0], losses_IsNeutral := [true], nLosses := 1 }

/-- The header row of the examples with the column `branching` under another
name. -/
def demo_header_no_branching : List String :=
  ["loss1", "loss2", "loss3", "->", "source1", "source2", "source3", "rate",
   "ratio", "heat", "reference", "Numerator", "Denominator", "Exponent",
   "Piecewise", "Min", "Max", "Formula Type"]

/-- The row `A + B -> C` written in the second and third loss columns, with
`0.5` in the ninth column. -/
def demo_row_shifted : List String :=
  ["", "A", "B", "->", "C", "", "", "1.0", "0.5", "", "", "", "", "", "", "", "", ""]

/-- A header row that has all six species names, with a column `note` between
`loss1` and `loss2`. -/
def demo_header_spread : List String :=
  ["loss1", "note", "loss2", "loss3", "source1", "source2", "source3", "rate",
   "branching", "heat", "reference", "Numerator", "Denominator", "Exponent",
   "Piecewise", "Min", "Max", "Formula Type"]

/-- A row for `demo_header_spread`: `A`, `C`, `D` in the loss columns, `B` in the
column `note`. -/
def demo_row_spread : List String :=
  ["A", "B", "C", "D", "A", "", "", "1.0", "", "", "", "", "", "", "", "", "", ""]

/-- The row `A + B -> C` with rate `1.0` and branching ratio `0.5`. -/
def demo_row_AB_C_half : List String :=
  ["A", "B", "", "->", "C", "", "", "1.0", "0.5", "", "", "", "", "", "", "", "", ""]

/-- The row `C + D -> A` with rate `2.0` and branching ratio `0.5`. -/
def demo_row_CD_A_half : List String :=
  ["C", "D", "", "->", "A", "", "", "2.0", "0.5", "", "", "", "", "", "", "", "", ""]

/-- An input whose file could not be opened. -/
def demo_args_unopened : Inputs :=
  { is_open := false, good := false, csv := [], perturb_values := [] }

/-- The row `A + B -> C` with rate `1.0`, an empty `Numerator` cell and `1` in
the column `Formula Type`. -/
def demo_row_typed : List String :=
  ["A", "B", "", "->", "C", "", "", "1.0", "", "", "", "", "", "", "", "", "", "1"]

/-- The row `A + B -> C` with rate `1.0`, branching ratio `0.5` and heat `2.0`. -/
def demo_row_AB_C_heat : List String :=
  ["A", "B", "", "->", "C", "", "", "1.0", "0.5", "2.0", "", "", "", "", "", "", "", ""]

/-- The header row of the examples with a column `perturb` in place of the
column `reference`. -/
def demo_header_perturb : List String :=
  ["loss1", "loss2", "loss3", "->", "source1", "source2", "source3", "rate",
   "branching", "heat", "perturb", "Numerator", "Denominator", "Exponent",
   "Piecewise", "Min", "Max", "Formula Type"]

/-- The row `A + B -> C` with rate `2.0` and `1` in the column `perturb`. -/
def demo_row_AB_C_perturb : List String :=
  ["A", "B", "", "->", "C", "", "", "2.0", "", "", "1", "", "", "", "", "", "", ""]

/-- The table of the perturbation examples. -/
def demo_csv_perturb : List (List String) :=
  [demo_header_perturb, demo_units, demo_row_AB_C_perturb]

/-- An input whose file opened and reads well, with the perturbation
specification `values`. -/
def demo_args_perturb (csv : List (List String)) (values : List String) : Inputs :=
  { is_open := true, good := true, csv := csv, perturb_values := values }

/-- A sampler for the examples that returns the standard deviation it is
handed. -/
def demo_sample_stdv (_ : Nat) (_ stdv : ℚ) : ℚ := stdv

/-- A sampler for the examples that returns 7 whatever it is handed. -/
def demo_sample_seven (_ : Nat) (_ _ : ℚ) : ℚ := 7

/-- The reaction `A + B -> C` with the rate `2`. -/
def demo_reaction_AB_C_two : reaction_type :=
  { demo_reaction_AB_C with rate := 2 }

/-! ### The chemistry step (`src/calc_chemistry.cpp`)

A grid-shaped field (`fcube`) is the list of its cells. The classes `Neutrals`
and `Ions` and the struct of one species are declared in headers that are not
part of the sources: of a species only the four fields that `calc_chemistry`
touches are named, the other members are carried in `rest`. The numbers of
species `nSpecies` and `nIons`, the functions `Ions::fill_electrons`,
`Chemistry::calc_chemical_sources` and `solver_chemistry`, and the time step
are parameters. -/

/-- The call `g.zeros()` on a field: every cell is set to zero, the size is
kept. -/
def zeros (g : List ℚ) : List ℚ :=
  g.map (fun _ => 0)

/-- One species of `neutrals.neutrals` or of `ions.species`. -/
structure species_chars (ρ : Type) where
  density_scgc : List ℚ
  sources_scgc : List ℚ
  losses_scgc : List ℚ
  ionization_scgc : List ℚ
  rest : ρ

/-- The class `Neutrals`: the vector `neutrals` of its species, and its other
members. -/
structure Neutrals (ρ σ : Type) where
  neutrals : List (species_chars ρ)
  rest : σ

/-- The class `Ions`: the vector `species` of its species, and its other
members. -/
structure Ions (ρ σ : Type) where
  species : List (species_chars ρ)
  rest : σ

/-- An assignment to members of the element `v[i]` of a vector, `f` giving the
element after it from the element before it. -/
def update_at {α : Type} (v : List α) (i : Nat) (f : α → α) : Except Fault (List α) :=
  match v[i]? with
  | some x => .ok (v.set i (f x))
  | none => .error .out_of_range

/-- A loop `for (iSpecies = i; iSpecies < n; iSpecies++)` whose body updates
`v[iSpecies]` by `f`, with `k` iterations left. -/
def species_loop {α : Type} (f : α → α) : Nat → Nat → List α → Except Fault (List α)
  | 0, _, v => .ok v
  | k + 1, i, v =>
    match update_at v i f with
    | .error e => .error e
    | .ok v => species_loop f k (i + 1) v

/-- Body of the loop "Neutrals have losses due to ionization":
`losses_scgc = ionization_scgc; sources_scgc.zeros();`. -/
def init_neutral {ρ : Type} (s : species_chars ρ) : species_chars ρ :=
  { s with losses_scgc := s.ionization_scgc, sources_scgc := zeros s.sources_scgc }

/-- Body of the loop "Ions have sources due to ionization":
`losses_scgc.zeros(); sources_scgc = ionization_scgc;`. -/
def init_ion {ρ : Type} (s : species_chars ρ) : species_chars ρ :=
  { s with losses_scgc := zeros s.losses_scgc, sources_scgc := s.ionization_scgc }

/-- Body of the two loops "solve for new densities":
`density_scgc = solver_chemistry(density_scgc, sources_scgc, losses_scgc, dt);`. -/
def solve_species {ρ : Type} (solver_chemistry : List ℚ → List ℚ → List ℚ → ℚ → List ℚ)
    (dt : ℚ) (s : species_chars ρ) : species_chars ρ :=
  { s with density_scgc := solver_chemistry s.density_scgc s.sources_scgc s.losses_scgc dt }

/-- The block "Initialize the sources and losses with EUV stuff" of
`calc_chemistry`: the loop over the neutrals, then the loop over the ions. -/
def initialize_sources_losses {ρ σ : Type} (nSpecies nIons : Nat)
    (neutrals : Neutrals ρ σ) (ions : Ions ρ σ) :
    Except Fault (Neutrals ρ σ × Ions ρ σ) :=
  match species_loop init_neutral nSpecies 0 neutrals.neutrals with
  | .error e => .error e
  | .ok ns =>
    match species_loop init_ion nIons 0 ions.species with
    | .error e => .error e
    | .ok is => .ok ({ neutrals with neutrals := ns }, { ions with species := is })

/-- The block "Once sources and losses are done, solve for new densities" of
`calc_chemistry`: the loop over the neutrals, then the loop over the ions. -/
def solve_densities {ρ σ : Type} (nSpecies nIons : Nat)
    (solver_chemistry : List ℚ → List ℚ → List ℚ → ℚ → List ℚ) (dt : ℚ)
    (neutrals : Neutrals ρ σ) (ions : Ions ρ σ) :
    Except Fault (Neutrals ρ σ × Ions ρ σ) :=
  match species_loop (solve_species solver_chemistry dt) nSpecies 0 neutrals.neutrals with
  | .error e => .error e
  | .ok ns =>
    match species_loop (solve_species solver_chemistry dt) nIons 0 ions.species with
    | .error e => .error e
    | .ok is => .ok ({ neutrals with neutrals := ns }, { ions with species := is })

/-- The function `Chemistry::calc_chemistry`: the objects `neutrals` and `ions`,
passed by reference, as the call leaves them. -/
def calc_chemistry {ρ σ : Type} (nSpecies nIons : Nat)
    (fill_electrons : Ions ρ σ → Ions ρ σ)
    (calc_chemical_sources : Neutrals ρ σ × Ions ρ σ → Neutrals ρ σ × Ions ρ σ)
    (solver_chemistry : List ℚ → List ℚ → List ℚ → ℚ → List ℚ) (dt : ℚ)
    (neutrals : Neutrals ρ σ) (ions : Ions ρ σ) :
    Except Fault (Neutrals ρ σ × Ions ρ σ) :=
  -- ions.fill_electrons(report);
  let ions := fill_electrons ions
  match initialize_sources_losses nSpecies nIons neutrals ions with
  | .error e => .error e
  | .ok initialized =>
    -- calc_chemical_sources(neutrals, ions, report);
    let sourced := calc_chemical_sources initialized
    match solve_densities nSpecies nIons solver_chemistry dt sourced.1 sourced.2 with
    | .error e => .error e
    | .ok solved =>
      -- ions.fill_electrons(report);
      .ok (solved.1, fill_electrons solved.2)

/-! ### The chemistry step as the specification words it -/

/-- The first `n` elements of a vector changed by `f`, the others kept. -/
def on_first {α : Type} (n : Nat) (f : α → α) (v : List α) : List α :=
  (v.take n).map f ++ v.drop n

/-- Accumulator initialisation as the specification words it: every neutral
species gets its ionization rate as loss rate and zero as source rate, every
ion species gets its ionization rate as source rate and zero as loss rate. -/
def initial_accumulators {ρ σ : Type} (nSpecies nIons : Nat)
    (state : Neutrals ρ σ × Ions ρ σ) : Neutrals ρ σ × Ions ρ σ :=
  ({ state.1 with neutrals := on_first nSpecies init_neutral state.1.neutrals },
   { state.2 with species := on_first nIons init_ion state.2.species })

/-- The integration phase as the specification words it: the density of each
neutral and of each ion species is replaced by `solver_chemistry` of that
species' own density, sources and losses and of `dt`; nothing else changes. -/
def integration_phase {ρ σ : Type} (nSpecies nIons : Nat)
    (solver_chemistry : List ℚ → List ℚ → List ℚ → ℚ → List ℚ) (dt : ℚ)
    (state : Neutrals ρ σ × Ions ρ σ) : Neutrals ρ σ × Ions ρ σ :=
  ({ state.1 with
      neutrals := on_first nSpecies (solve_species solver_chemistry dt) state.1.neutrals },
   { state.2 with
      species := on_first nIons (solve_species solver_chemistry dt) state.2.species })

/-- The step as the specification words it: the electron densities are
reconciled, the accumulators initialised, the sources and losses evaluated, the
densities integrated, and the electron densities reconciled again. -/
def calc_chemistry_composed {ρ σ : Type} (nSpecies nIons : Nat)
    (fill_electrons : Ions ρ σ → Ions ρ σ)
    (calc_chemical_sources : Neutrals ρ σ × Ions ρ σ → Neutrals ρ σ × Ions ρ σ)
    (solver_chemistry : List ℚ → List ℚ → List ℚ → ℚ → List ℚ) (dt : ℚ)
    (state : Neutrals ρ σ × Ions ρ σ) : Neutrals ρ σ × Ions ρ σ :=
  let reconciled := (state.1, fill_electrons state.2)
  let initialised := initial_accumulators nSpecies nIons reconciled
  let sourced := calc_chemical_sources initialised
  let integrated := integration_phase nSpecies nIons solver_chemistry dt sourced
  (integrated.1, fill_electrons integrated.2)

/-- A species for the examples: density 1, sources 2, losses 3 and ionization
rate 4 in its single cell. -/
def demo_species : species_chars Unit :=
  { density_scgc := [1], sources_scgc := [2], losses_scgc := [3], ionization_scgc := [4],
    rest := () }

/-- The neutrals of the examples: one species. -/
def demo_Neutrals : Neutrals Unit Unit :=
  { neutrals := [demo_species], rest := () }

/-- The ions of the examples: one ion species, and one more element of
`species` after it. -/
def demo_Ions : Ions Unit Unit :=
  { species := [demo_species, demo_species], rest := () }

/-- A solver for the examples: the new density is the source rate. -/
def demo_solver (_ sources _ : List ℚ) (_ : ℚ) : List ℚ := sources

/-! ### The time routines (`src/time_conversion.cpp`)

The constants come from a header that is not part of the sources and are
gathered in `time_constants`.

In `day_of_year` and `time_int_to_real` an `int` is an integer of the 32-bit
range, an operation on `int`s that leaves the range being a fault
(`int_result`), and a `double` is a rational that a binary64 holds, every
operation on `double`s being rounded (`to_double`). The arguments are `int`s:
they are in the range. The conversion of an `int` to `double` is exact.

`time_real_to_int` is only evaluated, at whole numbers of seconds, where each of
its operations is exact: there a `double` is carried as a rational and an
`int` as an integer. -/

/-- The constants that the time routines use. -/
structure time_constants where
  reference_year : Int
  days_of_month : List Int
  seconds_per_minute : ℚ
  seconds_per_hour : ℚ
  seconds_per_day : ℚ
  seconds_per_year : ℚ

/-- The values of the constants for the reference instant 1965-01-01 00:00 UT:
a year of 365 days of 86400 seconds. -/
def standard_constants : time_constants :=
  { reference_year := 1965,
    days_of_month := [31, 28, 31, 30, 31, 30, 31, 31, 30, 31, 30, 31],
    seconds_per_minute := 60,
    seconds_per_hour := 3600,
    seconds_per_day := 86400,
    seconds_per_year := 365 * 86400 }

/-- The result of an operation on `int`s: a number outside the range of a
32-bit `int` is an overflow, which the language leaves undefined. -/
def int_result (x : Int) : Except Fault Int :=
  if -2147483648 ≤ x ∧ x ≤ 2147483647 then .ok x else .error .overflow

/-- The number of halvings that bring `n` below `2`, with `fuel` halvings at
most. -/
def halvings : Nat → Nat → Nat
  | 0, _ => 0
  | fuel + 1, n => if n < 2 then 0 else halvings fuel (n / 2) + 1

/-- The integer `k` with `2 ^ k ≤ |q| < 2 ^ (k + 1)`, for `q ≠ 0`: the binary
exponent of `q`. -/
def binade (q : ℚ) : Int :=
  let k : Int := (halvings q.num.natAbs q.num.natAbs : Int) - (halvings q.den q.den : Int)
  if (2 : ℚ) ^ k ≤ |q| then k else k - 1

/-- The integer nearest to `x`, the even one when two integers are as near. -/
def round_even (x : ℚ) : Int :=
  if x - ⌊x⌋ < 1 / 2 then ⌊x⌋
  else if 1 / 2 < x - ⌊x⌋ then ⌊x⌋ + 1
  else if ⌊x⌋ % 2 = 0 then ⌊x⌋ else ⌊x⌋ + 1

/-- The `double` that an operation with the exact result `q` returns: `q`
rounded to 53 significant binary digits, or to a multiple of `2 ^ (-1074)`
below the normal range, to the nearest with ties to even (IEEE 754 binary64
in its default rounding mode). A result that is not finite, an infinity, is
not a number of the embedding. -/
def to_double (q : ℚ) : Except Fault ℚ :=
  if q = 0 then .ok 0
  else
    if |(round_even (q / 2 ^ max (binade q - 52) (-1074)) : ℚ) * 2 ^ max (binade q - 52) (-1074)|
        < 2 ^ (1024 : Int) then
      .ok ((round_even (q / 2 ^ max (binade q - 52) (-1074)) : ℚ) *
        2 ^ max (binade q - 52) (-1074))
    else .error .not_finite

/-- The sum `x + y` of two `double`s. -/
def double_add (x y : ℚ) : Except Fault ℚ :=
  to_double (x + y)

/-- The product `x * y` of two `double`s. -/
def double_mul (x y : ℚ) : Except Fault ℚ :=
  to_double (x * y)

/-- The quotient `x / y` of two `double`s; by zero it is an infinity or not a
number. -/
def double_div (x y : ℚ) : Except Fault ℚ :=
  if y = 0 then .error .not_finite else to_double (x / y)

/-- The loop `for (i = i0; i < month; i++)` of `day_of_year`, at `i` with `k`
iterations left and the sum `doy` so far. -/
def day_of_year_loop (cst : time_constants) (year : Int) : Nat → Int → Int → Except Fault Int
  | 0, _, doy => .ok doy
  | k + 1, i, doy =>
    -- doy += days_of_month[i-1];
    match at_index cst.days_of_month (i - 1) with
    | .error e => .error e
    | .ok d =>
      match int_result (doy + d) with
      | .error e => .error e
      | .ok doy =>
        -- if (year % 4 == 0 && i == 2) doy++;
        match (if year.tmod 4 = 0 ∧ i = 2 then int_result (doy + 1) else .ok doy) with
        | .error e => .error e
        | .ok doy => day_of_year_loop cst year k (i + 1) doy

/-- The function `day_of_year`. -/
def day_of_year (cst : time_constants) (year month day : Int) : Except Fault Int :=
  match day_of_year_loop cst year (month - 1).toNat 1 0 with
  | .error e => .error e
  | .ok doy => int_result (doy + day)

/-- The function `time_int_to_real`. The sum is evaluated from the left, each
product before it is added. -/
def time_int_to_real (cst : time_constants) (itime : List Int) : Except Fault ℚ := do
  let year ← at_index itime 0
  -- int nYears = itime[0] - reference_year;
  let nYears ← int_result (year - cst.reference_year)
  let nLeaps := nYears.tdiv 4
  let month ← at_index itime 1
  let day ← at_index itime 2
  let doy ← day_of_year cst year month day
  let nDays ← int_result (doy - 1)
  let millis ← at_index itime 6
  let seconds ← at_index itime 5
  let minutes ← at_index itime 4
  let hours ← at_index itime 3
  -- static_cast<double>(itime[6])/1000.0d + static_cast<double>(itime[5])
  let t ← double_div (millis : ℚ) 1000
  let t ← double_add t (seconds : ℚ)
  -- + static_cast<double>(itime[4]) * seconds_per_minute
  let p ← double_mul (minutes : ℚ) cst.seconds_per_minute
  let t ← double_add t p
  -- + static_cast<double>(itime[3]) * seconds_per_hour
  let p ← double_mul (hours : ℚ) cst.seconds_per_hour
  let t ← double_add t p
  -- + static_cast<double>(nDays+nLeaps) * seconds_per_day
  let n ← int_result (nDays + nLeaps)
  let p ← double_mul (n : ℚ) cst.seconds_per_day
  let t ← double_add t p
  -- + static_cast<double>(nYears) * seconds_per_year
  let p ← double_mul (nYears : ℚ) cst.seconds_per_year
  double_add t p

/-- The conversion of a `double` to `int`: the fraction is dropped. -/
def truncate (x : ℚ) : Int :=
  if 0 ≤ x then ⌊x⌋ else ⌈x⌉

/-- The assignment `itime[i] = x` to an element of a vector. -/
def write_at (v : List Int) (i : Nat) (x : Int) : Except Fault (List Int) :=
  if i < v.length then .ok (v.set i x) else .error .out_of_range

/-- The years and days of `time_real_to_int` before the leap days are taken
off: `(nYears, nLeaps, nDays)` after the statement
`if (nDays < nLeaps) { ... if (nDays < nLeaps) { ... } }`. -/
def years_and_days (cst : time_constants) (timereal : ℚ) : Int × Int × Int :=
  let nYears := truncate (timereal / cst.seconds_per_year)
  let nLeaps := nYears.tdiv 4
  let nDays := truncate ((timereal - (nYears : ℚ) * cst.seconds_per_year) / cst.seconds_per_day)
  if nDays < nLeaps then
    let nYears := truncate ((timereal - (nLeaps : ℚ) * cst.seconds_per_day) / cst.seconds_per_year)
    let nLeaps := nYears.tdiv 4
    let nDays := truncate ((timereal - (nYears : ℚ) * cst.seconds_per_year) / cst.seconds_per_day)
    if nDays < nLeaps then
      let nYears :=
        truncate ((timereal - (nLeaps : ℚ) * cst.seconds_per_day) / cst.seconds_per_year)
      let nLeaps := nYears.tdiv 4
      let nDays :=
        truncate ((timereal - (nYears : ℚ) * cst.seconds_per_year) / cst.seconds_per_day)
      (nYears, nLeaps, nDays)
    else (nYears, nLeaps, nDays)
  else (nYears, nLeaps, nDays)

/-- The loop `while (nDays > days_of_month[nMonths-1] + add_on_days[nMonths-1])`
of `time_real_to_int`, over the elements of `add_on_days` not yet visited: the
pair `(nMonths, nDays)` after it. Past the last element of `add_on_days` the
read is outside the vector. -/
def month_loop (cst : time_constants) : List Int → Int → Int → Except Fault (Int × Int)
  | [], _, _ => .error .out_of_range
  | add :: rest, nMonths, nDays =>
    match at_index cst.days_of_month (nMonths - 1) with
    | .error e => .error e
    | .ok d =>
      if nDays > d + add then month_loop cst rest (nMonths + 1) (nDays - (d + add))
      else .ok (nMonths, nDays)

/-- The statements of `time_real_to_int` on the vector `itime` as declared. -/
def time_real_to_int_from (cst : time_constants) (itime : List Int) (timereal : ℚ) :
    Except Fault (List Int) := do
  let nYears := (years_and_days cst timereal).1
  let nLeaps := (years_and_days cst timereal).2.1
  -- nDays -= nLeaps;
  let nDays := (years_and_days cst timereal).2.2 - nLeaps
  let timeleft := timereal - (nYears : ℚ) * cst.seconds_per_year -
    ((nDays + nLeaps : Int) : ℚ) * cst.seconds_per_day
  let nHours := truncate (timeleft / cst.seconds_per_hour)
  let timeleft := timeleft - (nHours : ℚ) * cst.seconds_per_hour
  let nMinutes := truncate (timeleft / cst.seconds_per_minute)
  let timeleft := timeleft - (nMinutes : ℚ) * cst.seconds_per_minute
  let nSeconds := truncate timeleft
  let nMillis := truncate ((timeleft - (nSeconds : ℚ)) * 1000)
  -- itime[0] = nYears + reference_year;
  let itime ← write_at itime 0 (nYears + cst.reference_year)
  -- if (itime[0] % 4 == 0) iLeap=1;
  let year ← at_index itime 0
  let iLeap : Int := if year.tmod 4 = 0 then 1 else 0
  let months ← month_loop cst [0, iLeap, 0, 0, 0, 0, 0, 0, 0, 0, 0, 0] 1 nDays
  let itime ← write_at itime 1 months.1
  let itime ← write_at itime 2 (months.2 + 1)
  let itime ← write_at itime 3 nHours
  let itime ← write_at itime 4 nMinutes
  let itime ← write_at itime 5 nSeconds
  write_at itime 6 nMillis

/-- The function `time_real_to_int`. Its vector is declared by
`std::vector<int> itime;`, so it is empty when the statements run. -/
def time_real_to_int (cst : time_constants) (timereal : ℚ) : Except Fault (List Int) :=
  time_real_to_int_from cst [] timereal

/-! ### The calendar, for the statements about the time routines -/

/-- The leap years of the Gregorian calendar. -/
def is_leap_year (year : Int) : Bool :=
  decide (year % 4 = 0 ∧ (year % 100 ≠ 0 ∨ year % 400 = 0))

/-- The number of days of the month `month` (1 to 12) of a year of the
Gregorian calendar. -/
def days_in_month (year : Int) (month : Nat) : Int :=
  if month = 2 then (if is_leap_year year then 29 else 28)
  else if month = 4 ∨ month = 6 ∨ month = 9 ∨ month = 11 then 30
  else 31

/-- The number of days of a year of the Gregorian calendar. -/
def days_in_year (year : Int) : Int :=
  if is_leap_year year then 366 else 365

/-- The ordinal of a date within its year, 1 for January 1st: the days of the
months before it, plus the day of the month. -/
def ordinal_in_year (year month day : Int) : Int :=
  ((List.range (month - 1).toNat).map (fun k => days_in_month year (k + 1))).sum + day

/-- The number of whole calendar days between 1965-01-01 and a date: the days
of the years from 1965 to the year before the date, plus the days of the year
of the date that come before the date. -/
def days_since_1965 (year month day : Int) : Int :=
  ((List.range (year - 1965).toNat).map (fun (k : Nat) => days_in_year (1965 + (k : Int)))).sum +
    (ordinal_in_year year month day - 1)

/-! ### The species density integrator

The body of `solver_chemistry` is not part of the sources, which only call it
from `calc_chemistry`. -/

/-- Modelled from the spec: the body of `solver_chemistry` is missing from the
sources. This is the implicit balance that section 4.5 of the specification
recommends, at one cell: `n_new = (n_old + sourceRate * dt) / (1 + (lossRate /
max(n_old, epsilon)) * dt)`. The clamp of the result to a small positive floor,
which the same sentence mentions, is not part of it: the section requires of
every implementation the property (c), "when `sourceRate == lossRate == 0`,
density is unchanged", which such a floor breaks at the density zero. The
number `epsilon` is left open by the specification and is a parameter. -/
def solver_chemistry_cell (epsilon density source loss dt : ℚ) : ℚ :=
  (density + source * dt) / (1 + (loss / max density epsilon) * dt)

/-- Modelled from the spec: `solver_chemistry` on fields, which the
specification applies "independently, per species, per grid cell": the update
`solver_chemistry_cell` at every cell. -/
def solver_chemistry (epsilon : ℚ) : List ℚ → List ℚ → List ℚ → ℚ → List ℚ
  | d :: density, s :: sources, l :: losses, dt =>
    solver_chemistry_cell epsilon d s l dt ::
      solver_chemistry epsilon density sources losses dt
  | _, _, _, _ => []

/-! ### The conduction solver (`src/solver_conduction.cpp`)

An `fvec` that the function builds is carried as the function from the index
to the element, next to the number `nPts` of its elements; every index the
body uses is below `nPts` as soon as `nPts >= 2`. The `float` and `fvec`
entries are rationals: the arithmetic is exact. -/

/-- The element `v(j)` of an argument passed as a list. -/
def fvec_at (v : List ℚ) : Nat → ℚ :=
  fun j => v.getD j 0

/-- The statement `v(i) = x;` on a vector. -/
def put (v : Nat → ℚ) (i : Nat) (x : ℚ) : Nat → ℚ :=
  fun j => if j = i then x else v j

/-- The loop
`for (i = 2; i < nPts-2; i++) dl(i) = di(i+1) - di(i-1) * r(i) * r(i) - di(i) * (1.0-r(i)*r[i]);`
with `k` iterations left, the next one at `i`. -/
def dl_loop (di r : Nat → ℚ) : Nat → Nat → (Nat → ℚ) → (Nat → ℚ)
  | 0, _, dl => dl
  | k + 1, i, dl =>
    dl_loop di r k (i + 1)
      (put dl i (di (i + 1) - di (i - 1) * r i * r i - di i * (1 - r i * r i)))

/-- The loop `for (i = 2; i <= nPts-2; i++) cp(i) = c(i)/(b(i)-cp(i-1)*a(i));`
with `k` iterations left, the next one at `i`. -/
def cp_loop (a b c : Nat → ℚ) : Nat → Nat → (Nat → ℚ) → (Nat → ℚ)
  | 0, _, cp => cp
  | k + 1, i, cp =>
    cp_loop a b c k (i + 1) (put cp i (c i / (b i - cp (i - 1) * a i)))

/-- The loop
`for (i = 2; i <= nPts-2; i++) dp(i) = (d(i)-dp(i-1)*a(i))/(b(i)-cp(i-1)*a(i));`
with `k` iterations left, the next one at `i`. -/
def dp_loop (a b d cp : Nat → ℚ) : Nat → Nat → (Nat → ℚ) → (Nat → ℚ)
  | 0, _, dp => dp
  | k + 1, i, dp =>
    dp_loop a b d cp k (i + 1)
      (put dp i ((d i - dp (i - 1) * a i) / (b i - cp (i - 1) * a i)))

/-- The loop `for (i = nPts-3; i > 0; i--) result(i) = dp(i) - cp(i)*result(i+1);`
when `i` is the first argument: nothing is left to do at `i = 0`. -/
def result_loop (dp cp : Nat → ℚ) : Nat → (Nat → ℚ) → (Nat → ℚ)
  | 0, result => result
  | i + 1, result =>
    result_loop dp cp i (put result (i + 1) (dp (i + 1) - cp (i + 1) * result (i + 2)))

/-- The vectors of `solver_conduction` that the statements about it name, as
they are when the function returns. -/
structure conduction_locals where
  /-- The sub-diagonal of the system. -/
  a : Nat → ℚ
  /-- The diagonal of the system. -/
  b : Nat → ℚ
  /-- The super-diagonal of the system. -/
  c : Nat → ℚ
  /-- The right-hand side of the system. -/
  d : Nat → ℚ
  /-- The modified super-diagonal of the forward sweep. -/
  cp : Nat → ℚ
  /-- The modified right-hand side of the forward sweep. -/
  dp : Nat → ℚ
  /-- The solution of the system. -/
  result : Nat → ℚ
  /-- The vector that is returned. -/
  conduction : Nat → ℚ

/-- The body of `solver_conduction`, statement by statement. The operators
`%` and `/` of two vectors act element by element; `nPts - 4` and `nPts - 3`
are the numbers of iterations of the loops, none when the difference would be
negative. -/
def solver_conduction_locals (value lambda front : List ℚ) (dt : ℚ) (dx : List ℚ) :
    conduction_locals :=
  let nPts := value.length
  let di := fvec_at lambda
  let m : Nat → ℚ := fun j => dt / fvec_at front j
  -- du(span(0, nPts-2)) = dx(span(1, nPts-1)); du(nPts-1) = du(nPts-2);
  let du : Nat → ℚ := fun j => if j ≤ nPts - 2 then fvec_at dx (j + 1) else 0
  let du := put du (nPts - 1) (du (nPts - 2))
  let dl := fvec_at dx
  let r : Nat → ℚ := fun j => du j / dl j
  let du12 : Nat → ℚ := fun j => du j * du j * (1 + r j) * (1 + r j)
  let du22 : Nat → ℚ := fun j => (1 / 2) * (dl j * du j + du j * du j)
  -- `lou` is not used; `conduction.zeros()` is overwritten below
  let dl := dl_loop di r (nPts - 4) 2 dl
  let a : Nat → ℚ := fun j => di j / du22 j * r j - dl j / du12 j * r j * r j
  let c : Nat → ℚ := fun j => di j / du22 j + dl j / du12 j
  let b : Nat → ℚ := fun j =>
    -1 / m j - di j / du22 j * (1 + r j) - dl j / du12 j * (1 - r j * r j)
  let d : Nat → ℚ := fun j => -1 * fvec_at value j / m j
  -- Lower BCs (fixed value):
  let a := put a 1 0
  let b := put b 1 (-1)
  let c := put c 1 0
  let d := put d 1 (-1 * fvec_at value 1)
  -- Upper BCs:
  let i := nPts - 2
  let a := put a i (1 * (r i * (1 + r i) * di i * m i / du22 i))
  let b := put b i (-1 * (1 + r i * (1 + r i) * di i * m i / du22 i))
  let c := put c i 0
  let d := put d i (-1 * fvec_at value i)
  let cp : Nat → ℚ := fun _ => 0
  let dp : Nat → ℚ := fun _ => 0
  let result : Nat → ℚ := fun _ => 0
  let cp := put cp 1 (c 1 / b 1)
  let cp := cp_loop a b c (nPts - 3) 2 cp
  let dp := put dp 1 (d 1 / b 1)
  let dp := dp_loop a b d cp (nPts - 3) 2 dp
  let result := put result (nPts - 2) (dp (nPts - 2))
  let result := result_loop dp cp (nPts - 3) result
  let conduction : Nat → ℚ := fun j => result j - fvec_at value j
  let conduction := put conduction 0 0
  let conduction := put conduction 1 0
  let conduction := put conduction (nPts - 2) 0
  let conduction := put conduction (nPts - 1) 0
  ⟨a, b, c, d, cp, dp, result, conduction⟩

/-- The function `solver_conduction(value, lambda, front, dt, dx)`. The vector
library stops the program on sizes that do not agree and on indices outside a
vector, which is what happens when `lambda`, `front` or `dx` has not the length
of `value` and when `value` has fewer than two elements; else the vector
`conduction` of `nPts` elements is returned. -/
def solver_conduction (value lambda front : List ℚ) (dt : ℚ) (dx : List ℚ) :
    Option (List ℚ) :=
  let nPts := value.length
  if nPts < 2 ∨ lambda.length ≠ nPts ∨ front.length ≠ nPts ∨ dx.length ≠ nPts then none
  else
    some ((List.range nPts).map
      (solver_conduction_locals value lambda front dt dx).conduction)

/-! ### Concrete data for the conduction solver -/

/-- A column of six temperatures. -/
def demo_value : List ℚ := [1, 2, 4, 8, 5, 6]

/-- Six conductivities. -/
def demo_lambda : List ℚ := [1, 2, 1, 3, 1, 1]

/-- Six front factors. -/
def demo_front : List ℚ := [1, 1, 2, 1, 1, 1]

/-- Six cell spacings of a stretched grid. -/
def demo_dx : List ℚ := [1, 2, 1, 1, 3, 1]

theorem index_fst (h : hashtable) (k : String) : (h.index k).1 = (h.find k).getD 0 := by
  unfold hashtable.index
  cases h.find k <;> rfl

theorem find_index_snd (h : hashtable) (k k' : String) :
    ((h.index k).2.find k').getD 0 = (h.find k').getD 0 := by
  unfold hashtable.index
  cases hk : h.find k with
  | some v => rfl
  | none =>
    by_cases hkk : k' = k
    · subst hkk
      rw [hk]
      simp [hashtable.assign, hashtable.find, List.lookup]
    · have : (k' == k) = false := by simpa using hkk
      simp [hashtable.assign, hashtable.find, List.lookup, this]

theorem index_index_fst (h : hashtable) (k k' : String) :
    ((h.index k).2.index k').1 = (h.index k').1 := by
  rw [index_fst, index_fst, find_index_snd]

theorem index_of_find {h : hashtable} {k : String} {v : Nat} (hk : h.find k = some v) :
    (h.index k).1 = v := by
  rw [index_fst, hk]
  rfl

theorem build_headers_find_of_not_mem (name : String) :
    ∀ (row : List String) (i : Nat) (h : hashtable), name ∉ row →
      (build_headers row i h).find name = h.find name := by
  intro row
  induction row with
  | nil => intro i h _; rfl
  | cons a row ih =>
    intro i h hn
    simp only [List.mem_cons, not_or] at hn
    simp only [build_headers]
    rw [ih (i + 1) _ hn.2]
    have : (name == a) = false := by simpa using hn.1
    simp [hashtable.assign, hashtable.find, List.lookup, this]

/-! ### Lists and cells -/

theorem cell_ok {line : List String} {i : Nat} {s : String} (h : cell line i = .ok s) :
    (line)[i]? = some s := by
  unfold cell at h
  cases hl : (line)[i]? with
  | none => simp [hl] at h
  | some x => simp [hl] at h; simp [h]

theorem drop_of_getElem? {α : Type} {l : List α} {i : Nat} {x : α} (h : l[i]? = some x) :
    l.drop i = x :: l.drop (i + 1) := by
  obtain ⟨hi, hx⟩ := List.getElem?_eq_some_iff.mp h
  rw [List.drop_eq_getElem_cons hi, hx]

theorem bind_ok {α β : Type} {x : Except Fault α} {f : α → Except Fault β} {b : β}
    (h : x >>= f = .ok b) : ∃ a, x = .ok a ∧ f a = .ok b := by
  cases x with
  | error e => cases h
  | ok a => exact ⟨a, rfl, h⟩

/-- Replacing an element that passes a filter by one that fails it erases
that element from the filtered list, at the position given by the number of
passing elements before it. -/
theorem filter_set_of_fail {α : Type} (p : α → Bool) :
    ∀ (l : List α) (k : Nat) (x y : α), l[k]? = some x → p x = true → p y = false →
      (l.filter p)[((l.take k).filter p).length]? = some x ∧
      (l.set k y).filter p = (l.filter p).eraseIdx ((l.take k).filter p).length := by
  intro l
  induction l with
  | nil => intro k x y h; simp at h
  | cons a l ih =>
    intro k x y h hx hy
    cases k with
    | zero =>
      simp only [List.getElem?_cons_zero, Option.some.injEq] at h
      subst h
      simp [List.filter_cons, hx, hy]
    | succ k =>
      simp only [List.getElem?_cons_succ] at h
      obtain ⟨h1, h2⟩ := ih k x y h hx hy
      by_cases ha : p a = true
      · simp [List.filter_cons, ha, h1, h2]
      · simp [List.filter_cons, ha, h1, h2]

theorem map_eraseIdx_eq {α β : Type} (f : α → β) :
    ∀ (l : List α) (k : Nat), (l.eraseIdx k).map f = (l.map f).eraseIdx k := by
  intro l
  induction l with
  | nil => intro k; simp
  | cons a l ih =>
    intro k
    cases k with
    | zero => simp
    | succ k => simp [ih]

theorem columns_set (line : List String) (lo hi j : Nat) (c : String) (hj : lo ≤ j) :
    columns (line.set j c) lo hi = (columns line lo hi).set (j - lo) c := by
  unfold columns
  rw [List.drop_set, if_neg (by omega), List.set_take]

theorem columns_getElem? (line : List String) (lo hi j : Nat) (hlo : lo ≤ j) (hhi : j ≤ hi) :
    (columns line lo hi)[j - lo]? = (line)[j]? := by
  unfold columns
  rw [List.getElem?_take_of_lt (by omega), List.getElem?_drop]
  congr 1
  omega

theorem columns_take (line : List String) (lo hi j : Nat) (hhi : j ≤ hi) :
    (columns line lo hi).take (j - lo) = (line.drop lo).take (j - lo) := by
  unfold columns
  rw [List.take_take]
  congr 1
  omega

theorem columns_three (line : List String) (a : Nat)
    (hlen : (columns line a (a + 2)).length = a + 2 + 1 - a) :
    ∃ x y z, columns line a (a + 2) = [x, y, z] ∧
      cell line a = .ok x ∧ cell line (a + 1) = .ok y ∧ cell line (a + 2) = .ok z := by
  have h3 : (columns line a (a + 2)).length = 3 := by omega
  obtain ⟨x, y, z, hxyz⟩ := List.length_eq_three.mp h3
  have h0 := columns_getElem? line a (a + 2) a (le_refl a) (by omega)
  have h1 := columns_getElem? line a (a + 2) (a + 1) (by omega) (by omega)
  have h2 := columns_getElem? line a (a + 2) (a + 2) (by omega) (le_refl _)
  rw [hxyz] at h0 h1 h2
  rw [show a - a = 0 by omega] at h0
  rw [show a + 1 - a = 1 by omega] at h1
  rw [show a + 2 - a = 2 by omega] at h2
  simp only [List.getElem?_cons_zero, List.getElem?_cons_succ] at h0 h1 h2
  refine ⟨x, y, z, hxyz, ?_, ?_, ?_⟩
  · simp only [cell, ← h0]
  · simp only [cell, ← h1]
  · simp only [cell, ← h2]

/-! ### The row interpreter -/

theorem interpret_rate_species (stof : String → Option ℚ) (line : List String)
    (r r' : reaction_type) (h h' : hashtable)
    (hr : interpret_rate stof line r h = .ok (r', h')) :
    species_part r' = species_part r := by
  unfold interpret_rate at hr
  obtain ⟨s, -, hr⟩ := bind_ok hr
  obtain ⟨rate, -, hr⟩ := bind_ok hr
  obtain ⟨s, -, hr⟩ := bind_ok hr
  obtain ⟨b, -, hr⟩ := bind_ok hr
  obtain ⟨s', -, hr⟩ := bind_ok hr
  obtain ⟨e, -, hr⟩ := bind_ok hr
  simp only [pure, Except.pure, Except.ok.injEq, Prod.mk.injEq] at hr
  rw [← hr.1]
  rfl

theorem interpret_temperature_species (stof : String → Option ℚ) (line : List String)
    (r r' : reaction_type) (h h' : hashtable)
    (hr : interpret_temperature stof line r h = .ok (r', h')) :
    species_part r' = species_part r := by
  unfold interpret_temperature at hr
  obtain ⟨s, -, hr⟩ := bind_ok hr
  split at hr
  · obtain ⟨n, -, hr⟩ := bind_ok hr
    obtain ⟨d, -, hr⟩ := bind_ok hr
    obtain ⟨e, -, hr⟩ := bind_ok hr
    obtain ⟨x, -, hr⟩ := bind_ok hr
    simp only [pure, Except.pure, Except.ok.injEq, Prod.mk.injEq] at hr
    rw [← hr.1]
    rfl
  · simp only [pure, Except.pure, Except.ok.injEq, Prod.mk.injEq] at hr
    rw [← hr.1]
    rfl

theorem interpret_formula_species (stof : String → Option ℚ) (stoi : String → Option Int)
    (line : List String) (r r' : reaction_type) (h h' : hashtable)
    (hr : interpret_formula stof stoi line r h = .ok (r', h')) :
    species_part r' = species_part r := by
  unfold interpret_formula at hr
  obtain ⟨t, ht, hr⟩ := bind_ok hr
  obtain ⟨p, -, hr⟩ := bind_ok hr
  obtain ⟨s1, -, hr⟩ := bind_ok hr
  obtain ⟨mn, -, hr⟩ := bind_ok hr
  obtain ⟨s2, -, hr⟩ := bind_ok hr
  obtain ⟨mx, -, hr⟩ := bind_ok hr
  obtain ⟨s3, -, hr⟩ := bind_ok hr
  obtain ⟨ty, -, hr⟩ := bind_ok hr
  simp only [pure, Except.pure, Except.ok.injEq, Prod.mk.injEq] at hr
  have h1 := interpret_temperature_species stof line _ t.1 _ t.2 ht
  rw [← hr.1]
  exact h1

theorem column_loop_add_loss (neutrals ions : String → Int) (line : List String) :
    ∀ (n lo : Nat) (r r' : reaction_type),
      column_loop (add_loss neutrals ions line) n lo r = .ok r' →
      ((line.drop lo).take n).length = n ∧
      r' = { r with
        losses_names :=
          r.losses_names ++ (resolved_species neutrals ions ((line.drop lo).take n)).1,
        losses_ids :=
          r.losses_ids ++ (resolved_species neutrals ions ((line.drop lo).take n)).2.1,
        losses_IsNeutral :=
          r.losses_IsNeutral ++ (resolved_species neutrals ions ((line.drop lo).take n)).2.2.1,
        nLosses :=
          r.nLosses + (resolved_species neutrals ions ((line.drop lo).take n)).2.2.2 } := by
  intro n
  induction n with
  | zero =>
    intro lo r r' h
    simp only [column_loop, Except.ok.injEq] at h
    subst h
    simp [resolved_species]
  | succ n ih =>
    intro lo r r' h
    simp only [column_loop] at h
    cases hb : add_loss neutrals ions line r lo with
    | error e => simp [hb] at h
    | ok r1 =>
      simp only [hb] at h
      obtain ⟨hlen, hr'⟩ := ih (lo + 1) r1 r' h
      unfold add_loss at hb
      cases hc : cell line lo with
      | error e => simp [hc] at hb
      | ok name =>
        have hd := drop_of_getElem? (cell_ok hc)
        simp only [hc] at hb
        rw [hd, List.take_succ_cons]
        refine ⟨by simp [hlen], ?_⟩
        by_cases hres : (find_species_id neutrals ions name).1 ≥ 0
        · simp only [hres, if_true, Except.ok.injEq] at hb
          subst hb
          have : resolves neutrals ions name = true := by simpa [resolves] using hres
          rw [hr']
          simp [resolved_species, List.filter_cons, this, add_assoc, add_comm]
        · simp only [hres, if_false, Except.ok.injEq] at hb
          subst hb
          have : resolves neutrals ions name = false := by simpa [resolves] using hres
          rw [hr']
          simp [resolved_species, List.filter_cons, this]

theorem column_loop_add_source (neutrals ions : String → Int) (line : List String) :
    ∀ (n lo : Nat) (r r' : reaction_type),
      column_loop (add_source neutrals ions line) n lo r = .ok r' →
      ((line.drop lo).take n).length = n ∧
      r' = { r with
        sources_names :=
          r.sources_names ++ (resolved_species neutrals ions ((line.drop lo).take n)).1,
        sources_ids :=
          r.sources_ids ++ (resolved_species neutrals ions ((line.drop lo).take n)).2.1,
        sources_IsNeutral :=
          r.sources_IsNeutral ++ (resolved_species neutrals ions ((line.drop lo).take n)).2.2.1,
        nSources :=
          r.nSources + (resolved_species neutrals ions ((line.drop lo).take n)).2.2.2 } := by
  intro n
  induction n with
  | zero =>
    intro lo r r' h
    simp only [column_loop, Except.ok.injEq] at h
    subst h
    simp [resolved_species]
  | succ n ih =>
    intro lo r r' h
    simp only [column_loop] at h
    cases hb : add_source neutrals ions line r lo with
    | error e => simp [hb] at h
    | ok r1 =>
      simp only [hb] at h
      obtain ⟨hlen, hr'⟩ := ih (lo + 1) r1 r' h
      unfold add_source at hb
      cases hc : cell line lo with
      | error e => simp [hc] at hb
      | ok name =>
        have hd := drop_of_getElem? (cell_ok hc)
        simp only [hc] at hb
        rw [hd, List.take_succ_cons]
        refine ⟨by simp [hlen], ?_⟩
        by_cases hres : (find_species_id neutrals ions name).1 ≥ 0
        · simp only [hres, if_true, Except.ok.injEq] at hb
          subst hb
          have : resolves neutrals ions name = true := by simpa [resolves] using hres
          rw [hr']
          simp [resolved_species, List.filter_cons, this, add_assoc, add_comm]
        · simp only [hres, if_false, Except.ok.injEq] at hb
          subst hb
          have : resolves neutrals ions name = false := by simpa [resolves] using hres
          rw [hr']
          simp [resolved_species, List.filter_cons, this]

/-- What a successful `interpret_reaction_line` stores in the species members:
the resolved cells of the loss columns and of the source columns, all of which
exist in the row. -/
theorem interpret_reaction_line_species_part (neutrals ions : String → Int)
    (stof : String → Option ℚ) (stoi : String → Option Int) (u : reaction_type)
    (line : List String) (headers : hashtable) (r : reaction_type) (h' : hashtable)
    (hr : interpret_reaction_line neutrals ions stof stoi u line headers = .ok (r, h')) :
    species_part r =
      (resolved_species neutrals ions (loss_cells line headers),
       resolved_species neutrals ions (source_cells line headers)) ∧
    (loss_cells line headers).length =
      (headers.index "loss3").1 + 1 - (headers.index "loss1").1 ∧
    (source_cells line headers).length =
      (headers.index "source3").1 + 1 - (headers.index "source1").1 := by
  unfold interpret_reaction_line at hr
  obtain ⟨l, hl, hr⟩ := bind_ok hr
  obtain ⟨s, hs, hr⟩ := bind_ok hr
  obtain ⟨t, ht, hr⟩ := bind_ok hr
  have h4 := interpret_formula_species stof stoi line t.1 r t.2 h' hr
  have h3 := interpret_rate_species stof line s.1 t.1 s.2 t.2 ht
  unfold interpret_losses at hl
  unfold interpret_sources at hs
  simp only [index_index_fst] at hl
  cases hcl : column_loop (add_loss neutrals ions line)
      ((headers.index "loss3").1 + 1 - (headers.index "loss1").1) (headers.index "loss1").1
      { reaction_type.fresh u with nLosses := 0 } with
  | error e => simp [hcl] at hl
  | ok r1 =>
    simp only [hcl, Except.ok.injEq] at hl
    subst hl
    simp only [index_index_fst] at hs
    cases hcs : column_loop (add_source neutrals ions line)
        ((headers.index "source3").1 + 1 - (headers.index "source1").1)
        (headers.index "source1").1 { r1 with nSources := 0 } with
    | error e => simp [hcs] at hs
    | ok r2 =>
      simp only [hcs, Except.ok.injEq] at hs
      subst hs
      obtain ⟨hlen1, hr1⟩ := column_loop_add_loss neutrals ions line _ _ _ _ hcl
      obtain ⟨hlen2, hr2⟩ := column_loop_add_source neutrals ions line _ _ _ _ hcs
      refine ⟨?_, hlen1, hlen2⟩
      rw [h4, h3, hr2, hr1]
      simp [species_part, reaction_type.fresh, loss_cells, source_cells, columns]

theorem resolved_species_ids (neutrals ions : String → Int) (cells : List String) :
    (resolved_species neutrals ions cells).2.1 =
      (cells.map (species_id neutrals ions)).filter (fun i => decide (0 ≤ i)) := by
  rw [List.filter_map]
  rfl

theorem resolved_species_set (neutrals ions : String → Int) (cells : List String) (k : Nat)
    (c c' : String) (hk : cells[k]? = some c) (hc : 0 ≤ species_id neutrals ions c)
    (hc' : species_id neutrals ions c' < 0) :
    (resolved_species neutrals ions (cells.set k c')).2.2.2 =
        (resolved_species neutrals ions cells).2.2.2 - 1 ∧
    (resolved_species neutrals ions cells).2.1[((cells.take k).filter
        (resolves neutrals ions)).length]? = some (species_id neutrals ions c) ∧
    (resolved_species neutrals ions (cells.set k c')).2.1 =
        (resolved_species neutrals ions cells).2.1.eraseIdx
          ((cells.take k).filter (resolves neutrals ions)).length := by
  have h1 : resolves neutrals ions c = true := by simpa [resolves, species_id] using hc
  have h2 : resolves neutrals ions c' = false := by simpa [resolves, species_id] using hc'
  obtain ⟨hget, hset⟩ := filter_set_of_fail (resolves neutrals ions) cells k c c' hk h1 h2
  have hlt : ((cells.take k).filter (resolves neutrals ions)).length <
      (cells.filter (resolves neutrals ions)).length :=
    (List.getElem?_eq_some_iff.mp hget).1
  refine ⟨?_, ?_, ?_⟩
  · simp only [resolved_species, hset, List.length_eraseIdx_of_lt hlt]
    omega
  · simp only [resolved_species, List.getElem?_map, hget, Option.map_some', species_id]
  · simp only [resolved_species, hset, map_eraseIdx_eq]

/-! ### The row loop -/

theorem read_line_inherit_ok {reactions : List reaction_type} {reaction x : reaction_type}
    (h : read_line_inherit reactions reaction = .ok x) :
    (¬ (reaction.nLosses = 0 ∧ reaction.nSources = 0) ∧ x = reaction) ∨
    ((reaction.nLosses = 0 ∧ reaction.nSources = 0) ∧
      ∃ last, reactions.getLast? = some last ∧ x = inherit reaction last) := by
  unfold read_line_inherit at h
  split at h
  · next hz =>
    right
    refine ⟨hz, ?_⟩
    cases hl : reactions.getLast? with
    | none => simp [hl] at h
    | some last =>
      simp only [hl, Except.ok.injEq] at h
      exact ⟨last, rfl, h.symm⟩
  · next hz =>
    left
    simp only [Except.ok.injEq] at h
    exact ⟨hz, h.symm⟩

theorem read_line_store_reactions (chem : Chemistry) (reaction : reaction_type) :
    ((read_line_store chem reaction).reactions = chem.reactions ∧
      ¬ (reaction.nLosses > 0 ∧ reaction.nSources > 0)) ∨
    ((read_line_store chem reaction).reactions = chem.reactions ++ [reaction] ∧
      has_both_sides reaction) := by
  unfold read_line_store
  by_cases h : reaction.nLosses > 0 ∧ reaction.nSources > 0
  · right
    simp only [h, and_self, if_true, true_and]
    exact ⟨by omega, by omega⟩
  · left
    simp only [h, if_false, true_and, not_false_eq_true, and_self]

/-- One row appends at most one reaction, and one with both sides. -/
theorem read_line_reactions (neutrals ions : String → Int)
    (stof : String → Option ℚ) (stoi : String → Option Int) (u : reaction_type)
    (st st' : reader_state) (row : List String)
    (h : read_line neutrals ions stof stoi u st row = .ok st') :
    ∃ suffix, st'.chem.reactions = st.chem.reactions ++ suffix ∧
      ∀ r ∈ suffix, has_both_sides r := by
  unfold read_line at h
  obtain ⟨p, -, h⟩ := bind_ok h
  obtain ⟨x, -, h⟩ := bind_ok h
  simp only [pure, Except.pure, Except.ok.injEq] at h
  subst h
  rcases read_line_store_reactions st.chem x with ⟨h1, -⟩ | ⟨h1, h2⟩
  · exact ⟨[], by simp [h1], by simp⟩
  · exact ⟨[x], h1, by simpa using h2⟩

/-- The row loop only appends reactions, each with both sides. -/
theorem read_lines_reactions (neutrals ions : String → Int)
    (stof : String → Option ℚ) (stoi : String → Option Int) (u : reaction_type) :
    ∀ (rows : List (List String)) (st st' : reader_state),
      read_lines neutrals ions stof stoi u rows st = .ok st' →
      ∃ suffix, st'.chem.reactions = st.chem.reactions ++ suffix ∧
        ∀ r ∈ suffix, has_both_sides r := by
  intro rows
  induction rows with
  | nil =>
    intro st st' h
    simp only [read_lines, Except.ok.injEq] at h
    subst h
    exact ⟨[], by simp, by simp⟩
  | cons row rows ih =>
    intro st st' h
    simp only [read_lines] at h
    cases h1 : read_line neutrals ions stof stoi u st row with
    | error e => simp [h1] at h
    | ok st1 =>
      simp only [h1] at h
      obtain ⟨s1, hs1, hb1⟩ := read_line_reactions neutrals ions stof stoi u st st1 row h1
      obtain ⟨s2, hs2, hb2⟩ := ih st1 st' h
      refine ⟨s1 ++ s2, by rw [hs2, hs1, List.append_assoc], ?_⟩
      intro r hr
      rcases List.mem_append.mp hr with hr | hr
      · exact hb1 r hr
      · exact hb2 r hr

theorem read_lines_append (neutrals ions : String → Int)
    (stof : String → Option ℚ) (stoi : String → Option Int) (u : reaction_type) :
    ∀ (pre rest : List (List String)) (st : reader_state),
      read_lines neutrals ions stof stoi u (pre ++ rest) st =
        match read_lines neutrals ions stof stoi u pre st with
        | .error e => .error e
        | .ok st1 => read_lines neutrals ions stof stoi u rest st1 := by
  intro pre
  induction pre with
  | nil => intro rest st; rfl
  | cons row pre ih =>
    intro rest st
    simp only [List.cons_append, read_lines]
    cases read_line neutrals ions stof stoi u st row with
    | error e => rfl
    | ok st1 => exact ih rest st1

/-- What the row loop does on a row that has a rate and resolves no species,
when a reaction is stored already: it appends the reaction of the row completed
from the last stored one. -/
theorem read_line_continuation (neutrals ions : String → Int)
    (stof : String → Option ℚ) (stoi : String → Option Int) (u : reaction_type)
    (st st1 : reader_state) (row : List String) (s : String) (r : reaction_type)
    (h' : hashtable)
    (hinv : ∀ x ∈ st.chem.reactions, 1 ≤ x.nLosses ∧ 1 ≤ x.nSources)
    (hrate : cell row (st.headers.index "rate").1 = .ok s) (hs : 0 < s.length)
    (hrow : interpret_reaction_line neutrals ions stof stoi u row
      ((st.headers.index "rate").2.index "loss1").2 = .ok (r, h'))
    (hzero : r.nLosses = 0 ∧ r.nSources = 0)
    (h : read_line neutrals ions stof stoi u st row = .ok st1) :
    ∃ last, st.chem.reactions.getLast? = some last ∧
      st1.chem.reactions = st.chem.reactions ++ [inherit r last] := by
  unfold read_line at h
  obtain ⟨p, hp, h⟩ := bind_ok h
  obtain ⟨x, hx, h⟩ := bind_ok h
  simp only [pure, Except.pure, Except.ok.injEq] at h
  subst h
  unfold read_line_interpret at hp
  obtain ⟨s', hs', hp⟩ := bind_ok hp
  rw [hrate] at hs'
  cases hs'
  rw [if_pos hs] at hp
  obtain ⟨c, -, hp⟩ := bind_ok hp
  rw [hrow] at hp
  cases hp
  rcases read_line_inherit_ok hx with ⟨hne, -⟩ | ⟨-, last, hlast, hxe⟩
  · exact absurd hzero hne
  · refine ⟨last, hlast, ?_⟩
    have hmem : last ∈ st.chem.reactions := List.mem_of_getLast?_eq_some hlast
    have hboth := hinv last hmem
    rcases read_line_store_reactions st.chem x with ⟨-, hno⟩ | ⟨hyes, -⟩
    · exfalso
      apply hno
      rw [hxe]
      exact ⟨by show last.nLosses > 0; omega, by show last.nSources > 0; omega⟩
    · show (read_line_store st.chem x).reactions = _
      rw [hyes, hxe]

/-! ### The perturbation block -/

theorem at_index_ok {α : Type} {v : List α} {i : Int} {x : α} (h : at_index v i = .ok x) :
    v[i.toNat]? = some x := by
  unfold at_index at h
  split at h
  · cases h
  · cases hv : v[i.toNat]? with
    | none => simp [hv] at h
    | some y => simp only [hv, Except.ok.injEq] at h; rw [h]

theorem perturb_reaction_without_rate (stoi : String → Option Int)
    (sample : Nat → ℚ → ℚ → ℚ)
    (csv : List (List String)) (headers : hashtable) (draw : Nat)
    (reactions reactions' : List reaction_type) (i : Int)
    (h : perturb_reaction stoi sample csv headers draw reactions i = .ok reactions') :
    reactions'.map without_rate = reactions.map without_rate := by
  unfold perturb_reaction at h
  obtain ⟨row, -, h⟩ := bind_ok h
  obtain ⟨s, -, h⟩ := bind_ok h
  obtain ⟨v, -, h⟩ := bind_ok h
  obtain ⟨r, hr, h⟩ := bind_ok h
  simp only [pure, Except.pure, Except.ok.injEq] at h
  subst h
  have hr' := at_index_ok hr
  rw [List.map_set]
  apply List.ext_getElem?
  intro n
  by_cases hn : n = i.toNat
  · subst hn
    obtain ⟨hlt, hx⟩ := List.getElem?_eq_some_iff.mp hr'
    rw [List.getElem?_set_self (by simpa using hlt)]
    simp only [List.getElem?_map, hr', Option.map_some']
    rfl
  · rw [List.getElem?_set_ne (by omega)]

theorem perturb_all_without_rate (stoi : String → Option Int)
    (sample : Nat → ℚ → ℚ → ℚ)
    (csv : List (List String)) (headers : hashtable) :
    ∀ (n i : Nat) (reactions reactions' : List reaction_type),
      perturb_all stoi sample csv headers n i reactions = .ok reactions' →
      reactions'.map without_rate = reactions.map without_rate := by
  intro n
  induction n with
  | zero =>
    intro i reactions reactions' h
    simp only [perturb_all, Except.ok.injEq] at h
    rw [h]
  | succ n ih =>
    intro i reactions reactions' h
    simp only [perturb_all] at h
    cases h1 : perturb_reaction stoi sample csv headers i reactions i with
    | error e => simp [h1] at h
    | ok r1 =>
      simp only [h1] at h
      rw [ih (i + 1) r1 reactions' h,
        perturb_reaction_without_rate stoi sample csv headers i reactions r1 i h1]

theorem perturb_listed_without_rate (stoi : String → Option Int)
    (sample : Nat → ℚ → ℚ → ℚ)
    (csv : List (List String)) (headers : hashtable) :
    ∀ (values : List String) (draw : Nat) (reactions reactions' : List reaction_type),
      perturb_listed stoi sample csv headers values draw reactions = .ok reactions' →
      reactions'.map without_rate = reactions.map without_rate := by
  intro values
  induction values with
  | nil =>
    intro draw reactions reactions' h
    simp only [perturb_listed, Except.ok.injEq] at h
    rw [h]
  | cons tok rest ih =>
    intro draw reactions reactions' h
    simp only [perturb_listed] at h
    split at h
    · cases h
    · cases h0 : parse stoi (tok.drop 1) with
      | error e => simp [h0] at h
      | ok line =>
        simp only [h0] at h
        cases h1 : perturb_reaction stoi sample csv headers draw reactions line with
        | error e => simp [h1] at h
        | ok r1 =>
          simp only [h1] at h
          rw [ih (draw + 1) r1 reactions' h,
            perturb_reaction_without_rate stoi sample csv headers draw reactions r1 line h1]

/-- The perturbation block changes nothing but rates. -/
theorem perturb_without_rate (stoi : String → Option Int) (sample : Nat → ℚ → ℚ → ℚ)
    (csv : List (List String)) (values : List String) (headers : hashtable)
    (reactions reactions' : List reaction_type)
    (h : perturb stoi sample csv values headers reactions = .ok reactions') :
    reactions'.map without_rate = reactions.map without_rate := by
  unfold perturb at h
  split at h
  · split at h
    · simp only [Except.ok.injEq] at h
      rw [h]
    · split at h
      · exact perturb_all_without_rate stoi sample csv headers _ _ _ _ h
      · exact perturb_listed_without_rate stoi sample csv headers _ _ _ _ h
  · simp only [Except.ok.injEq] at h
    rw [h]

theorem perturb_no_values (stoi : String → Option Int) (sample : Nat → ℚ → ℚ → ℚ)
    (csv : List (List String)) (headers : hashtable) (reactions : List reaction_type) :
    perturb stoi sample csv [] headers reactions = .ok reactions := by
  unfold perturb
  split <;> rfl

/-! ### The whole reader -/

/-- The three ways in which `read_chemistry_file` returns: with the error code
`1` and the object untouched, with the code `0` on a stream that is not good,
or with the code `0` after the row loop and the perturbation block. -/
theorem read_chemistry_file_cases (neutrals ions : String → Int)
    (stof : String → Option ℚ) (stoi : String → Option Int) (u : reaction_type)
    (sample : Nat → ℚ → ℚ → ℚ) (args : Inputs) (chem : Chemistry) (iErr : Int)
    (chem' : Chemistry)
    (h : read_chemistry_file neutrals ions stof stoi u sample args chem = .ok (iErr, chem')) :
    (iErr = 1 ∧ chem' = chem ∧ (args.is_open = false ∨ args.csv.length ≤ 2)) ∨
    (iErr = 0 ∧ chem' = chem ∧ args.good = false) ∨
    (iErr = 0 ∧ args.is_open = true ∧ args.good = true ∧ 2 < args.csv.length ∧
      ∃ st reactions',
        read_lines neutrals ions stof stoi u (args.csv.drop 2)
          ⟨build_headers (args.csv.headD []) 0 ⟨[]⟩, reaction_type.fresh u,
            { chem with nReactions := 0 }⟩ = .ok st ∧
        perturb stoi sample args.csv args.perturb_values st.headers st.chem.reactions =
          .ok reactions' ∧
        chem' = { st.chem with reactions := reactions' }) := by
  unfold read_chemistry_file at h
  by_cases hopen : args.is_open = true
  · rw [if_neg (not_not.mpr hopen)] at h
    by_cases hgood : args.good = true
    · rw [if_pos hgood] at h
      dsimp only at h
      by_cases hlen : (args.csv.length : Int) ≤ 2
      · rw [if_pos hlen] at h
        simp only [Except.ok.injEq, Prod.mk.injEq] at h
        left
        exact ⟨h.1.symm, h.2.symm, Or.inr (by omega)⟩
      · rw [if_neg hlen] at h
        right; right
        cases hl : read_lines neutrals ions stof stoi u (args.csv.drop 2)
            ⟨build_headers (args.csv.headD []) 0 ⟨[]⟩, reaction_type.fresh u,
              { chem with nReactions := 0 }⟩ with
        | error e => rw [hl] at h; cases h
        | ok st =>
          rw [hl] at h
          dsimp only at h
          cases hp : perturb stoi sample args.csv args.perturb_values st.headers
              st.chem.reactions with
          | error e => rw [hp] at h; cases h
          | ok reactions' =>
            rw [hp] at h
            dsimp only at h
            simp only [Except.ok.injEq, Prod.mk.injEq] at h
            exact ⟨h.1.symm, hopen, hgood, by omega, st, reactions', rfl, hp, h.2.symm⟩
    · rw [if_neg hgood] at h
      simp only [Except.ok.injEq, Prod.mk.injEq] at h
      right; left
      exact ⟨h.1.symm, h.2.symm, by simpa using hgood⟩
  · rw [if_pos hopen] at h
    simp only [Except.ok.injEq, Prod.mk.injEq] at h
    left
    exact ⟨h.1.symm, h.2.symm, Or.inl (by simpa using hopen)⟩

/-! ### The defects of the reader, for every input -/

theorem find_index_snd_of_some (h : hashtable) (k k' : String) (v : Nat)
    (hk : h.find k' = some v) : (h.index k).2.find k' = some v := by
  unfold hashtable.index
  cases hkk : h.find k with
  | some w => exact hk
  | none =>
    have hne : (k' == k) = false := by
      by_cases e : k' = k
      · subst e; rw [hk] at hkk; cases hkk
      · simpa using e
    simpa [hashtable.assign, hashtable.find, List.lookup, hne] using hk

theorem interpret_temperature_find (stof : String → Option ℚ) (line : List String)
    (r r' : reaction_type) (h h' : hashtable) (k : String) (v : Nat)
    (hk : h.find k = some v)
    (hr : interpret_temperature stof line r h = .ok (r', h')) :
    h'.find k = some v := by
  unfold interpret_temperature at hr
  obtain ⟨s, -, hr⟩ := bind_ok hr
  split at hr
  · obtain ⟨n, -, hr⟩ := bind_ok hr
    obtain ⟨d, -, hr⟩ := bind_ok hr
    obtain ⟨e, -, hr⟩ := bind_ok hr
    obtain ⟨x, -, hr⟩ := bind_ok hr
    simp only [pure, Except.pure, Except.ok.injEq, Prod.mk.injEq] at hr
    rw [← hr.2]
    exact find_index_snd_of_some _ _ _ _ (find_index_snd_of_some _ _ _ _
      (find_index_snd_of_some _ _ _ _ hk))
  · simp only [pure, Except.pure, Except.ok.injEq, Prod.mk.injEq] at hr
    rw [← hr.2]
    exact find_index_snd_of_some _ _ _ _ hk

/-- After every call of `interpret_reaction_line` that returns, the header
table binds `branching` to column 10, whatever it bound it to before. -/
theorem interpret_reaction_line_branching_after (neutrals ions : String → Int)
    (stof : String → Option ℚ) (stoi : String → Option Int) (u : reaction_type)
    (line : List String) (headers : hashtable) (r : reaction_type) (h' : hashtable)
    (hr : interpret_reaction_line neutrals ions stof stoi u line headers = .ok (r, h')) :
    h'.find "branching" = some 10 := by
  unfold interpret_reaction_line at hr
  obtain ⟨l, -, hr⟩ := bind_ok hr
  obtain ⟨s, -, hr⟩ := bind_ok hr
  obtain ⟨t, -, hr⟩ := bind_ok hr
  unfold interpret_formula at hr
  obtain ⟨tm, htm, hr⟩ := bind_ok hr
  obtain ⟨p, -, hr⟩ := bind_ok hr
  obtain ⟨s1, -, hr⟩ := bind_ok hr
  obtain ⟨mn, -, hr⟩ := bind_ok hr
  obtain ⟨s2, -, hr⟩ := bind_ok hr
  obtain ⟨mx, -, hr⟩ := bind_ok hr
  obtain ⟨s3, -, hr⟩ := bind_ok hr
  obtain ⟨ty, -, hr⟩ := bind_ok hr
  simp only [pure, Except.pure, Except.ok.injEq, Prod.mk.injEq] at hr
  rw [← hr.2]
  have h0 : (t.2.assign "branching" 10).find "branching" = some 10 := by
    simp [hashtable.assign, hashtable.find, List.lookup]
  have h1 := interpret_temperature_find stof line _ tm.1 _ tm.2 "branching" 10 h0 htm
  exact find_index_snd_of_some _ _ _ _ (find_index_snd_of_some _ _ _ _
    (find_index_snd_of_some _ _ _ _ (find_index_snd_of_some _ _ _ _ h1)))

/-- In general, a row with an empty `rate` cell, reached while the local
`reaction` has a loss and a source, stores that reaction once more. -/
theorem read_line_blank_rate (neutrals ions : String → Int)
    (stof : String → Option ℚ) (stoi : String → Option Int) (u : reaction_type)
    (st : reader_state) (row : List String)
    (hrate : cell row (st.headers.index "rate").1 = .ok "")
    (hboth : st.reaction.nLosses > 0 ∧ st.reaction.nSources > 0) :
    read_line neutrals ions stof stoi u st row =
      .ok ⟨(st.headers.index "rate").2, st.reaction,
        ⟨st.chem.nReactions + 1, st.chem.reactions ++ [st.reaction]⟩⟩ := by
  have hi : read_line_interpret neutrals ions stof stoi u st row =
      .ok (st.reaction, (st.headers.index "rate").2) := by
    unfold read_line_interpret
    rw [hrate]
    rfl
  have hh : read_line_inherit st.chem.reactions st.reaction = .ok st.reaction := by
    unfold read_line_inherit
    rw [if_neg]
    intro hz
    omega
  have hs : read_line_store st.chem st.reaction =
      ⟨st.chem.nReactions + 1, st.chem.reactions ++ [st.reaction]⟩ := by
    unfold read_line_store
    rw [if_pos hboth]
  unfold read_line
  rw [hi]
  show (read_line_inherit st.chem.reactions st.reaction >>= _) = _
  rw [hh]
  show Except.ok _ = _
  rw [hs]

/-- In general, a row with a rate and no species, reached while no reaction is
stored, makes the row loop read `back()` of the empty vector. -/
theorem read_line_back_of_empty (neutrals ions : String → Int)
    (stof : String → Option ℚ) (stoi : String → Option Int) (u : reaction_type)
    (st : reader_state) (row : List String) (s c : String) (r : reaction_type)
    (h' : hashtable)
    (hrate : cell row (st.headers.index "rate").1 = .ok s) (hs : 0 < s.length)
    (hloss : cell row ((st.headers.index "rate").2.index "loss1").1 = .ok c)
    (hrow : interpret_reaction_line neutrals ions stof stoi u row
      ((st.headers.index "rate").2.index "loss1").2 = .ok (r, h'))
    (hzero : r.nLosses = 0 ∧ r.nSources = 0)
    (hempty : st.chem.reactions = []) :
    read_line neutrals ions stof stoi u st row = .error Fault.back_of_empty := by
  have hi : read_line_interpret neutrals ions stof stoi u st row = .ok (r, h') := by
    unfold read_line_interpret
    rw [hrate]
    show (if s.length > 0 then _ else _) = _
    rw [if_pos hs, hloss]
    exact hrow
  have hh : read_line_inherit st.chem.reactions r = .error Fault.back_of_empty := by
    unfold read_line_inherit
    rw [if_pos hzero, hempty]
    rfl
  unfold read_line
  rw [hi]
  show (read_line_inherit st.chem.reactions r >>= _) = _
  rw [hh]
  rfl

/-! ### The numeric members of a row -/

theorem parse_ok {α : Type} {conv : String → Option α} {s : String} {v : α}
    (h : parse conv s = .ok v) : conv s = some v := by
  unfold parse at h
  cases hc : conv s with
  | none => rw [hc] at h; cases h
  | some w => rw [hc] at h; cases h; rfl

theorem length_pos_iff_ne_empty (s : String) : 0 < s.length ↔ s ≠ "" := by
  cases s with
  | mk data =>
    cases data with
    | nil => simp [String.length]
    | cons c cs =>
      simp only [String.length, List.length_cons, Nat.zero_lt_succ, true_iff]
      intro h
      have hd : c :: cs = [] := congrArg String.data h
      cases hd

/-- What the pattern `parse_or` yields: the default for the empty text, the
parsed value for any other text. -/
theorem parse_or_ok {α : Type} {conv : String → Option α} {s : String} {dflt v : α}
    (h : parse_or conv s dflt = .ok v) :
    (s = "" → v = dflt) ∧ (s ≠ "" → conv s = some v) := by
  unfold parse_or at h
  by_cases hs : s.length > 0
  · rw [if_pos hs] at h
    have hne := (length_pos_iff_ne_empty s).mp hs
    exact ⟨fun he => absurd he hne, fun _ => parse_ok h⟩
  · rw [if_neg hs] at h
    have he : s = "" := by
      by_contra hne
      exact hs ((length_pos_iff_ne_empty s).mpr hne)
    cases h
    exact ⟨fun _ => rfl, fun hne => absurd he hne⟩

/-- The sections "Branching Ratio" and "energy released" read the cells of the
columns bound to `branching` and `heat`. -/
theorem interpret_rate_cells (stof : String → Option ℚ) (line : List String)
    (r r' : reaction_type) (h h' : hashtable)
    (hr : interpret_rate stof line r h = .ok (r', h')) :
    ∃ b e, cell line (h.index "branching").1 = .ok b ∧
      cell line (h.index "heat").1 = .ok e ∧
      parse_or stof b 1 = .ok r'.branching_ratio ∧ parse_or stof e 0 = .ok r'.energy := by
  unfold interpret_rate at hr
  obtain ⟨s, -, hr⟩ := bind_ok hr
  obtain ⟨rate, -, hr⟩ := bind_ok hr
  obtain ⟨b, hb, hr⟩ := bind_ok hr
  obtain ⟨vb, hvb, hr⟩ := bind_ok hr
  obtain ⟨e, he, hr⟩ := bind_ok hr
  obtain ⟨ve, hve, hr⟩ := bind_ok hr
  simp only [pure, Except.pure, Except.ok.injEq, Prod.mk.injEq] at hr
  simp only [index_index_fst] at hb he
  refine ⟨b, e, hb, he, ?_, ?_⟩
  · rw [← hr.1]; exact hvb
  · rw [← hr.1]; exact hve

theorem interpret_temperature_keeps (stof : String → Option ℚ) (line : List String)
    (r r' : reaction_type) (h h' : hashtable)
    (hr : interpret_temperature stof line r h = .ok (r', h')) :
    r'.branching_ratio = r.branching_ratio ∧ r'.energy = r.energy ∧ r'.rate = r.rate ∧
    (r.type = 0 → r'.type = 0) ∧ ∀ k, (h'.index k).1 = (h.index k).1 := by
  unfold interpret_temperature at hr
  obtain ⟨s, -, hr⟩ := bind_ok hr
  split at hr
  · obtain ⟨n, -, hr⟩ := bind_ok hr
    obtain ⟨d, -, hr⟩ := bind_ok hr
    obtain ⟨e, -, hr⟩ := bind_ok hr
    obtain ⟨x, -, hr⟩ := bind_ok hr
    simp only [pure, Except.pure, Except.ok.injEq, Prod.mk.injEq] at hr
    rw [← hr.1, ← hr.2]
    exact ⟨rfl, rfl, rfl, fun h0 => h0, fun k => by simp only [index_index_fst]⟩
  · simp only [pure, Except.pure, Except.ok.injEq, Prod.mk.injEq] at hr
    rw [← hr.1, ← hr.2]
    exact ⟨rfl, rfl, rfl, fun _ => rfl, fun k => by simp only [index_index_fst]⟩

theorem index_assign_of_ne (h : hashtable) (k k' : String) (v : Nat) (hne : k' ≠ k) :
    ((h.assign k v).index k').1 = (h.index k').1 := by
  rw [index_fst, index_fst]
  have : (k' == k) = false := by simpa using hne
  simp [hashtable.assign, hashtable.find, List.lookup, this]

/-- The last part of `interpret_reaction_line` keeps the rate, the branching
ratio and the energy, and sets `type` from the cell of the column bound to
`Formula Type` alone: `0` for the empty cell, the parsed number otherwise. -/
theorem interpret_formula_type (stof : String → Option ℚ) (stoi : String → Option Int)
    (line : List String) (r r' : reaction_type) (h h' : hashtable)
    (hr : interpret_formula stof stoi line r h = .ok (r', h')) :
    r'.branching_ratio = r.branching_ratio ∧ r'.energy = r.energy ∧ r'.rate = r.rate ∧
    ∃ t, cell line (h.index "Formula Type").1 = .ok t ∧ parse_or stoi t 0 = .ok r'.type := by
  unfold interpret_formula at hr
  obtain ⟨tm, htm, hr⟩ := bind_ok hr
  obtain ⟨p, -, hr⟩ := bind_ok hr
  obtain ⟨s1, -, hr⟩ := bind_ok hr
  obtain ⟨mn, -, hr⟩ := bind_ok hr
  obtain ⟨s2, -, hr⟩ := bind_ok hr
  obtain ⟨mx, -, hr⟩ := bind_ok hr
  obtain ⟨s3, hs3, hr⟩ := bind_ok hr
  obtain ⟨ty, hty, hr⟩ := bind_ok hr
  simp only [pure, Except.pure, Except.ok.injEq, Prod.mk.injEq] at hr
  obtain ⟨k1, k2, k3, k4, k5⟩ := interpret_temperature_keeps stof line _ tm.1 _ tm.2 htm
  simp only [index_index_fst] at hs3
  rw [k5, index_assign_of_ne _ _ _ _ (by decide)] at hs3
  have h0 : tm.1.type = 0 := k4 rfl
  rw [← hr.1]
  refine ⟨k1, k2, k3, s3, hs3, ?_⟩
  have : parse_or stoi s3 0 = .ok ty := by
    have hty' : parse_or stoi s3 tm.1.type = .ok ty := hty
    rw [h0] at hty'
    exact hty'
  exact this

theorem interpret_losses_columns (neutrals ions : String → Int) (line : List String)
    (r r' : reaction_type) (h h' : hashtable)
    (hr : interpret_losses neutrals ions line r h = .ok (r', h')) :
    ∀ k, (h'.index k).1 = (h.index k).1 := by
  unfold interpret_losses at hr
  dsimp only at hr
  split at hr
  · cases hr
  · simp only [Except.ok.injEq, Prod.mk.injEq] at hr
    intro k
    rw [← hr.2]
    simp only [index_index_fst]

theorem interpret_sources_columns (neutrals ions : String → Int) (line : List String)
    (r r' : reaction_type) (h h' : hashtable)
    (hr : interpret_sources neutrals ions line r h = .ok (r', h')) :
    ∀ k, (h'.index k).1 = (h.index k).1 := by
  unfold interpret_sources at hr
  dsimp only at hr
  split at hr
  · cases hr
  · simp only [Except.ok.injEq, Prod.mk.injEq] at hr
    intro k
    rw [← hr.2]
    simp only [index_index_fst]

theorem interpret_rate_columns (stof : String → Option ℚ) (line : List String)
    (r r' : reaction_type) (h h' : hashtable)
    (hr : interpret_rate stof line r h = .ok (r', h')) :
    ∀ k, (h'.index k).1 = (h.index k).1 := by
  unfold interpret_rate at hr
  obtain ⟨s, -, hr⟩ := bind_ok hr
  obtain ⟨rate, -, hr⟩ := bind_ok hr
  obtain ⟨b, -, hr⟩ := bind_ok hr
  obtain ⟨vb, -, hr⟩ := bind_ok hr
  obtain ⟨e, -, hr⟩ := bind_ok hr
  obtain ⟨ve, -, hr⟩ := bind_ok hr
  simp only [pure, Except.pure, Except.ok.injEq, Prod.mk.injEq] at hr
  intro k
  rw [← hr.2]
  simp only [index_index_fst]

/-- The branching ratio, the energy and the type of the reaction that
`interpret_reaction_line` returns, from the cells of the columns that the
header table passed to the call binds to `branching`, `heat` and
`Formula Type`. -/
theorem interpret_reaction_line_numbers (neutrals ions : String → Int)
    (stof : String → Option ℚ) (stoi : String → Option Int) (u : reaction_type)
    (line : List String) (headers : hashtable) (r : reaction_type) (h' : hashtable)
    (hr : interpret_reaction_line neutrals ions stof stoi u line headers = .ok (r, h')) :
    ∃ b e t, cell line (headers.index "branching").1 = .ok b ∧
      cell line (headers.index "heat").1 = .ok e ∧
      cell line (headers.index "Formula Type").1 = .ok t ∧
      parse_or stof b 1 = .ok r.branching_ratio ∧ parse_or stof e 0 = .ok r.energy ∧
      parse_or stoi t 0 = .ok r.type := by
  unfold interpret_reaction_line at hr
  obtain ⟨l, hl, hr⟩ := bind_ok hr
  obtain ⟨s, hs, hr⟩ := bind_ok hr
  obtain ⟨t, ht, hr⟩ := bind_ok hr
  have c1 := interpret_losses_columns neutrals ions line _ l.1 _ l.2 hl
  have c2 := interpret_sources_columns neutrals ions line _ s.1 _ s.2 hs
  have c3 := interpret_rate_columns stof line _ t.1 _ t.2 ht
  obtain ⟨b, e, hb, he, hvb, hve⟩ := interpret_rate_cells stof line _ t.1 _ t.2 ht
  obtain ⟨k1, k2, -, ty, hty, hvt⟩ := interpret_formula_type stof stoi line t.1 r t.2 h' hr
  rw [c2, c1] at hb he
  rw [c3, c2, c1] at hty
  refine ⟨b, e, ty, hb, he, hty, ?_, ?_, hvt⟩
  · rw [k1]; exact hvb
  · rw [k2]; exact hve

/-- The statements of a perturbation loop for the reaction `i` replace its rate
by a sample of mean its rate and standard deviation `0`. -/
theorem perturb_reaction_draw (stoi : String → Option Int) (sample : Nat → ℚ → ℚ → ℚ)
    (csv : List (List String)) (headers : hashtable) (draw : Nat)
    (reactions reactions' : List reaction_type) (i : Int)
    (h : perturb_reaction stoi sample csv headers draw reactions i = .ok reactions') :
    ∃ r, reactions[i.toNat]? = some r ∧
      reactions'[i.toNat]? = some { r with rate := sample draw r.rate 0 } := by
  unfold perturb_reaction at h
  obtain ⟨row, -, h⟩ := bind_ok h
  obtain ⟨s, -, h⟩ := bind_ok h
  obtain ⟨v, -, h⟩ := bind_ok h
  obtain ⟨r, hr, h⟩ := bind_ok h
  simp only [pure, Except.pure, Except.ok.injEq] at h
  subst h
  have hr' := at_index_ok hr
  obtain ⟨hlt, -⟩ := List.getElem?_eq_some_iff.mp hr'
  exact ⟨r, hr', List.getElem?_set_self hlt⟩

/-- Two lists of reactions that agree when the rates are put to zero have the
same length and, position by position, the same members but for the rate. -/
theorem same_but_rates (before after : List reaction_type)
    (h : after.map without_rate = before.map without_rate) :
    after.length = before.length ∧
    ∀ (i : Nat) (r r' : reaction_type), before[i]? = some r → after[i]? = some r' →
      species_part r' = species_part r ∧ r'.branching_ratio = r.branching_ratio ∧
      r'.energy = r.energy ∧ r'.numerator = r.numerator ∧
      r'.denominator = r.denominator ∧ r'.exponent = r.exponent ∧
      r'.piecewiseVar = r.piecewiseVar ∧ r'.min = r.min ∧ r'.max = r.max ∧
      r'.type = r.type := by
  constructor
  · have := congrArg List.length h
    simpa using this
  · intro i r r' hr hr'
    have h1 : (after.map without_rate)[i]? = some (without_rate r') := by
      rw [List.getElem?_map, hr']; rfl
    have h2 : (before.map without_rate)[i]? = some (without_rate r) := by
      rw [List.getElem?_map, hr]; rfl
    rw [h, h2] at h1
    have he : without_rate r = without_rate r' := Option.some.inj h1
    have hsp := congrArg species_part he
    refine ⟨hsp.symm, ?_, ?_, ?_, ?_, ?_, ?_, ?_, ?_, ?_⟩
    · exact (congrArg (fun x => x.branching_ratio) he).symm
    · exact (congrArg (fun x => x.energy) he).symm
    · exact (congrArg (fun x => x.numerator) he).symm
    · exact (congrArg (fun x => x.denominator) he).symm
    · exact (congrArg (fun x => x.exponent) he).symm
    · exact (congrArg (fun x => x.piecewiseVar) he).symm
    · exact (congrArg (fun x => x.min) he).symm
    · exact (congrArg (fun x => x.max) he).symm
    · exact (congrArg (fun x => x.type) he).symm

/-! ### The chemistry step -/

theorem update_at_ok {α : Type} {v v' : List α} {i : Nat} {f : α → α}
    (h : update_at v i f = .ok v') : ∃ x, v[i]? = some x ∧ v' = v.set i (f x) := by
  unfold update_at at h
  cases hx : v[i]? with
  | none => rw [hx] at h; cases h
  | some x => rw [hx] at h; cases h; exact ⟨x, rfl, rfl⟩

/-- What a species loop that returns has done: the elements `i, ..., i+k-1`
exist and are changed by `f`, the others are kept. -/
theorem species_loop_getElem {α : Type} (f : α → α) :
    ∀ (k i : Nat) (v v' : List α), species_loop f k i v = .ok v' →
      i + k ≤ max v.length i ∧ v'.length = v.length ∧
      ∀ j, v'[j]? = if i ≤ j ∧ j < i + k then (v[j]?).map f else v[j]? := by
  intro k
  induction k with
  | zero =>
    intro i v v' h
    simp only [species_loop, Except.ok.injEq] at h
    subst h
    refine ⟨by omega, rfl, ?_⟩
    intro j
    rw [if_neg (by omega)]
  | succ k ih =>
    intro i v v' h
    simp only [species_loop] at h
    cases hu : update_at v i f with
    | error e => rw [hu] at h; cases h
    | ok v1 =>
      rw [hu] at h
      obtain ⟨x, hx, hv1⟩ := update_at_ok hu
      obtain ⟨hlt, -⟩ := List.getElem?_eq_some_iff.mp hx
      obtain ⟨hb, hlen, hget⟩ := ih (i + 1) v1 v' h
      have hl1 : v1.length = v.length := by rw [hv1, List.length_set]
      refine ⟨by omega, by rw [hlen, hl1], ?_⟩
      intro j
      rw [hget j, hv1]
      by_cases hj : j = i
      · subst hj
        rw [if_neg (by omega), if_pos (by omega), List.getElem?_set_self hlt, hx]
        rfl
      · rw [List.getElem?_set_ne (fun e => hj e.symm)]
        by_cases hr : i + 1 ≤ j ∧ j < i + 1 + k
        · rw [if_pos hr, if_pos (by omega)]
        · rw [if_neg hr, if_neg (by omega)]

/-- A species loop returns when the vector has the elements it visits. -/
theorem species_loop_returns {α : Type} (f : α → α) :
    ∀ (k i : Nat) (v : List α), i + k ≤ v.length → ∃ v', species_loop f k i v = .ok v' := by
  intro k
  induction k with
  | zero => intro i v _; exact ⟨v, rfl⟩
  | succ k ih =>
    intro i v h
    have hlt : i < v.length := by omega
    have hu : update_at v i f = .ok (v.set i (f v[i])) := by
      unfold update_at
      rw [List.getElem?_eq_getElem hlt]
    obtain ⟨v', hv'⟩ := ih (i + 1) (v.set i (f v[i])) (by rw [List.length_set]; omega)
    refine ⟨v', ?_⟩
    simp only [species_loop, hu]
    exact hv'

theorem on_first_getElem? {α : Type} (n : Nat) (f : α → α) (v : List α) (hn : n ≤ v.length)
    (j : Nat) : (on_first n f v)[j]? = if j < n then (v[j]?).map f else v[j]? := by
  unfold on_first
  by_cases hj : j < n
  · rw [if_pos hj, List.getElem?_append_left (by simp; omega), List.getElem?_map,
      List.getElem?_take_of_lt hj]
  · rw [if_neg hj, List.getElem?_append_right (by simp; omega), List.getElem?_drop]
    congr 1
    simp only [List.length_map, List.length_take]
    omega

/-- A species loop from the first element over `n` elements is `on_first`. -/
theorem species_loop_eq_on_first {α : Type} (f : α → α) (n : Nat) (v : List α)
    (hn : n ≤ v.length) : species_loop f n 0 v = .ok (on_first n f v) := by
  obtain ⟨v', hv'⟩ := species_loop_returns f n 0 v (by omega)
  rw [hv']
  obtain ⟨-, -, hget⟩ := species_loop_getElem f n 0 v v' hv'
  congr 1
  apply List.ext_getElem?
  intro j
  rw [hget j, on_first_getElem? n f v hn j]
  by_cases hj : j < n
  · rw [if_pos ⟨by omega, by omega⟩, if_pos hj]
  · rw [if_neg (by omega), if_neg hj]

theorem on_first_length {α : Type} (n : Nat) (f : α → α) (v : List α) :
    (on_first n f v).length = v.length := by
  unfold on_first
  simp only [List.length_append, List.length_map, List.length_take, List.length_drop]
  omega

theorem initialize_sources_losses_eq {ρ σ : Type} (nSpecies nIons : Nat)
    (neutrals : Neutrals ρ σ) (ions : Ions ρ σ)
    (hN : nSpecies ≤ neutrals.neutrals.length) (hI : nIons ≤ ions.species.length) :
    initialize_sources_losses nSpecies nIons neutrals ions =
      .ok (initial_accumulators nSpecies nIons (neutrals, ions)) := by
  unfold initialize_sources_losses
  rw [species_loop_eq_on_first init_neutral nSpecies _ hN,
    species_loop_eq_on_first init_ion nIons _ hI]
  rfl

theorem solve_densities_eq {ρ σ : Type} (nSpecies nIons : Nat)
    (solver_chemistry : List ℚ → List ℚ → List ℚ → ℚ → List ℚ) (dt : ℚ)
    (neutrals : Neutrals ρ σ) (ions : Ions ρ σ)
    (hN : nSpecies ≤ neutrals.neutrals.length) (hI : nIons ≤ ions.species.length) :
    solve_densities nSpecies nIons solver_chemistry dt neutrals ions =
      .ok (integration_phase nSpecies nIons solver_chemistry dt (neutrals, ions)) := by
  unfold solve_densities
  rw [species_loop_eq_on_first _ nSpecies _ hN, species_loop_eq_on_first _ nIons _ hI]
  rfl

/-! ### The arithmetic of `int` and `double` -/

theorem int_result_ok {x : Int} (h1 : -2147483648 ≤ x) (h2 : x ≤ 2147483647) :
    int_result x = .ok x := by
  unfold int_result
  rw [if_pos ⟨h1, h2⟩]

theorem halvings_spec : ∀ (fuel n : Nat), n ≤ fuel → n ≠ 0 →
    2 ^ halvings fuel n ≤ n ∧ n < 2 ^ (halvings fuel n + 1) := by
  intro fuel
  induction fuel with
  | zero => intro n h1 h2; omega
  | succ fuel ih =>
    intro n h1 h2
    unfold halvings
    by_cases hn : n < 2
    · rw [if_pos hn]
      simp only [pow_zero, zero_add, pow_one]
      omega
    · rw [if_neg hn]
      obtain ⟨ih1, ih2⟩ := ih (n / 2) (by omega) (by omega)
      rw [pow_succ, pow_succ]
      rw [pow_succ] at ih2
      constructor <;> omega

/-- The binary exponent brackets the number. -/
theorem binade_spec (q : ℚ) (hq : q ≠ 0) :
    (2 : ℚ) ^ binade q ≤ |q| ∧ |q| < (2 : ℚ) ^ (binade q + 1) := by
  have hnum : q.num.natAbs ≠ 0 := by
    rw [Ne, Int.natAbs_eq_zero, Rat.num_eq_zero]
    exact hq
  obtain ⟨a1, a2⟩ := halvings_spec q.num.natAbs q.num.natAbs (le_refl _) hnum
  obtain ⟨b1, b2⟩ := halvings_spec q.den q.den (le_refl _) q.den_nz
  have habs : |q| = (q.num.natAbs : ℚ) / (q.den : ℚ) := by
    conv_lhs => rw [← Rat.num_div_den q]
    rw [abs_div, Nat.abs_cast, Nat.cast_natAbs, Int.cast_abs]
  have hden : (0 : ℚ) < (q.den : ℚ) := by exact_mod_cast q.den_pos
  have a1' : (2 : ℚ) ^ (halvings q.num.natAbs q.num.natAbs : Int) ≤ (q.num.natAbs : ℚ) := by
    rw [zpow_natCast]; exact_mod_cast a1
  have a2' : (q.num.natAbs : ℚ) < (2 : ℚ) ^ ((halvings q.num.natAbs q.num.natAbs : Int) + 1) := by
    have : (q.num.natAbs : ℚ) < (2 : ℚ) ^ (halvings q.num.natAbs q.num.natAbs + 1) := by
      exact_mod_cast a2
    rw [← zpow_natCast] at this
    simpa using this
  have b1' : (2 : ℚ) ^ (halvings q.den q.den : Int) ≤ (q.den : ℚ) := by
    rw [zpow_natCast]; exact_mod_cast b1
  have b2' : (q.den : ℚ) < (2 : ℚ) ^ ((halvings q.den q.den : Int) + 1) := by
    have : (q.den : ℚ) < (2 : ℚ) ^ (halvings q.den q.den + 1) := by
      exact_mod_cast b2
    rw [← zpow_natCast] at this
    simpa using this
  have h2 : (0 : ℚ) < 2 := by norm_num
  have h2' : (2 : ℚ) ≠ 0 := by norm_num
  -- the quotient lies between 2 ^ (a - b - 1) and 2 ^ (a - b + 1)
  have hup : |q| < (2 : ℚ) ^ ((halvings q.num.natAbs q.num.natAbs : Int) -
      (halvings q.den q.den : Int) + 1) := by
    rw [habs, div_lt_iff₀ hden]
    calc (q.num.natAbs : ℚ)
        < (2 : ℚ) ^ ((halvings q.num.natAbs q.num.natAbs : Int) + 1) := a2'
      _ = (2 : ℚ) ^ ((halvings q.num.natAbs q.num.natAbs : Int) -
            (halvings q.den q.den : Int) + 1) * (2 : ℚ) ^ (halvings q.den q.den : Int) := by
          rw [← zpow_add₀ h2']; congr 1; ring
      _ ≤ _ := by
          apply mul_le_mul_of_nonneg_left b1'
          exact le_of_lt (zpow_pos h2 _)
  have hlow : (2 : ℚ) ^ ((halvings q.num.natAbs q.num.natAbs : Int) -
      (halvings q.den q.den : Int) - 1) ≤ |q| := by
    rw [habs, le_div_iff₀ hden]
    calc (2 : ℚ) ^ ((halvings q.num.natAbs q.num.natAbs : Int) -
          (halvings q.den q.den : Int) - 1) * (q.den : ℚ)
        ≤ (2 : ℚ) ^ ((halvings q.num.natAbs q.num.natAbs : Int) -
          (halvings q.den q.den : Int) - 1) *
            (2 : ℚ) ^ ((halvings q.den q.den : Int) + 1) := by
          apply mul_le_mul_of_nonneg_left (le_of_lt b2')
          exact le_of_lt (zpow_pos h2 _)
      _ = (2 : ℚ) ^ (halvings q.num.natAbs q.num.natAbs : Int) := by
          rw [← zpow_add₀ h2']; congr 1; ring
      _ ≤ _ := a1'
  unfold binade
  dsimp only
  by_cases hk : (2 : ℚ) ^ ((halvings q.num.natAbs q.num.natAbs : Int) -
      (halvings q.den q.den : Int)) ≤ |q|
  · rw [if_pos hk]
    exact ⟨hk, hup⟩
  · rw [if_neg hk]
    refine ⟨hlow, ?_⟩
    rw [sub_add_cancel]
    exact lt_of_not_ge hk

theorem round_even_cases (x : ℚ) : round_even x = ⌊x⌋ ∨ round_even x = ⌊x⌋ + 1 := by
  unfold round_even
  split
  · left; rfl
  · split
    · right; rfl
    · split
      · left; rfl
      · right; rfl

/-- An integer is its own rounding. -/
theorem round_even_intCast (z : Int) : round_even (z : ℚ) = z := by
  unfold round_even
  rw [Int.floor_intCast, sub_self, if_pos (by norm_num)]

/-- Rounding moves a number by a half at most. -/
theorem round_even_near (x : ℚ) : |(round_even x : ℚ) - x| ≤ 1 / 2 := by
  have h1 : (⌊x⌋ : ℚ) ≤ x := Int.floor_le x
  have h2 : x < (⌊x⌋ : ℚ) + 1 := Int.lt_floor_add_one x
  unfold round_even
  rw [abs_le]
  split
  · next h => constructor <;> linarith
  · next h =>
    split
    · next h' => push_cast; constructor <;> linarith
    · next h' =>
      have he : x - ⌊x⌋ = 1 / 2 := le_antisymm (not_lt.mp h') (not_lt.mp h)
      split
      · constructor <;> linarith
      · push_cast; constructor <;> linarith

/-- Rounding does not cross an integer. -/
theorem round_even_le (x : ℚ) (z : Int) (h : x ≤ z) : round_even x ≤ z := by
  by_cases hx : x = ⌊x⌋
  · have : round_even x = ⌊x⌋ := by
      rw [hx, round_even_intCast, Int.floor_intCast]
    rw [this]
    exact_mod_cast (show (⌊x⌋ : ℚ) ≤ z from by rw [← hx]; exact h)
  · have hlt : (⌊x⌋ : ℚ) < z := by
      have := Int.floor_le x
      exact lt_of_lt_of_le (lt_of_le_of_ne this (fun h' => hx h'.symm)) h
    have hlt' : ⌊x⌋ < z := by exact_mod_cast hlt
    rcases round_even_cases x with h' | h' <;> omega

theorem le_round_even (x : ℚ) (z : Int) (h : (z : ℚ) ≤ x) : z ≤ round_even x := by
  have : z ≤ ⌊x⌋ := Int.le_floor.mpr h
  rcases round_even_cases x with h' | h' <;> omega

/-- Rounding at the place `2 ^ e` a number below `2 ^ k` in absolute value,
when `e ≤ k - 53`: the result is within `2 ^ (k - 54)` of the number, not above
`2 ^ k` in absolute value, and the number itself when that is a multiple of a
power of two not below `2 ^ (k - 53)`. -/
theorem round_at_place (q : ℚ) (e k : Int) (he : e ≤ k - 53) (hq : |q| < (2 : ℚ) ^ k) :
    |(round_even (q / 2 ^ e) : ℚ) * 2 ^ e - q| ≤ (2 : ℚ) ^ (k - 54) ∧
    |(round_even (q / 2 ^ e) : ℚ) * 2 ^ e| ≤ (2 : ℚ) ^ k ∧
    ∀ (m j : Int), k - 53 ≤ j → q = (m : ℚ) * (2 : ℚ) ^ j →
      (round_even (q / 2 ^ e) : ℚ) * 2 ^ e = q := by
  have h2 : (0 : ℚ) < 2 := by norm_num
  have h2' : (2 : ℚ) ≠ 0 := by norm_num
  have h12 : (1 : ℚ) ≤ 2 := by norm_num
  have hpos : (0 : ℚ) < (2 : ℚ) ^ e := zpow_pos h2 _
  have hnear := round_even_near (q / 2 ^ e)
  have hrq : (round_even (q / 2 ^ e) : ℚ) * 2 ^ e - q =
      ((round_even (q / 2 ^ e) : ℚ) - q / 2 ^ e) * 2 ^ e := by
    field_simp
  -- the bound on the scaled number is an integer
  have hN : (2 : ℚ) ^ k = (((2 : Int) ^ (k - e).toNat : Int) : ℚ) * 2 ^ e := by
    push_cast
    rw [← zpow_natCast, ← zpow_add₀ h2']
    congr 1
    rw [Int.toNat_of_nonneg (by omega)]
    ring
  have hx : |q / 2 ^ e| ≤ (((2 : Int) ^ (k - e).toNat : Int) : ℚ) := by
    rw [abs_div, abs_of_pos hpos, div_le_iff₀ hpos, ← hN]
    exact le_of_lt hq
  refine ⟨?_, ?_, ?_⟩
  · rw [hrq, abs_mul, abs_of_pos hpos]
    calc |(round_even (q / 2 ^ e) : ℚ) - q / 2 ^ e| * 2 ^ e
        ≤ 1 / 2 * 2 ^ e := mul_le_mul_of_nonneg_right hnear (le_of_lt hpos)
      _ = (2 : ℚ) ^ (e - 1) := by
          rw [zpow_sub₀ h2', zpow_one]; ring
      _ ≤ (2 : ℚ) ^ (k - 54) := zpow_le_zpow_right₀ h12 (by omega)
  · rw [abs_mul, abs_of_pos hpos, hN]
    apply mul_le_mul_of_nonneg_right _ (le_of_lt hpos)
    rw [abs_le] at hx ⊢
    constructor
    · have := le_round_even (q / 2 ^ e) (-((2 : Int) ^ (k - e).toNat))
        (by push_cast; push_cast at hx; exact hx.1)
      exact_mod_cast this
    · have := round_even_le (q / 2 ^ e) ((2 : Int) ^ (k - e).toNat) hx.2
      exact_mod_cast this
  · intro m j hj hm
    have hscaled : q / 2 ^ e = ((m * (2 : Int) ^ (j - e).toNat : Int) : ℚ) := by
      rw [hm]
      push_cast
      rw [← zpow_natCast, Int.toNat_of_nonneg (by omega), mul_div_assoc, ← zpow_sub₀ h2']
    rw [hscaled, round_even_intCast, ← hscaled]
    field_simp

/-- What `to_double` does with a number below `2 ^ k` in absolute value, `k`
in the range of the exponents of the normal numbers: it returns a number that
is within `2 ^ (k - 54)` of it and not above `2 ^ k` in absolute value, and the
number itself when it is a multiple of a power of two not below
`2 ^ (k - 53)`. -/
theorem to_double_spec (q : ℚ) (k : Int) (hk1 : -1021 ≤ k) (hk2 : k ≤ 1023)
    (hq : |q| < (2 : ℚ) ^ k) :
    ∃ r, to_double q = .ok r ∧ |r - q| ≤ (2 : ℚ) ^ (k - 54) ∧ |r| ≤ (2 : ℚ) ^ k ∧
      ∀ (m j : Int), k - 53 ≤ j → q = (m : ℚ) * (2 : ℚ) ^ j → r = q := by
  have h2 : (0 : ℚ) < 2 := by norm_num
  have h12 : (1 : ℚ) ≤ 2 := by norm_num
  by_cases h0 : q = 0
  · refine ⟨0, ?_, ?_, ?_, ?_⟩
    · unfold to_double; rw [if_pos h0]
    · rw [h0, sub_zero, abs_zero]; exact le_of_lt (zpow_pos h2 _)
    · rw [abs_zero]; exact le_of_lt (zpow_pos h2 _)
    · intro m j _ _; exact h0.symm
  · obtain ⟨hb1, hb2⟩ := binade_spec q h0
    have hbk : binade q < k := by
      by_contra hcon
      have : (2 : ℚ) ^ k ≤ (2 : ℚ) ^ binade q := zpow_le_zpow_right₀ h12 (not_lt.mp hcon)
      linarith
    have he : max (binade q - 52) (-1074) ≤ k - 53 := by
      apply max_le <;> omega
    obtain ⟨hnear, hr, hexact⟩ := round_at_place q (max (binade q - 52) (-1074)) k he hq
    have hfin : |(round_even (q / 2 ^ max (binade q - 52) (-1074)) : ℚ) *
        2 ^ max (binade q - 52) (-1074)| < (2 : ℚ) ^ (1024 : Int) :=
      lt_of_le_of_lt hr (zpow_lt_zpow_right₀ (by norm_num) (by omega))
    refine ⟨_, ?_, hnear, hr, hexact⟩
    unfold to_double
    rw [if_neg h0, if_pos hfin]

/-! ### The time routines -/

theorem tmod_four_eq_zero_iff (y : Int) : y.tmod 4 = 0 ↔ y % 4 = 0 := by
  rw [← Int.dvd_iff_tmod_eq_zero, Int.dvd_iff_emod_eq_zero]

/-- In a year whose Gregorian leap status is decided by divisibility by 4, the
loop of `day_of_year` sums the days of the months before `month`, for each of
the 12 months; no sum leaves the range of an `int`. -/
theorem day_of_year_loop_eq_ordinal (year month : Int) (h1 : 1 ≤ month) (h12 : month ≤ 12)
    (hc : year % 100 ≠ 0 ∨ year % 400 = 0) :
    day_of_year_loop standard_constants year (month - 1).toNat 1 0 =
      .ok (ordinal_in_year year month 0) ∧
    0 ≤ ordinal_in_year year month 0 ∧ ordinal_in_year year month 0 ≤ 335 := by
  have hleap : is_leap_year year = decide (year.tmod 4 = 0) := by
    unfold is_leap_year
    rw [decide_eq_decide, tmod_four_eq_zero_iff]
    exact ⟨fun h => h.1, fun h => ⟨h, hc⟩⟩
  by_cases h4 : year.tmod 4 = 0
  · interval_cases month <;>
      simp [day_of_year_loop, at_index, int_result, standard_constants, ordinal_in_year,
        List.range_succ, days_in_month, hleap, h4]
  · interval_cases month <;>
      simp [day_of_year_loop, at_index, int_result, standard_constants, ordinal_in_year,
        List.range_succ, days_in_month, hleap, h4]

theorem ordinal_in_year_add (year month day : Int) :
    ordinal_in_year year month day = ordinal_in_year year month 0 + day := by
  unfold ordinal_in_year
  ring

/-- In a year whose Gregorian leap status is decided by divisibility by 4,
`day_of_year` is the ordinal of the date in its year, for each of the 12
months and every day that an `int` holds with room for the days of 11
months. -/
theorem day_of_year_eq_ordinal (year month day : Int) (h1 : 1 ≤ month) (h12 : month ≤ 12)
    (hc : year % 100 ≠ 0 ∨ year % 400 = 0)
    (hd1 : -2147483648 ≤ day) (hd2 : day ≤ 2147483312) :
    day_of_year standard_constants year month day = .ok (ordinal_in_year year month day) := by
  obtain ⟨hloop, hlo, hhi⟩ := day_of_year_loop_eq_ordinal year month h1 h12 hc
  unfold day_of_year
  rw [hloop]
  dsimp only
  rw [int_result_ok (by omega) (by omega), ordinal_in_year_add year month day]

/-- A sum of two `double`s that stays below `2 ^ k`, `k` from 0 to 50: the
rounded sum is within `2 ^ (k - 54)` of the exact one, not above `2 ^ k`, and
is the exact one when that is a whole number of eighths. -/
theorem double_add_spec (x y : ℚ) (k : Int) (hk1 : 0 ≤ k) (hk2 : k ≤ 50)
    (h : |x + y| < (2 : ℚ) ^ k) :
    ∃ r, double_add x y = .ok r ∧ |r - (x + y)| ≤ (2 : ℚ) ^ (k - 54) ∧ |r| ≤ (2 : ℚ) ^ k ∧
      ∀ m : Int, x + y = (m : ℚ) / 8 → r = x + y := by
  obtain ⟨r, h1, h2, h3, h4⟩ := to_double_spec (x + y) k (by omega) (by omega) h
  refine ⟨r, h1, h2, h3, ?_⟩
  intro m hm
  apply h4 m (-3) (by omega)
  rw [hm]
  norm_num
  ring

/-- A product of two whole numbers that stays below `2 ^ 53` is exact. -/
theorem double_mul_int (a b : Int) (h : |((a * b : Int) : ℚ)| < (2 : ℚ) ^ (53 : Int)) :
    double_mul (a : ℚ) (b : ℚ) = .ok ((a : ℚ) * (b : ℚ)) := by
  obtain ⟨r, h1, -, -, h4⟩ := to_double_spec ((a : ℚ) * (b : ℚ)) 53 (by omega) (by omega)
    (by push_cast at h; exact h)
  have := h4 (a * b) 0 (by omega) (by push_cast; simp)
  unfold double_mul
  rw [h1, this]

/-- The sum of `time_int_to_real` on the fields of a valid time of day, a
count `n` of days within a year and its leap days, and a count `y` of years
up to 134: every operation returns, the products are exact, and the sum is
within a quarter of a microsecond of the exact sum; it is the exact sum when
the milliseconds are a multiple of 125. -/
theorem double_sum_spec (ms s mi h n y : Int)
    (hms1 : 0 ≤ ms) (hms2 : ms ≤ 999) (hs1 : 0 ≤ s) (hs2 : s ≤ 59)
    (hmi1 : 0 ≤ mi) (hmi2 : mi ≤ 59) (hh1 : 0 ≤ h) (hh2 : h ≤ 23)
    (hn1 : 0 ≤ n) (hn2 : n ≤ 398) (hy1 : 0 ≤ y) (hy2 : y ≤ 134) :
    ∃ t1 t2 t3 t4 t5 t6 : ℚ,
      double_div (ms : ℚ) 1000 = .ok t1 ∧
      double_add t1 (s : ℚ) = .ok t2 ∧
      double_mul (mi : ℚ) 60 = .ok ((mi : ℚ) * 60) ∧
      double_add t2 ((mi : ℚ) * 60) = .ok t3 ∧
      double_mul (h : ℚ) 3600 = .ok ((h : ℚ) * 3600) ∧
      double_add t3 ((h : ℚ) * 3600) = .ok t4 ∧
      double_mul (n : ℚ) 86400 = .ok ((n : ℚ) * 86400) ∧
      double_add t4 ((n : ℚ) * 86400) = .ok t5 ∧
      double_mul (y : ℚ) (365 * 86400) = .ok ((y : ℚ) * (365 * 86400)) ∧
      double_add t5 ((y : ℚ) * (365 * 86400)) = .ok t6 ∧
      |t6 - ((ms : ℚ) / 1000 + (s : ℚ) + (mi : ℚ) * 60 + (h : ℚ) * 3600 + (n : ℚ) * 86400 +
        (y : ℚ) * (365 * 86400))| ≤ 1 / 4000000 ∧
      ((125 : Int) ∣ ms →
        t6 = (ms : ℚ) / 1000 + (s : ℚ) + (mi : ℚ) * 60 + (h : ℚ) * 3600 + (n : ℚ) * 86400 +
          (y : ℚ) * (365 * 86400)) := by
  -- the casts of the bounds
  have cms1 : (0 : ℚ) ≤ (ms : ℚ) := by exact_mod_cast hms1
  have cms2 : (ms : ℚ) ≤ 999 := by exact_mod_cast hms2
  have cs1 : (0 : ℚ) ≤ (s : ℚ) := by exact_mod_cast hs1
  have cs2 : (s : ℚ) ≤ 59 := by exact_mod_cast hs2
  have cmi1 : (0 : ℚ) ≤ (mi : ℚ) := by exact_mod_cast hmi1
  have cmi2 : (mi : ℚ) ≤ 59 := by exact_mod_cast hmi2
  have ch1 : (0 : ℚ) ≤ (h : ℚ) := by exact_mod_cast hh1
  have ch2 : (h : ℚ) ≤ 23 := by exact_mod_cast hh2
  have cn1 : (0 : ℚ) ≤ (n : ℚ) := by exact_mod_cast hn1
  have cn2 : (n : ℚ) ≤ 398 := by exact_mod_cast hn2
  have cy1 : (0 : ℚ) ≤ (y : ℚ) := by exact_mod_cast hy1
  have cy2 : (y : ℚ) ≤ 134 := by exact_mod_cast hy2
  -- the products
  have hp3 : double_mul (mi : ℚ) 60 = .ok ((mi : ℚ) * 60) := by
    have := double_mul_int mi 60 (by
      rw [abs_lt]; push_cast; constructor <;> norm_num <;> linarith)
    simpa using this
  have hp4 : double_mul (h : ℚ) 3600 = .ok ((h : ℚ) * 3600) := by
    have := double_mul_int h 3600 (by
      rw [abs_lt]; push_cast; constructor <;> norm_num <;> linarith)
    simpa using this
  have hp5 : double_mul (n : ℚ) 86400 = .ok ((n : ℚ) * 86400) := by
    have := double_mul_int n 86400 (by
      rw [abs_lt]; push_cast; constructor <;> norm_num <;> linarith)
    simpa using this
  have hp6 : double_mul (y : ℚ) (365 * 86400) = .ok ((y : ℚ) * (365 * 86400)) := by
    have := double_mul_int y 31536000 (by
      rw [abs_lt]; push_cast; constructor <;> norm_num <;> linarith)
    have hc : (365 * 86400 : ℚ) = 31536000 := by norm_num
    rw [hc]
    simpa using this
  -- the quotient and the five sums
  obtain ⟨t1, e1, n1, b1, x1⟩ := to_double_spec ((ms : ℚ) / 1000) 0 (by omega) (by omega)
    (by rw [abs_lt]; constructor <;> norm_num <;> linarith)
  norm_num at n1 b1
  rw [abs_le] at n1 b1
  obtain ⟨t2, e2, n2, b2, x2⟩ := double_add_spec t1 (s : ℚ) 6 (by omega) (by omega)
    (by rw [abs_lt]; constructor <;> norm_num <;> linarith)
  norm_num at n2 b2
  rw [abs_le] at n2 b2
  obtain ⟨t3, e3, n3, b3, x3⟩ := double_add_spec t2 ((mi : ℚ) * 60) 12 (by omega) (by omega)
    (by rw [abs_lt]; constructor <;> norm_num <;> linarith)
  norm_num at n3 b3
  rw [abs_le] at n3 b3
  obtain ⟨t4, e4, n4, b4, x4⟩ := double_add_spec t3 ((h : ℚ) * 3600) 17 (by omega) (by omega)
    (by rw [abs_lt]; constructor <;> norm_num <;> linarith)
  norm_num at n4 b4
  rw [abs_le] at n4 b4
  obtain ⟨t5, e5, n5, b5, x5⟩ := double_add_spec t4 ((n : ℚ) * 86400) 26 (by omega) (by omega)
    (by rw [abs_lt]; constructor <;> norm_num <;> linarith)
  norm_num at n5 b5
  rw [abs_le] at n5 b5
  obtain ⟨t6, e6, n6, b6, x6⟩ := double_add_spec t5 ((y : ℚ) * (365 * 86400)) 32 (by omega)
    (by omega) (by rw [abs_lt]; constructor <;> norm_num <;> linarith)
  norm_num at n6 b6
  rw [abs_le] at n6 b6
  refine ⟨t1, t2, t3, t4, t5, t6, ?_, e2, hp3, e3, hp4, e4, hp5, e5, hp6, e6, ?_, ?_⟩
  · unfold double_div
    rw [if_neg (by norm_num)]
    exact e1
  · rw [abs_le]
    constructor <;> linarith
  · rintro ⟨c, hc⟩
    have hmsc : (ms : ℚ) = 125 * (c : ℚ) := by exact_mod_cast hc
    have y1 : t1 = (ms : ℚ) / 1000 := x1 c (-3) (by omega) (by rw [hmsc]; norm_num; ring)
    have y2 : t2 = t1 + (s : ℚ) := x2 (c + 8 * s) (by rw [y1, hmsc]; push_cast; ring)
    have y3 : t3 = t2 + (mi : ℚ) * 60 :=
      x3 (c + 8 * s + 480 * mi) (by rw [y2, y1, hmsc]; push_cast; ring)
    have y4 : t4 = t3 + (h : ℚ) * 3600 :=
      x4 (c + 8 * s + 480 * mi + 28800 * h) (by rw [y3, y2, y1, hmsc]; push_cast; ring)
    have y5 : t5 = t4 + (n : ℚ) * 86400 :=
      x5 (c + 8 * s + 480 * mi + 28800 * h + 691200 * n)
        (by rw [y4, y3, y2, y1, hmsc]; push_cast; ring)
    have y6 : t6 = t5 + (y : ℚ) * (365 * 86400) :=
      x6 (c + 8 * s + 480 * mi + 28800 * h + 691200 * n + 252288000 * y)
        (by rw [y5, y4, y3, y2, y1, hmsc]; push_cast; ring)
    rw [y6, y5, y4, y3, y2, y1]

theorem days_of_years_from_1965 :
    ∀ n : Nat, n ≤ 135 →
      ((List.range n).map (fun (k : Nat) => days_in_year (1965 + (k : Int)))).sum =
        365 * (n : Int) + (n : Int) / 4 := by
  intro n
  induction n with
  | zero => intro _; simp
  | succ n ih =>
    intro hn
    rw [List.range_succ, List.map_append, List.sum_append, ih (by omega)]
    simp only [List.map_cons, List.map_nil, List.sum_cons, List.sum_nil, add_zero]
    unfold days_in_year is_leap_year
    by_cases hl : (1965 + (n : Int)) % 4 = 0 ∧
        ((1965 + (n : Int)) % 100 ≠ 0 ∨ (1965 + (n : Int)) % 400 = 0)
    · rw [decide_eq_true hl, if_pos rfl]
      push_cast
      omega
    · rw [decide_eq_false hl]
      simp only [Bool.false_eq_true, if_false]
      push_cast
      omega

theorem days_in_month_le (year : Int) (month : Nat) : days_in_month year month ≤ 31 := by
  unfold days_in_month
  split
  · split <;> omega
  · split <;> omega

/-- The value of `time_int_to_real` on a vector of 7 elements, once each of its
operations is known to return. -/
theorem time_int_to_real_of_steps (cst : time_constants)
    (year month day hour minute second millisecond doy : Int) (t1 t2 t3 t4 t5 t6 : ℚ)
    (hY : int_result (year - cst.reference_year) = .ok (year - cst.reference_year))
    (hdoy : day_of_year cst year month day = .ok doy)
    (hD : int_result (doy - 1) = .ok (doy - 1))
    (hN : int_result (doy - 1 + (year - cst.reference_year).tdiv 4) =
      .ok (doy - 1 + (year - cst.reference_year).tdiv 4))
    (e1 : double_div (millisecond : ℚ) 1000 = .ok t1)
    (e2 : double_add t1 (second : ℚ) = .ok t2)
    (p3 : double_mul (minute : ℚ) cst.seconds_per_minute =
      .ok ((minute : ℚ) * cst.seconds_per_minute))
    (e3 : double_add t2 ((minute : ℚ) * cst.seconds_per_minute) = .ok t3)
    (p4 : double_mul (hour : ℚ) cst.seconds_per_hour = .ok ((hour : ℚ) * cst.seconds_per_hour))
    (e4 : double_add t3 ((hour : ℚ) * cst.seconds_per_hour) = .ok t4)
    (p5 : double_mul ((doy - 1 + (year - cst.reference_year).tdiv 4 : Int) : ℚ)
        cst.seconds_per_day =
      .ok (((doy - 1 + (year - cst.reference_year).tdiv 4 : Int) : ℚ) * cst.seconds_per_day))
    (e5 : double_add t4
      (((doy - 1 + (year - cst.reference_year).tdiv 4 : Int) : ℚ) * cst.seconds_per_day) =
        .ok t5)
    (p6 : double_mul ((year - cst.reference_year : Int) : ℚ) cst.seconds_per_year =
      .ok (((year - cst.reference_year : Int) : ℚ) * cst.seconds_per_year))
    (e6 : double_add t5 (((year - cst.reference_year : Int) : ℚ) * cst.seconds_per_year) =
      .ok t6) :
    time_int_to_real cst [year, month, day, hour, minute, second, millisecond] = .ok t6 := by
  unfold time_int_to_real
  have h0 : at_index [year, month, day, hour, minute, second, millisecond] 0 = .ok year := rfl
  have h1 : at_index [year, month, day, hour, minute, second, millisecond] 1 = .ok month := rfl
  have h2 : at_index [year, month, day, hour, minute, second, millisecond] 2 = .ok day := rfl
  have h3 : at_index [year, month, day, hour, minute, second, millisecond] 3 = .ok hour := rfl
  have h4 : at_index [year, month, day, hour, minute, second, millisecond] 4 = .ok minute := rfl
  have h5 : at_index [year, month, day, hour, minute, second, millisecond] 5 = .ok second := rfl
  have h6 : at_index [year, month, day, hour, minute, second, millisecond] 6 = .ok millisecond :=
    rfl
  rw [h0, h1, h2, h3, h4, h5, h6]
  simp only [bind, Except.bind, hY, hdoy, hD, hN, e1, e2, p3, e3, p4, e4, p5, e5, p6, e6]

/-- The vector of `time_real_to_int` is empty when its first element is
written, for every time and every value of the constants. -/
theorem time_real_to_int_out_of_range (cst : time_constants) (timereal : ℚ) :
    time_real_to_int cst timereal = .error Fault.out_of_range :=
  rfl

/-! ### The species density integrator -/

theorem put_same (v : Nat → ℚ) (i : Nat) (x : ℚ) : put v i x i = x := by
  simp [put]

theorem put_other (v : Nat → ℚ) {i j : Nat} (x : ℚ) (h : j ≠ i) : put v i x j = v j := by
  simp [put, h]

/-- The loop of `cp` leaves the elements below its first index alone and gives
each element it visits the value of the recurrence. -/
theorem cp_loop_spec (a b c : Nat → ℚ) :
    ∀ (k i : Nat) (cp : Nat → ℚ), 1 ≤ i →
      (∀ j, j < i → cp_loop a b c k i cp j = cp j) ∧
      (∀ j, i ≤ j → j < i + k →
        cp_loop a b c k i cp j = c j / (b j - cp_loop a b c k i cp (j - 1) * a j)) := by
  intro k
  induction k with
  | zero =>
    intro i cp _
    exact ⟨fun j _ => rfl, fun j h1 h2 => by omega⟩
  | succ k ih =>
    intro i cp hi
    obtain ⟨ih1, ih2⟩ := ih (i + 1) (put cp i (c i / (b i - cp (i - 1) * a i))) (by omega)
    have hlow : ∀ j, j < i → cp_loop a b c (k + 1) i cp j = cp j := by
      intro j hj
      show cp_loop a b c k (i + 1) _ j = cp j
      rw [ih1 j (by omega), put_other _ _ (by omega)]
    refine ⟨hlow, ?_⟩
    intro j h1 h2
    rcases Nat.eq_or_lt_of_le h1 with h | h
    · subst h
      rw [hlow (i - 1) (by omega)]
      show cp_loop a b c k (i + 1) _ i = _
      rw [ih1 i (by omega), put_same]
    · exact ih2 j (by omega) (by omega)

/-- The loop of `dp` leaves the elements below its first index alone and gives
each element it visits the value of the recurrence. -/
theorem dp_loop_spec (a b d cp : Nat → ℚ) :
    ∀ (k i : Nat) (dp : Nat → ℚ), 1 ≤ i →
      (∀ j, j < i → dp_loop a b d cp k i dp j = dp j) ∧
      (∀ j, i ≤ j → j < i + k →
        dp_loop a b d cp k i dp j =
          (d j - dp_loop a b d cp k i dp (j - 1) * a j) / (b j - cp (j - 1) * a j)) := by
  intro k
  induction k with
  | zero =>
    intro i dp _
    exact ⟨fun j _ => rfl, fun j h1 h2 => by omega⟩
  | succ k ih =>
    intro i dp hi
    obtain ⟨ih1, ih2⟩ :=
      ih (i + 1) (put dp i ((d i - dp (i - 1) * a i) / (b i - cp (i - 1) * a i))) (by omega)
    have hlow : ∀ j, j < i → dp_loop a b d cp (k + 1) i dp j = dp j := by
      intro j hj
      show dp_loop a b d cp k (i + 1) _ j = dp j
      rw [ih1 j (by omega), put_other _ _ (by omega)]
    refine ⟨hlow, ?_⟩
    intro j h1 h2
    rcases Nat.eq_or_lt_of_le h1 with h | h
    · subst h
      rw [hlow (i - 1) (by omega)]
      show dp_loop a b d cp k (i + 1) _ i = _
      rw [ih1 i (by omega), put_same]
    · exact ih2 j (by omega) (by omega)

/-- The backward loop leaves the elements above its first index alone and
gives each element it visits the value of the back substitution. -/
theorem result_loop_spec (dp cp : Nat → ℚ) :
    ∀ (i : Nat) (result : Nat → ℚ),
      (∀ j, i < j → result_loop dp cp i result j = result j) ∧
      (result_loop dp cp i result 0 = result 0) ∧
      (∀ j, 1 ≤ j → j ≤ i →
        result_loop dp cp i result j = dp j - cp j * result_loop dp cp i result (j + 1)) := by
  intro i
  induction i with
  | zero =>
    intro result
    exact ⟨fun j _ => rfl, rfl, fun j h1 h2 => by omega⟩
  | succ i ih =>
    intro result
    obtain ⟨ih1, ih0, ih2⟩ :=
      ih (put result (i + 1) (dp (i + 1) - cp (i + 1) * result (i + 2)))
    have hhigh : ∀ j, i + 1 < j → result_loop dp cp (i + 1) result j = result j := by
      intro j hj
      show result_loop dp cp i _ j = result j
      rw [ih1 j (by omega), put_other _ _ (by omega)]
    refine ⟨hhigh, ?_, ?_⟩
    · show result_loop dp cp i _ 0 = result 0
      rw [ih0, put_other _ _ (by omega)]
    · intro j h1 h2
      rcases Nat.eq_or_lt_of_le h2 with h | h
      · subst h
        rw [hhigh (i + 2) (by omega)]
        show result_loop dp cp i _ (i + 1) = _
        rw [ih1 (i + 1) (by omega), put_same]
      · exact ih2 j h1 (by omega)

/-- The Thomas algorithm, as the three loops of `solver_conduction` run it on
the rows `1, ..., n-2` of a tridiagonal system whose first row has no
sub-diagonal entry and whose last row has no super-diagonal entry: when no
pivot is zero, what the backward loop leaves solves every row. -/
theorem thomas_rows (a b c d cp dp result : Nat → ℚ) (n : Nat) (hn : 4 ≤ n)
    (hcp : cp = cp_loop a b c (n - 3) 2 (put (fun _ => 0) 1 (c 1 / b 1)))
    (hdp : dp = dp_loop a b d cp (n - 3) 2 (put (fun _ => 0) 1 (d 1 / b 1)))
    (hres : result = result_loop dp cp (n - 3) (put (fun _ => 0) (n - 2) (dp (n - 2))))
    (ha : a 1 = 0) (hb : b 1 ≠ 0) (hc : c (n - 2) = 0)
    (hpiv : ∀ i, 2 ≤ i → i ≤ n - 2 → b i - cp (i - 1) * a i ≠ 0) :
    ∀ i, 1 ≤ i → i ≤ n - 2 →
      a i * result (i - 1) + b i * result i + c i * result (i + 1) = d i := by
  obtain ⟨cp1, cp2⟩ := cp_loop_spec a b c (n - 3) 2 (put (fun _ => 0) 1 (c 1 / b 1)) (by omega)
  obtain ⟨dp1, dp2⟩ := dp_loop_spec a b d cp (n - 3) 2 (put (fun _ => 0) 1 (d 1 / b 1)) (by omega)
  obtain ⟨r1, -, r2⟩ := result_loop_spec dp cp (n - 3) (put (fun _ => 0) (n - 2) (dp (n - 2)))
  rw [← hcp] at cp1 cp2
  rw [← hdp] at dp1 dp2
  rw [← hres] at r1 r2
  have hcp1 : cp 1 = c 1 / b 1 := by rw [cp1 1 (by omega), put_same]
  have hdp1 : dp 1 = d 1 / b 1 := by rw [dp1 1 (by omega), put_same]
  have htop : result (n - 2) = dp (n - 2) := by rw [r1 (n - 2) (by omega), put_same]
  have hback : ∀ j, 1 ≤ j → j ≤ n - 3 → result j = dp j - cp j * result (j + 1) := r2
  intro i h1 h2
  rcases Nat.eq_or_lt_of_le h1 with h | h
  · -- the first row
    subst h
    rw [ha, hback 1 (by omega) (by omega), hcp1, hdp1]
    field_simp
  · have hp := hpiv i (by omega) h2
    have hcpi := cp2 i (by omega) (by omega)
    have hdpi := dp2 i (by omega) (by omega)
    have hprev : result (i - 1) = dp (i - 1) - cp (i - 1) * result i := by
      have := hback (i - 1) (by omega) (by omega)
      rwa [Nat.sub_add_cancel (by omega)] at this
    rcases Nat.eq_or_lt_of_le h2 with h' | h'
    · -- the last row
      subst h'
      rw [hprev, htop, hc, hdpi]
      field_simp
      ring
    · rw [hprev, hback i (by omega) (by omega), hcpi, hdpi]
      field_simp
      ring

/-- On vectors of one length, which is two at least, `solver_conduction`
returns the `nPts` elements of its vector `conduction`. -/
theorem solver_conduction_some (value lambda front dx : List ℚ) (dt : ℚ)
    (hn : 2 ≤ value.length) (hlambda : lambda.length = value.length)
    (hfront : front.length = value.length) (hdx : dx.length = value.length) :
    solver_conduction value lambda front dt dx =
      some ((List.range value.length).map
        (solver_conduction_locals value lambda front dt dx).conduction) := by
  unfold solver_conduction
  dsimp only
  rw [if_neg]
  rw [hlambda, hfront, hdx]
  simp only [ne_eq, not_true_eq_false, or_false, not_lt]
  exact hn

/-- The rows `1` and `nPts - 2` of the system that `solver_conduction`
assembles, on four points at least. -/
theorem solver_conduction_boundary_rows (value lambda front dx : List ℚ) (dt : ℚ)
    (hn : 4 ≤ value.length) :
    (solver_conduction_locals value lambda front dt dx).a 1 = 0 ∧
    (solver_conduction_locals value lambda front dt dx).b 1 = -1 ∧
    (solver_conduction_locals value lambda front dt dx).c 1 = 0 ∧
    (solver_conduction_locals value lambda front dt dx).d 1 = -1 * fvec_at value 1 ∧
    (solver_conduction_locals value lambda front dt dx).c (value.length - 2) = 0 := by
  have h1 : (1 : Nat) ≠ value.length - 2 := by omega
  refine ⟨?_, ?_, ?_, ?_, ?_⟩
  · show put (put _ 1 0) (value.length - 2) _ 1 = 0
    rw [put_other _ _ h1, put_same]
  · show put (put _ 1 (-1)) (value.length - 2) _ 1 = -1
    rw [put_other _ _ h1, put_same]
  · show put (put _ 1 0) (value.length - 2) _ 1 = 0
    rw [put_other _ _ h1, put_same]
  · show put (put _ 1 (-1 * fvec_at value 1)) (value.length - 2) _ 1 = _
    rw [put_other _ _ h1, put_same]
  · show put _ (value.length - 2) 0 (value.length - 2) = 0
    rw [put_same]

/-- The elements of the vector `conduction` when `solver_conduction` returns,
on four points at least. -/
theorem solver_conduction_locals_conduction (value lambda front dx : List ℚ) (dt : ℚ)
    (i : Nat) :
    (solver_conduction_locals value lambda front dt dx).conduction i =
      if i = value.length - 1 ∨ i = value.length - 2 ∨ i = 1 ∨ i = 0 then 0
      else (solver_conduction_locals value lambda front dt dx).result i - fvec_at value i := by
  show put (put (put (put (fun j => (solver_conduction_locals value lambda front dt dx).result j
    - fvec_at value j) 0 0) 1 0) (value.length - 2) 0) (value.length - 1) 0 i = _
  unfold put
  by_cases h1 : i = value.length - 1
  · simp [h1]
  by_cases h2 : i = value.length - 2
  · simp [h2]
  by_cases h3 : i = 1
  · simp [h3]
  by_cases h4 : i = 0
  · simp [h4]
  simp [h1, h2, h3, h4]

/-! ### The shape of the species lists -/

theorem describes_species_map (neutrals ions : String → Int) (names : List String) :
    describes_species neutrals ions names
      (names.map (fun c => (find_species_id neutrals ions c).1))
      (names.map (fun c => (find_species_id neutrals ions c).2)) (names.length : Int) := by
  refine ⟨rfl, by rw [List.length_map], by rw [List.length_map], ?_⟩
  intro i name hi
  rw [List.getElem?_map, List.getElem?_map, hi]
  exact ⟨rfl, rfl⟩

/-- The list shape of a reaction is a property of the members that the species
loops write. -/
theorem list_shape_of_species_part (neutrals ions : String → Int) (r r' : reaction_type)
    (h : species_part r = species_part r') (hr : list_shape neutrals ions r) :
    list_shape neutrals ions r' := by
  have h1 : r.losses_names = r'.losses_names := congrArg (fun p => p.1.1) h
  have h2 : r.losses_ids = r'.losses_ids := congrArg (fun p => p.1.2.1) h
  have h3 : r.losses_IsNeutral = r'.losses_IsNeutral := congrArg (fun p => p.1.2.2.1) h
  have h4 : r.nLosses = r'.nLosses := congrArg (fun p => p.1.2.2.2) h
  have h5 : r.sources_names = r'.sources_names := congrArg (fun p => p.2.1) h
  have h6 : r.sources_ids = r'.sources_ids := congrArg (fun p => p.2.2.1) h
  have h7 : r.sources_IsNeutral = r'.sources_IsNeutral := congrArg (fun p => p.2.2.2.1) h
  have h8 : r.nSources = r'.nSources := congrArg (fun p => p.2.2.2.2) h
  unfold list_shape at hr ⊢
  rw [← h1, ← h2, ← h3, ← h4, ← h5, ← h6, ← h7, ← h8]
  exact hr

/-- A reaction that `interpret_reaction_line` returns has the list shape. -/
theorem interpret_reaction_line_list_shape (neutrals ions : String → Int)
    (stof : String → Option ℚ) (stoi : String → Option Int) (u : reaction_type)
    (line : List String) (headers : hashtable) (r : reaction_type) (h' : hashtable)
    (hr : interpret_reaction_line neutrals ions stof stoi u line headers = .ok (r, h')) :
    list_shape neutrals ions r := by
  have hsp := (interpret_reaction_line_species_part neutrals ions stof stoi u line headers
    r h' hr).1
  have h1 : r.losses_names = (loss_cells line headers).filter (resolves neutrals ions) :=
    congrArg (fun p => p.1.1) hsp
  have h2 : r.losses_ids = ((loss_cells line headers).filter (resolves neutrals ions)).map
      (fun c => (find_species_id neutrals ions c).1) := congrArg (fun p => p.1.2.1) hsp
  have h3 : r.losses_IsNeutral =
      ((loss_cells line headers).filter (resolves neutrals ions)).map
        (fun c => (find_species_id neutrals ions c).2) := congrArg (fun p => p.1.2.2.1) hsp
  have h4 : r.nLosses =
      (((loss_cells line headers).filter (resolves neutrals ions)).length : Int) :=
    congrArg (fun p => p.1.2.2.2) hsp
  have h5 : r.sources_names = (source_cells line headers).filter (resolves neutrals ions) :=
    congrArg (fun p => p.2.1) hsp
  have h6 : r.sources_ids = ((source_cells line headers).filter (resolves neutrals ions)).map
      (fun c => (find_species_id neutrals ions c).1) := congrArg (fun p => p.2.2.1) hsp
  have h7 : r.sources_IsNeutral =
      ((source_cells line headers).filter (resolves neutrals ions)).map
        (fun c => (find_species_id neutrals ions c).2) := congrArg (fun p => p.2.2.2.1) hsp
  have h8 : r.nSources =
      (((source_cells line headers).filter (resolves neutrals ions)).length : Int) :=
    congrArg (fun p => p.2.2.2.2) hsp
  unfold list_shape
  rw [h1, h2, h3, h4, h5, h6, h7, h8]
  exact ⟨describes_species_map neutrals ions _, describes_species_map neutrals ions _⟩

/-- A reaction completed from a stored one has the list shape of that one. -/
theorem inherit_list_shape (neutrals ions : String → Int) (reaction last : reaction_type)
    (h : list_shape neutrals ions last) : list_shape neutrals ions (inherit reaction last) :=
  list_shape_of_species_part neutrals ions last (inherit reaction last) rfl h

/-- The perturbation block, which writes rates only, keeps the list shape. -/
theorem list_shape_of_without_rate (neutrals ions : String → Int) (r r' : reaction_type)
    (h : without_rate r = without_rate r') (hr : list_shape neutrals ions r) :
    list_shape neutrals ions r' := by
  have hsp : species_part (without_rate r) = species_part (without_rate r') :=
    congrArg species_part h
  exact list_shape_of_species_part neutrals ions r r' hsp hr

/-- One row of the table keeps the list shape of the stored reactions, and the
local `reaction` either has the list shape too or is still the
default-constructed one; this as long as the default-constructed reaction does
not pass the test `nLosses > 0 && nSources > 0`. -/
theorem read_line_list_shape (neutrals ions : String → Int)
    (stof : String → Option ℚ) (stoi : String → Option Int) (u : reaction_type)
    (hu : ¬ (0 < u.nLosses ∧ 0 < u.nSources))
    (st st' : reader_state) (row : List String)
    (hinv : ∀ r ∈ st.chem.reactions, list_shape neutrals ions r)
    (hloc : list_shape neutrals ions st.reaction ∨ st.reaction = reaction_type.fresh u)
    (h : read_line neutrals ions stof stoi u st row = .ok st') :
    (∀ r ∈ st'.chem.reactions, list_shape neutrals ions r) ∧
    (list_shape neutrals ions st'.reaction ∨ st'.reaction = reaction_type.fresh u) := by
  unfold read_line at h
  obtain ⟨p, hp, h⟩ := bind_ok h
  obtain ⟨x, hx, h⟩ := bind_ok h
  simp only [pure, Except.pure, Except.ok.injEq] at h
  subst h
  have hp1 : list_shape neutrals ions p.1 ∨ p.1 = reaction_type.fresh u := by
    unfold read_line_interpret at hp
    obtain ⟨s, -, hp⟩ := bind_ok hp
    by_cases hlen : s.length > 0
    · rw [if_pos hlen] at hp
      obtain ⟨c, -, hp⟩ := bind_ok hp
      left
      exact interpret_reaction_line_list_shape neutrals ions stof stoi u row _ p.1 p.2 hp
    · rw [if_neg hlen] at hp
      simp only [pure, Except.pure, Except.ok.injEq] at hp
      rw [← hp]
      exact hloc
  have hx1 : list_shape neutrals ions x ∨ x = reaction_type.fresh u := by
    rcases read_line_inherit_ok hx with ⟨-, hxe⟩ | ⟨-, last, hlast, hxe⟩
    · rw [hxe]
      exact hp1
    · left
      rw [hxe]
      exact inherit_list_shape neutrals ions p.1 last
        (hinv last (List.mem_of_getLast?_eq_some hlast))
  refine ⟨?_, hx1⟩
  show ∀ r ∈ (read_line_store st.chem x).reactions, list_shape neutrals ions r
  rcases read_line_store_reactions st.chem x with ⟨h1, -⟩ | ⟨h1, h2⟩
  · rw [h1]
    exact hinv
  · rw [h1]
    intro r hr
    rcases List.mem_append.mp hr with hm | hm
    · exact hinv r hm
    · rw [List.mem_singleton] at hm
      rw [hm]
      rcases hx1 with hs | hf
      · exact hs
      · exfalso
        apply hu
        rw [hf] at h2
        exact ⟨by have := h2.1; show 0 < (reaction_type.fresh u).nLosses; omega,
          by have := h2.2; show 0 < (reaction_type.fresh u).nSources; omega⟩

/-- The row loop keeps the list shape of the stored reactions. -/
theorem read_lines_list_shape (neutrals ions : String → Int)
    (stof : String → Option ℚ) (stoi : String → Option Int) (u : reaction_type)
    (hu : ¬ (0 < u.nLosses ∧ 0 < u.nSources)) :
    ∀ (rows : List (List String)) (st st' : reader_state),
      (∀ r ∈ st.chem.reactions, list_shape neutrals ions r) →
      (list_shape neutrals ions st.reaction ∨ st.reaction = reaction_type.fresh u) →
      read_lines neutrals ions stof stoi u rows st = .ok st' →
      ∀ r ∈ st'.chem.reactions, list_shape neutrals ions r := by
  intro rows
  induction rows with
  | nil =>
    intro st st' hinv _ h
    simp only [read_lines, Except.ok.injEq] at h
    subst h
    exact hinv
  | cons row rows ih =>
    intro st st' hinv hloc h
    simp only [read_lines] at h
    cases h1 : read_line neutrals ions stof stoi u st row with
    | error e => simp [h1] at h
    | ok st1 =>
      simp only [h1] at h
      obtain ⟨hinv1, hloc1⟩ :=
        read_line_list_shape neutrals ions stof stoi u hu st st1 row hinv hloc h1
      exact ih st1 st' hinv1 hloc1 h

/-- The list-shape invariant, where the default-constructed reaction does not
pass the storing test `nLosses > 0 && nSources > 0`. Whenever
`read_chemistry_file` returns, on an object whose stored reactions (none, for a
new object) have the list shape, every reaction stored in `reactions` has it:
`losses_names`, `losses_ids` and `losses_IsNeutral` all have length `nLosses`,
`sources_names`, `sources_ids` and `sources_IsNeutral` all have length
`nSources`, and the id and the kind flag at a position are those of the name at
that position. -/
theorem read_chemistry_file_list_shape (neutrals ions : String → Int)
    (stof : String → Option ℚ) (stoi : String → Option Int) (u : reaction_type)
    (sample : Nat → ℚ → ℚ → ℚ) (args : Inputs) (chem : Chemistry) (iErr : Int)
    (chem' : Chemistry)
    (hu : ¬ (0 < u.nLosses ∧ 0 < u.nSources))
    (hinv : ∀ r ∈ chem.reactions, list_shape neutrals ions r)
    (h : read_chemistry_file neutrals ions stof stoi u sample args chem = .ok (iErr, chem')) :
    ∀ r ∈ chem'.reactions, list_shape neutrals ions r := by
  rcases read_chemistry_file_cases neutrals ions stof stoi u sample args chem iErr chem' h with
    ⟨-, hc, -⟩ | ⟨-, hc, -⟩ | ⟨-, -, -, -, st, reactions', hl, hp, hc⟩
  · rw [hc]; exact hinv
  · rw [hc]; exact hinv
  · intro r hr
    rw [hc] at hr
    have hmap := perturb_without_rate stoi sample args.csv args.perturb_values st.headers
      st.chem.reactions reactions' hp
    have hmem : without_rate r ∈ st.chem.reactions.map without_rate := by
      rw [← hmap]
      exact List.mem_map_of_mem without_rate hr
    obtain ⟨r0, hr0, heq⟩ := List.mem_map.mp hmem
    exact list_shape_of_without_rate neutrals ions r0 r heq
      (read_lines_list_shape neutrals ions stof stoi u hu _ _ st hinv (Or.inr rfl) hl r0 hr0)

/-- The two reactions stored for the rows `A + B -> C` and its continuation
have the list shape: two losses and one source each, the ids `0`, `1` and `2`
at the positions of the names `A`, `B` and `C`. -/
theorem read_chemistry_file_list_shape_example :
    ¬ (0 < demo_u.nLosses ∧ 0 < demo_u.nSources) ∧
    (∀ r ∈ (⟨0, []⟩ : Chemistry).reactions, list_shape demo_neutrals demo_ions r) ∧
    read_chemistry_file demo_neutrals demo_ions demo_stof demo_stoi demo_u demo_sample
        (demo_args [demo_header, demo_units, demo_row_AB_C, demo_row_continuation]) ⟨0, []⟩ =
      .ok (0, ⟨2, [demo_reaction_AB_C, demo_reaction_continued]⟩) ∧
    ∀ r ∈ [demo_reaction_AB_C, demo_reaction_continued], list_shape demo_neutrals demo_ions r :=
  ⟨by decide, by simp, rfl,
    read_chemistry_file_list_shape demo_neutrals demo_ions demo_stof demo_stoi demo_u
      demo_sample (demo_args [demo_header, demo_units, demo_row_AB_C, demo_row_continuation])
      ⟨0, []⟩ 0 ⟨2, [demo_reaction_AB_C, demo_reaction_continued]⟩ (by decide) (by simp) rfl⟩

/-! ## The claims -/

/-- Claim C1. A data row with an empty `rate` cell should add no reaction, as the
comment in the row loop says. The code does add one: on the table made of the
header row, the reserved row, the row `A + B -> C` and a trailing row with an
empty `rate` cell, the local `reaction` still holds `A + B -> C` when the
trailing row is reached, and it is stored a second time. Without the trailing
row the table gives one reaction. -/
theorem read_chemistry_file_blank_rate_row_stores_again :
    read_chemistry_file demo_neutrals demo_ions demo_stof demo_stoi demo_u demo_sample
        (demo_args [demo_header, demo_units, demo_row_AB_C, demo_row_blank]) ⟨0, []⟩ =
      .ok (0, ⟨2, [demo_reaction_AB_C, demo_reaction_AB_C]⟩) ∧
    read_chemistry_file demo_neutrals demo_ions demo_stof demo_stoi demo_u demo_sample
        (demo_args [demo_header, demo_units, demo_row_AB_C]) ⟨0, []⟩ =
      .ok (0, ⟨1, [demo_reaction_AB_C]⟩) :=
  ⟨rfl, rfl⟩

/-- Claim C2. Continuation inheritance. Take any table and any of its data rows
(`pre` are the data rows before it, `post` those after it, `st` is the state in
which the row loop reaches it) whose `rate` cell is not empty and for which
`interpret_reaction_line` gives the reaction `r` with no loss and no source.
Whenever `read_chemistry_file` returns on that table, there is a reaction
`last` stored just before the row, and the reaction stored for the row has the
loss and source members (names, ids, kind flags, counts), the branching ratio
and the energy of `last`, and the numerator, exponent, min, max and type of
`r`, that is, of its own row; its rate is the rate of its own row too, when no
perturbation is asked. -/
theorem read_chemistry_file_continuation_inherits (neutrals ions : String → Int)
    (stof : String → Option ℚ) (stoi : String → Option Int) (u : reaction_type)
    (sample : Nat → ℚ → ℚ → ℚ) (args : Inputs) (chem : Chemistry)
    (pre post : List (List String)) (row : List String) (st : reader_state) (s : String)
    (r : reaction_type) (h' : hashtable) (iErr : Int) (chem' : Chemistry)
    (hopen : args.is_open = true) (hgood : args.good = true)
    (hcsv : args.csv.drop 2 = pre ++ row :: post)
    (hinv : ∀ x ∈ chem.reactions, 1 ≤ x.nLosses ∧ 1 ≤ x.nSources)
    (hpre : read_lines neutrals ions stof stoi u pre (loop_start u args.csv chem) = .ok st)
    (hrate : cell row (st.headers.index "rate").1 = .ok s) (hs : 0 < s.length)
    (hrow : interpret_reaction_line neutrals ions stof stoi u row
      ((st.headers.index "rate").2.index "loss1").2 = .ok (r, h'))
    (hzero : r.nLosses = 0 ∧ r.nSources = 0)
    (hres : read_chemistry_file neutrals ions stof stoi u sample args chem = .ok (iErr, chem')) :
    ∃ last stored,
      st.chem.reactions.getLast? = some last ∧
      chem'.reactions[st.chem.reactions.length]? = some stored ∧
      species_part stored = species_part last ∧
      stored.branching_ratio = last.branching_ratio ∧ stored.energy = last.energy ∧
      stored.numerator = r.numerator ∧ stored.exponent = r.exponent ∧
      stored.min = r.min ∧ stored.max = r.max ∧ stored.type = r.type ∧
      (args.perturb_values = [] → stored.rate = r.rate) := by
  have hlen : 2 < args.csv.length := by
    have h1 : (args.csv.drop 2).length = (pre ++ row :: post).length := by rw [hcsv]
    simp only [List.length_drop, List.length_append, List.length_cons] at h1
    omega
  rcases read_chemistry_file_cases neutrals ions stof stoi u sample args chem iErr chem' hres
    with ⟨-, -, hc⟩ | ⟨-, -, hc⟩ | ⟨-, -, -, -, st2, reactions', hl, hp, hc⟩
  · rcases hc with hc | hc
    · rw [hopen] at hc; cases hc
    · omega
  · rw [hgood] at hc; cases hc
  · have hl' : read_lines neutrals ions stof stoi u (pre ++ row :: post)
        (loop_start u args.csv chem) = .ok st2 := by
      rw [← hcsv]; exact hl
    rw [read_lines_append, hpre] at hl'
    simp only [read_lines] at hl'
    cases h1 : read_line neutrals ions stof stoi u st row with
    | error e => rw [h1] at hl'; cases hl'
    | ok st1 =>
      rw [h1] at hl'
      dsimp only at hl'
      obtain ⟨s0, hs0, hb0⟩ :=
        read_lines_reactions neutrals ions stof stoi u pre _ st hpre
      have hinv' : ∀ x ∈ st.chem.reactions, 1 ≤ x.nLosses ∧ 1 ≤ x.nSources := by
        intro x hx
        rw [hs0] at hx
        rcases List.mem_append.mp hx with hm | hm
        · exact hinv x hm
        · exact hb0 x hm
      obtain ⟨last, hlast, hst1⟩ := read_line_continuation neutrals ions stof stoi u st st1
        row s r h' hinv' hrate hs hrow hzero h1
      obtain ⟨s2, hs2, -⟩ := read_lines_reactions neutrals ions stof stoi u post st1 st2 hl'
      have hget : (st2.chem.reactions)[st.chem.reactions.length]? = some (inherit r last) := by
        rw [hs2, hst1, List.append_assoc, List.getElem?_append_right (le_refl _)]
        simp
      have hmap := perturb_without_rate stoi sample args.csv args.perturb_values st2.headers
        st2.chem.reactions reactions' hp
      have hget' : (reactions'.map without_rate)[st.chem.reactions.length]? =
          some (without_rate (inherit r last)) := by
        rw [hmap, List.getElem?_map, hget]
        rfl
      rw [List.getElem?_map] at hget'
      cases hsto : reactions'[st.chem.reactions.length]? with
      | none => rw [hsto] at hget'; cases hget'
      | some stored =>
        rw [hsto] at hget'
        simp only [Option.map_some', Option.some.injEq] at hget'
        refine ⟨last, stored, hlast, ?_, ?_, ?_, ?_, ?_, ?_, ?_, ?_, ?_, ?_⟩
        · rw [hc]; exact hsto
        · have hsp := congrArg species_part hget'
          exact hsp
        · exact congrArg (fun x => x.branching_ratio) hget'
        · exact congrArg (fun x => x.energy) hget'
        · exact congrArg (fun x => x.numerator) hget'
        · exact congrArg (fun x => x.exponent) hget'
        · exact congrArg (fun x => x.min) hget'
        · exact congrArg (fun x => x.max) hget'
        · exact congrArg (fun x => x.type) hget'
        · intro hv
          rw [hv, perturb_no_values] at hp
          simp only [Except.ok.injEq] at hp
          rw [← hp, hget] at hsto
          simp only [Option.some.injEq] at hsto
          rw [← hsto]
          rfl

/-- The rows `A + B -> C` with rate `1.0`, then no species with rate `2.0`: the
second reaction stored has the species of the first one and the rate `2`. -/
theorem read_chemistry_file_continuation_inherits_witness :
    ∃ stored : reaction_type,
      (demo_args [demo_header, demo_units, demo_row_AB_C, demo_row_continuation]).csv.drop 2 =
        [demo_row_AB_C] ++ demo_row_continuation :: [] ∧
      read_chemistry_file demo_neutrals demo_ions demo_stof demo_stoi demo_u demo_sample
        (demo_args [demo_header, demo_units, demo_row_AB_C, demo_row_continuation]) ⟨0, []⟩ =
        .ok (0, ⟨2, [demo_reaction_AB_C, stored]⟩) ∧
      species_part stored = species_part demo_reaction_AB_C ∧ stored.rate = 2 := by
  obtain ⟨last, stored, hlast, hsto, hsp, -, -, -, -, -, -, -, hrate⟩ :=
    read_chemistry_file_continuation_inherits demo_neutrals demo_ions demo_stof demo_stoi
      demo_u demo_sample
      (demo_args [demo_header, demo_units, demo_row_AB_C, demo_row_continuation]) ⟨0, []⟩
      [demo_row_AB_C] [] demo_row_continuation
      ⟨demo_headers.assign "branching" 10, demo_reaction_AB_C, ⟨1, [demo_reaction_AB_C]⟩⟩
      "2.0" demo_reaction_bare ((demo_headers.assign "branching" 10).assign "branching" 10) 0
      ⟨2, [demo_reaction_AB_C, demo_reaction_continued]⟩
      rfl rfl rfl (by simp) rfl rfl (by decide) rfl ⟨rfl, rfl⟩ rfl
  have h1 : last = demo_reaction_AB_C := by
    have : some last = some demo_reaction_AB_C := hlast.symm.trans rfl
    exact Option.some.inj this
  have h2 : stored = demo_reaction_continued := by
    have : some stored = some demo_reaction_continued := hsto.symm.trans rfl
    exact Option.some.inj this
  refine ⟨stored, rfl, ?_, ?_, ?_⟩
  · rw [h2]; rfl
  · rw [hsp, h1]
  · rw [hrate rfl]
    rfl

/-- Claim C3. Species resolution in `interpret_reaction_line`. When the call
returns a reaction, `losses_ids` is the list of the ids `find_species_id` gives
the loss cells, in column order, without the negative ones, and `nLosses` is
the number of loss cells that resolve; likewise for the sources. Hence putting
an unresolvable text in place of a resolvable loss (source) cell lowers
`nLosses` (`nSources`) by exactly one and erases exactly the id of that cell
from `losses_ids` (`sources_ids`). -/
theorem interpret_reaction_line_species_resolution (neutrals ions : String → Int)
    (stof : String → Option ℚ) (stoi : String → Option Int) (u : reaction_type)
    (line : List String) (headers : hashtable) (r : reaction_type) (h' : hashtable)
    (hr : interpret_reaction_line neutrals ions stof stoi u line headers = .ok (r, h')) :
    (r.losses_ids = ((loss_cells line headers).map (species_id neutrals ions)).filter
        (fun i => decide (0 ≤ i)) ∧
     r.nLosses = (((loss_cells line headers).filter
        (fun c => decide (0 ≤ species_id neutrals ions c))).length : Int) ∧
     r.sources_ids = ((source_cells line headers).map (species_id neutrals ions)).filter
        (fun i => decide (0 ≤ i)) ∧
     r.nSources = (((source_cells line headers).filter
        (fun c => decide (0 ≤ species_id neutrals ions c))).length : Int)) ∧
    (∀ (j : Nat) (c c' : String) (r2 : reaction_type) (h2 : hashtable),
      (headers.index "loss1").1 ≤ j → j ≤ (headers.index "loss3").1 →
      (line)[j]? = some c → 0 ≤ species_id neutrals ions c →
      species_id neutrals ions c' < 0 →
      interpret_reaction_line neutrals ions stof stoi u (line.set j c') headers = .ok (r2, h2) →
      r2.nLosses = r.nLosses - 1 ∧
      r.losses_ids[resolved_before neutrals ions line (headers.index "loss1").1 j]? =
        some (species_id neutrals ions c) ∧
      r2.losses_ids =
        r.losses_ids.eraseIdx (resolved_before neutrals ions line (headers.index "loss1").1 j)) ∧
    (∀ (j : Nat) (c c' : String) (r2 : reaction_type) (h2 : hashtable),
      (headers.index "source1").1 ≤ j → j ≤ (headers.index "source3").1 →
      (line)[j]? = some c → 0 ≤ species_id neutrals ions c →
      species_id neutrals ions c' < 0 →
      interpret_reaction_line neutrals ions stof stoi u (line.set j c') headers = .ok (r2, h2) →
      r2.nSources = r.nSources - 1 ∧
      r.sources_ids[resolved_before neutrals ions line (headers.index "source1").1 j]? =
        some (species_id neutrals ions c) ∧
      r2.sources_ids =
        r.sources_ids.eraseIdx
          (resolved_before neutrals ions line (headers.index "source1").1 j)) := by
  obtain ⟨hsp, -, -⟩ :=
    interpret_reaction_line_species_part neutrals ions stof stoi u line headers r h' hr
  have hli : r.losses_ids = (resolved_species neutrals ions (loss_cells line headers)).2.1 :=
    congrArg (fun p => p.1.2.1) hsp
  have hln : r.nLosses = (resolved_species neutrals ions (loss_cells line headers)).2.2.2 :=
    congrArg (fun p => p.1.2.2.2) hsp
  have hsi : r.sources_ids = (resolved_species neutrals ions (source_cells line headers)).2.1 :=
    congrArg (fun p => p.2.2.1) hsp
  have hsn : r.nSources = (resolved_species neutrals ions (source_cells line headers)).2.2.2 :=
    congrArg (fun p => p.2.2.2.2) hsp
  have hfun : (fun c => decide (0 ≤ species_id neutrals ions c)) = resolves neutrals ions := rfl
  refine ⟨⟨?_, ?_, ?_, ?_⟩, ?_, ?_⟩
  · rw [hli]; exact resolved_species_ids neutrals ions _
  · rw [hln, hfun]; rfl
  · rw [hsi]; exact resolved_species_ids neutrals ions _
  · rw [hsn, hfun]; rfl
  · intro j c c' r2 h2 hlo hhi hj hc hc' hr2
    obtain ⟨hsp2, -, -⟩ :=
      interpret_reaction_line_species_part neutrals ions stof stoi u _ headers r2 h2 hr2
    have hli2 : r2.losses_ids =
        (resolved_species neutrals ions (loss_cells (line.set j c') headers)).2.1 :=
      congrArg (fun p => p.1.2.1) hsp2
    have hln2 : r2.nLosses =
        (resolved_species neutrals ions (loss_cells (line.set j c') headers)).2.2.2 :=
      congrArg (fun p => p.1.2.2.2) hsp2
    have hk : (loss_cells line headers)[j - (headers.index "loss1").1]? = some c := by
      unfold loss_cells
      rw [columns_getElem? line _ _ j hlo hhi, hj]
    have hset := resolved_species_set neutrals ions (loss_cells line headers)
      (j - (headers.index "loss1").1) c c' hk hc hc'
    have htake : (loss_cells line headers).take (j - (headers.index "loss1").1) =
        (line.drop (headers.index "loss1").1).take (j - (headers.index "loss1").1) :=
      columns_take line _ _ j hhi
    rw [htake] at hset
    have hcols : loss_cells (line.set j c') headers =
        (loss_cells line headers).set (j - (headers.index "loss1").1) c' :=
      columns_set line _ _ j c' hlo
    rw [hln2, hli2, hcols, hln, hli]
    exact hset
  · intro j c c' r2 h2 hlo hhi hj hc hc' hr2
    obtain ⟨hsp2, -, -⟩ :=
      interpret_reaction_line_species_part neutrals ions stof stoi u _ headers r2 h2 hr2
    have hsi2 : r2.sources_ids =
        (resolved_species neutrals ions (source_cells (line.set j c') headers)).2.1 :=
      congrArg (fun p => p.2.2.1) hsp2
    have hsn2 : r2.nSources =
        (resolved_species neutrals ions (source_cells (line.set j c') headers)).2.2.2 :=
      congrArg (fun p => p.2.2.2.2) hsp2
    have hk : (source_cells line headers)[j - (headers.index "source1").1]? = some c := by
      unfold source_cells
      rw [columns_getElem? line _ _ j hlo hhi, hj]
    have hset := resolved_species_set neutrals ions (source_cells line headers)
      (j - (headers.index "source1").1) c c' hk hc hc'
    have htake : (source_cells line headers).take (j - (headers.index "source1").1) =
        (line.drop (headers.index "source1").1).take (j - (headers.index "source1").1) :=
      columns_take line _ _ j hhi
    rw [htake] at hset
    have hcols : source_cells (line.set j c') headers =
        (source_cells line headers).set (j - (headers.index "source1").1) c' :=
      columns_set line _ _ j c' hlo
    rw [hsn2, hsi2, hcols, hsn, hsi]
    exact hset

/-- The row `A + B -> C`, and the same row with `X` in place of `B`: the ids
`[0, 1]` and the count `2` become the ids `[0]` and the count `1`. -/
theorem interpret_reaction_line_species_resolution_witness :
    interpret_reaction_line demo_neutrals demo_ions demo_stof demo_stoi demo_u demo_row_AB_C
        demo_headers = .ok (demo_reaction_AB_C, demo_headers.assign "branching" 10) ∧
    interpret_reaction_line demo_neutrals demo_ions demo_stof demo_stoi demo_u
        (demo_row_AB_C.set 1 "X") demo_headers =
      .ok (demo_reaction_A_C, demo_headers.assign "branching" 10) ∧
    demo_reaction_AB_C.losses_ids = [0, 1] ∧ demo_reaction_AB_C.nLosses = 2 ∧
    demo_reaction_A_C.nLosses = demo_reaction_AB_C.nLosses - 1 ∧
    demo_reaction_A_C.losses_ids = demo_reaction_AB_C.losses_ids.eraseIdx 1 :=
  ⟨rfl, rfl,
    (interpret_reaction_line_species_resolution demo_neutrals demo_ions demo_stof demo_stoi
      demo_u demo_row_AB_C demo_headers demo_reaction_AB_C
      (demo_headers.assign "branching" 10) rfl).1.1,
    (interpret_reaction_line_species_resolution demo_neutrals demo_ions demo_stof demo_stoi
      demo_u demo_row_AB_C demo_headers demo_reaction_AB_C
      (demo_headers.assign "branching" 10) rfl).1.2.1,
    ((interpret_reaction_line_species_resolution demo_neutrals demo_ions demo_stof demo_stoi
      demo_u demo_row_AB_C demo_headers demo_reaction_AB_C
      (demo_headers.assign "branching" 10) rfl).2.1 1 "B" "X" demo_reaction_A_C
      (demo_headers.assign "branching" 10) (by decide) (by decide) rfl (by decide)
      (by decide) rfl).1,
    ((interpret_reaction_line_species_resolution demo_neutrals demo_ions demo_stof demo_stoi
      demo_u demo_row_AB_C demo_headers demo_reaction_AB_C
      (demo_headers.assign "branching" 10) rfl).2.1 1 "B" "X" demo_reaction_A_C
      (demo_headers.assign "branching" 10) (by decide) (by decide) rfl (by decide)
      (by decide) rfl).2.2⟩

/-- Claim C4. Network invariant. Whenever `read_chemistry_file` returns, on an
object whose stored reactions (none, for a new object) have at least one loss
and one source, every reaction stored in `reactions` has `nLosses >= 1` and
`nSources >= 1`. -/
theorem read_chemistry_file_stores_both_sides (neutrals ions : String → Int)
    (stof : String → Option ℚ) (stoi : String → Option Int) (u : reaction_type)
    (sample : Nat → ℚ → ℚ → ℚ) (args : Inputs) (chem : Chemistry) (iErr : Int)
    (chem' : Chemistry)
    (hinv : ∀ r ∈ chem.reactions, 1 ≤ r.nLosses ∧ 1 ≤ r.nSources)
    (h : read_chemistry_file neutrals ions stof stoi u sample args chem = .ok (iErr, chem')) :
    ∀ r ∈ chem'.reactions, 1 ≤ r.nLosses ∧ 1 ≤ r.nSources := by
  rcases read_chemistry_file_cases neutrals ions stof stoi u sample args chem iErr chem' h with
    ⟨-, hc, -⟩ | ⟨-, hc, -⟩ | ⟨-, -, -, -, st, reactions', hl, hp, hc⟩
  · rw [hc]; exact hinv
  · rw [hc]; exact hinv
  · intro r hr
    rw [hc] at hr
    have hmap := perturb_without_rate stoi sample args.csv args.perturb_values st.headers
      st.chem.reactions reactions' hp
    have hmem : without_rate r ∈ st.chem.reactions.map without_rate := by
      rw [← hmap]
      exact List.mem_map_of_mem without_rate hr
    obtain ⟨r0, hr0, heq⟩ := List.mem_map.mp hmem
    obtain ⟨suffix, hs, hb⟩ := read_lines_reactions neutrals ions stof stoi u _ _ st hl
    have hr0both : 1 ≤ r0.nLosses ∧ 1 ≤ r0.nSources := by
      rw [hs] at hr0
      rcases List.mem_append.mp hr0 with hm | hm
      · exact hinv r0 hm
      · exact hb r0 hm
    have h1 : r0.nLosses = r.nLosses := congrArg (fun x => x.nLosses) heq
    have h2 : r0.nSources = r.nSources := congrArg (fun x => x.nSources) heq
    rw [← h1, ← h2]
    exact hr0both

/-- The two reactions stored for the rows `A + B -> C` and its continuation have
a loss and a source. -/
theorem read_chemistry_file_stores_both_sides_witness :
    (∀ r ∈ (⟨0, []⟩ : Chemistry).reactions, 1 ≤ r.nLosses ∧ 1 ≤ r.nSources) ∧
    read_chemistry_file demo_neutrals demo_ions demo_stof demo_stoi demo_u demo_sample
        (demo_args [demo_header, demo_units, demo_row_AB_C, demo_row_continuation]) ⟨0, []⟩ =
      .ok (0, ⟨2, [demo_reaction_AB_C, demo_reaction_continued]⟩) ∧
    ∀ r ∈ [demo_reaction_AB_C, demo_reaction_continued], 1 ≤ r.nLosses ∧ 1 ≤ r.nSources :=
  ⟨by simp, rfl,
    read_chemistry_file_stores_both_sides demo_neutrals demo_ions demo_stof demo_stoi demo_u
      demo_sample (demo_args [demo_header, demo_units, demo_row_AB_C, demo_row_continuation])
      ⟨0, []⟩ 0 ⟨2, [demo_reaction_AB_C, demo_reaction_continued]⟩ (by simp) rfl⟩

/-- Claim C5. For every table with fewer than 3 rows, `read_chemistry_file`
returns the error code `1`, which is not zero, and leaves the object, so the
reaction list, as it was. -/
theorem read_chemistry_file_short_table (neutrals ions : String → Int)
    (stof : String → Option ℚ) (stoi : String → Option Int) (u : reaction_type)
    (sample : Nat → ℚ → ℚ → ℚ) (args : Inputs) (chem : Chemistry)
    (hgood : args.good = true) (hlen : args.csv.length < 3) :
    read_chemistry_file neutrals ions stof stoi u sample args chem = .ok (1, chem) ∧
    (1 : Int) ≠ 0 := by
  refine ⟨?_, by decide⟩
  unfold read_chemistry_file
  by_cases hopen : args.is_open = true
  · rw [if_neg (not_not.mpr hopen), if_pos hgood]
    dsimp only
    rw [if_pos (by omega)]
  · rw [if_pos hopen]

/-- The table made of a header row and a reserved row only: the error code is
`1` and the reaction the object had is still there. -/
theorem read_chemistry_file_short_table_witness :
    (demo_args [demo_header, demo_units]).good = true ∧
    (demo_args [demo_header, demo_units]).csv.length < 3 ∧
    read_chemistry_file demo_neutrals demo_ions demo_stof demo_stoi demo_u demo_sample
        (demo_args [demo_header, demo_units]) ⟨0, [demo_reaction_AB_C]⟩ =
      .ok (1, ⟨0, [demo_reaction_AB_C]⟩) :=
  ⟨rfl, by decide,
    (read_chemistry_file_short_table demo_neutrals demo_ions demo_stof demo_stoi demo_u
      demo_sample (demo_args [demo_header, demo_units]) ⟨0, [demo_reaction_AB_C]⟩ rfl
      (by decide)).1⟩

/-- Claim C6, as it is stated, fails: the table below has three rows and
a header row without the name `branching`; `read_chemistry_file` returns the
error code `0` and stores the reaction, with the branching ratio `1` taken
from the empty cell of column 0. -/
theorem read_chemistry_file_accepts_header_without_branching :
    3 ≤ [demo_header_no_branching, demo_units, demo_row_shifted].length ∧
    "branching" ∉ demo_header_no_branching ∧
    read_chemistry_file demo_neutrals demo_ions demo_stof demo_stoi demo_u demo_sample
        (demo_args [demo_header_no_branching, demo_units, demo_row_shifted]) ⟨0, []⟩ =
      .ok (0, ⟨1, [demo_reaction_AB_C]⟩) :=
  ⟨by decide, by decide, rfl⟩

/-- Claim C6, amended. For every table with at least 3 rows, whatever names its
header row has or lacks, `read_chemistry_file` never returns a non-zero error
code; and the header table, as it is built from the header row, gives the
column `0` for every name that the row lacks. -/
theorem read_chemistry_file_header_never_an_error (neutrals ions : String → Int)
    (stof : String → Option ℚ) (stoi : String → Option Int) (u : reaction_type)
    (sample : Nat → ℚ → ℚ → ℚ) (args : Inputs) (chem : Chemistry)
    (hopen : args.is_open = true) (hlen : 3 ≤ args.csv.length) :
    (∀ iErr chem',
      read_chemistry_file neutrals ions stof stoi u sample args chem = .ok (iErr, chem') →
      iErr = 0) ∧
    (∀ name, name ∉ args.csv.headD [] →
      ((build_headers (args.csv.headD []) 0 ⟨[]⟩).index name).1 = 0) := by
  constructor
  · intro iErr chem' h
    rcases read_chemistry_file_cases neutrals ions stof stoi u sample args chem iErr chem' h with
      ⟨-, -, hc⟩ | ⟨h0, -⟩ | ⟨h0, -⟩
    · rcases hc with hc | hc
      · rw [hopen] at hc; cases hc
      · omega
    · exact h0
    · exact h0
  · intro name hn
    rw [index_fst, build_headers_find_of_not_mem name _ 0 ⟨[]⟩ hn]
    rfl

/-- The table whose header row lacks `branching`: no error code but `0`, and
the header table built from that row gives the column `0` for `branching`. -/
theorem read_chemistry_file_header_never_an_error_witness :
    (demo_args [demo_header_no_branching, demo_units, demo_row_shifted]).is_open = true ∧
    3 ≤ (demo_args [demo_header_no_branching, demo_units, demo_row_shifted]).csv.length ∧
    (∀ iErr chem',
      read_chemistry_file demo_neutrals demo_ions demo_stof demo_stoi demo_u demo_sample
        (demo_args [demo_header_no_branching, demo_units, demo_row_shifted]) ⟨0, []⟩ =
        .ok (iErr, chem') → iErr = 0) ∧
    "branching" ∉ demo_header_no_branching ∧
    ((build_headers demo_header_no_branching 0 ⟨[]⟩).index "branching").1 = 0 :=
  ⟨rfl, by decide,
    (read_chemistry_file_header_never_an_error demo_neutrals demo_ions demo_stof demo_stoi
      demo_u demo_sample (demo_args [demo_header_no_branching, demo_units, demo_row_shifted])
      ⟨0, []⟩ rfl (by decide)).1,
    by decide,
    (read_chemistry_file_header_never_an_error demo_neutrals demo_ions demo_stof demo_stoi
      demo_u demo_sample (demo_args [demo_header_no_branching, demo_units, demo_row_shifted])
      ⟨0, []⟩ rfl (by decide)).2 "branching" (by decide)⟩

/-- Claim C7. When the first data row has a rate and no species while no reaction
is stored, `read_chemistry_file` does not return an error code: the row loop
evaluates `reactions.back()` on the empty vector. -/
theorem read_chemistry_file_first_row_continuation :
    read_chemistry_file demo_neutrals demo_ions demo_stof demo_stoi demo_u demo_sample
        (demo_args [demo_header, demo_units, demo_row_continuation]) ⟨0, []⟩ =
      .error Fault.back_of_empty :=
  rfl

/-- Claim C8, as it is stated, fails: for a file that cannot be opened
`read_chemistry_file` reports the error code `1`, and the constructor returns
normally, with an object whose reaction list is empty. -/
theorem construct_returns_normally_on_unopened_file :
    read_chemistry_file demo_neutrals demo_ions demo_stof demo_stoi demo_u demo_sample
        demo_args_unopened ⟨0, []⟩ = .ok (1, ⟨0, []⟩) ∧
    Chemistry.Chemistry demo_neutrals demo_ions demo_stof demo_stoi demo_u demo_sample
        demo_args_unopened 0 = .ok ⟨0, []⟩ :=
  ⟨rfl, rfl⟩

/-- Claim C8, amended. Whenever `read_chemistry_file` reports an error on the new
object, the constructor drops the error code and returns normally; the object
it returns is the new object untouched, with an empty reaction list. -/
theorem construct_drops_error_code (neutrals ions : String → Int)
    (stof : String → Option ℚ) (stoi : String → Option Int) (u : reaction_type)
    (sample : Nat → ℚ → ℚ → ℚ) (args : Inputs) (n0 iErr : Int) (chem' : Chemistry)
    (h : read_chemistry_file neutrals ions stof stoi u sample args ⟨n0, []⟩ = .ok (iErr, chem'))
    (herr : iErr ≠ 0) :
    Chemistry.Chemistry neutrals ions stof stoi u sample args n0 = .ok ⟨n0, []⟩ := by
  unfold Chemistry.Chemistry
  rw [h]
  rcases read_chemistry_file_cases neutrals ions stof stoi u sample args _ iErr chem' h with
    ⟨-, hc, -⟩ | ⟨h0, -, -⟩ | ⟨h0, -⟩
  · rw [hc]
  · exact absurd h0 herr
  · exact absurd h0 herr

/-- The table of two rows: `read_chemistry_file` reports `1` and the constructor
returns the new object. -/
theorem construct_drops_error_code_witness :
    read_chemistry_file demo_neutrals demo_ions demo_stof demo_stoi demo_u demo_sample
        (demo_args [demo_header, demo_units]) ⟨5, []⟩ = .ok (1, ⟨5, []⟩) ∧
    (1 : Int) ≠ 0 ∧
    Chemistry.Chemistry demo_neutrals demo_ions demo_stof demo_stoi demo_u demo_sample
        (demo_args [demo_header, demo_units]) 5 = .ok ⟨5, []⟩ :=
  ⟨rfl, by decide,
    construct_drops_error_code demo_neutrals demo_ions demo_stof demo_stoi demo_u demo_sample
      (demo_args [demo_header, demo_units]) 5 1 ⟨5, []⟩ rfl (by decide)⟩

/-- Claim C9, as it is stated, fails: the header row below has the six
names, with a column `note` between `loss1` and `loss2`. The loss list of the
row is built from four cells, the cell `B` of the column `note` among them. -/
theorem interpret_reaction_line_reads_column_in_between :
    (∀ name ∈ ["loss1", "loss2", "loss3", "source1", "source2", "source3"],
      name ∈ demo_header_spread) ∧
    (demo_header_spread)[1]? = some "note" ∧ (demo_row_spread)[1]? = some "B" ∧
    (interpret_reaction_line demo_neutrals demo_ions demo_stof demo_stoi demo_u
        demo_row_spread (build_headers demo_header_spread 0 ⟨[]⟩)).map
      (fun p => (p.1.losses_names, decide (p.1.losses_names.length ≤ 3))) =
      .ok (["A", "B", "C", "D"], false) :=
  ⟨by decide, rfl, rfl, rfl⟩

/-- Claim C9, amended. The species columns are the columns from the one named
`loss1` to the one named `loss3`, and from `source1` to `source3`. For every
header table in which `loss1`, `loss2`, `loss3` are three adjacent columns in
this order, and `source1`, `source2`, `source3` likewise, and every row that
`interpret_reaction_line` accepts, the loss members are built from exactly the
cells of the columns named `loss1`, `loss2`, `loss3` and the source members
from exactly the cells of the columns named `source1`, `source2`, `source3`,
so each list has at most 3 entries. -/
theorem interpret_reaction_line_adjacent_species_columns (neutrals ions : String → Int)
    (stof : String → Option ℚ) (stoi : String → Option Int) (u : reaction_type)
    (line : List String) (headers : hashtable) (r : reaction_type) (h' : hashtable)
    (a b : Nat)
    (hl1 : headers.find "loss1" = some a) (hl2 : headers.find "loss2" = some (a + 1))
    (hl3 : headers.find "loss3" = some (a + 2))
    (hs1 : headers.find "source1" = some b) (hs2 : headers.find "source2" = some (b + 1))
    (hs3 : headers.find "source3" = some (b + 2))
    (hr : interpret_reaction_line neutrals ions stof stoi u line headers = .ok (r, h')) :
    ∃ l1 l2 l3 s1 s2 s3,
      cell line (headers.index "loss1").1 = .ok l1 ∧
      cell line (headers.index "loss2").1 = .ok l2 ∧
      cell line (headers.index "loss3").1 = .ok l3 ∧
      cell line (headers.index "source1").1 = .ok s1 ∧
      cell line (headers.index "source2").1 = .ok s2 ∧
      cell line (headers.index "source3").1 = .ok s3 ∧
      species_part r =
        (resolved_species neutrals ions [l1, l2, l3],
         resolved_species neutrals ions [s1, s2, s3]) ∧
      r.losses_names = [l1, l2, l3].filter (resolves neutrals ions) ∧
      r.sources_names = [s1, s2, s3].filter (resolves neutrals ions) ∧
      r.losses_names.length ≤ 3 ∧ r.sources_names.length ≤ 3 := by
  obtain ⟨hsp, hlen1, hlen2⟩ :=
    interpret_reaction_line_species_part neutrals ions stof stoi u line headers r h' hr
  have e1 := index_of_find hl1
  have e2 := index_of_find hl2
  have e3 := index_of_find hl3
  have e4 := index_of_find hs1
  have e5 := index_of_find hs2
  have e6 := index_of_find hs3
  unfold loss_cells at hsp hlen1
  unfold source_cells at hsp hlen2
  rw [e1, e3] at hlen1
  rw [e4, e6] at hlen2
  rw [e1, e3, e4, e6] at hsp
  obtain ⟨l1, l2, l3, hL, c1, c2, c3⟩ := columns_three line a hlen1
  obtain ⟨s1, s2, s3, hS, c4, c5, c6⟩ := columns_three line b hlen2
  rw [hL, hS] at hsp
  have hnl : r.losses_names = [l1, l2, l3].filter (resolves neutrals ions) :=
    congrArg (fun p => p.1.1) hsp
  have hns : r.sources_names = [s1, s2, s3].filter (resolves neutrals ions) :=
    congrArg (fun p => p.2.1) hsp
  refine ⟨l1, l2, l3, s1, s2, s3, ?_, ?_, ?_, ?_, ?_, ?_, hsp, hnl, hns, ?_, ?_⟩
  · rw [e1]; exact c1
  · rw [e2]; exact c2
  · rw [e3]; exact c3
  · rw [e4]; exact c4
  · rw [e5]; exact c5
  · rw [e6]; exact c6
  · rw [hnl]; exact List.length_filter_le _ _
  · rw [hns]; exact List.length_filter_le _ _

/-- The header row of the examples has `loss1`, `loss2`, `loss3` in the columns
0, 1, 2 and `source1`, `source2`, `source3` in the columns 4, 5, 6. -/
theorem interpret_reaction_line_adjacent_species_columns_witness :
    demo_headers.find "loss1" = some 0 ∧ demo_headers.find "loss2" = some (0 + 1) ∧
    demo_headers.find "loss3" = some (0 + 2) ∧
    demo_headers.find "source1" = some 4 ∧ demo_headers.find "source2" = some (4 + 1) ∧
    demo_headers.find "source3" = some (4 + 2) ∧
    interpret_reaction_line demo_neutrals demo_ions demo_stof demo_stoi demo_u demo_row_AB_C
        demo_headers = .ok (demo_reaction_AB_C, demo_headers.assign "branching" 10) ∧
    demo_reaction_AB_C.losses_names = ["A", "B", ""].filter (resolves demo_neutrals demo_ions) ∧
    demo_reaction_AB_C.sources_names = ["C", "", ""].filter (resolves demo_neutrals demo_ions) ∧
    demo_reaction_AB_C.losses_names.length ≤ 3 ∧
    demo_reaction_AB_C.sources_names.length ≤ 3 := by
  obtain ⟨l1, l2, l3, s1, s2, s3, c1, c2, c3, c4, c5, c6, -, hl, hs, hll, hsl⟩ :=
    interpret_reaction_line_adjacent_species_columns demo_neutrals demo_ions demo_stof
      demo_stoi demo_u demo_row_AB_C demo_headers demo_reaction_AB_C
      (demo_headers.assign "branching" 10) 0 4 rfl rfl rfl rfl rfl rfl rfl
  have e1 : l1 = "A" := (Except.ok.inj (c1.symm.trans rfl)).symm ▸ rfl
  have e2 : l2 = "B" := (Except.ok.inj (c2.symm.trans rfl)).symm ▸ rfl
  have e3 : l3 = "" := (Except.ok.inj (c3.symm.trans rfl)).symm ▸ rfl
  have e4 : s1 = "C" := (Except.ok.inj (c4.symm.trans rfl)).symm ▸ rfl
  have e5 : s2 = "" := (Except.ok.inj (c5.symm.trans rfl)).symm ▸ rfl
  have e6 : s3 = "" := (Except.ok.inj (c6.symm.trans rfl)).symm ▸ rfl
  subst e1 e2 e3 e4 e5 e6
  exact ⟨rfl, rfl, rfl, rfl, rfl, rfl, rfl, hl, hs, hll, hsl⟩

/-- Claim C10. `interpret_reaction_line` does not leave the header table as it
was: the table of the examples binds `branching` to column 8 before the call
and to 10 after it. So in a table with two rows that both have `0.5` in the
column `branching`, the first reaction gets the branching ratio `1/2` and the
second one gets `1`, read from the empty cell of column 10. -/
theorem interpret_reaction_line_rebinds_branching :
    demo_headers.find "branching" = some 8 ∧
    (demo_row_CD_A_half)[8]? = some "0.5" ∧ demo_stof "0.5" = some (1 / 2) ∧
    (interpret_reaction_line demo_neutrals demo_ions demo_stof demo_stoi demo_u
        demo_row_AB_C_half demo_headers).map
      (fun p => (p.1.branching_ratio, p.2.find "branching")) = .ok (1 / 2, some 10) ∧
    (read_chemistry_file demo_neutrals demo_ions demo_stof demo_stoi demo_u demo_sample
        (demo_args [demo_header, demo_units, demo_row_AB_C_half, demo_row_CD_A_half])
        ⟨0, []⟩).map
      (fun p => p.2.reactions.map (fun r => r.branching_ratio)) = .ok [1 / 2, 1] :=
  ⟨rfl, rfl, rfl, rfl, rfl⟩

/-- Claim C11. Defaults in `interpret_reaction_line`. For every row that the
call accepts, with `b` the cell of the column `branching` and `e` the cell of
the column `heat` under the header table passed to the call: the branching
ratio is `1` when `b` is empty and the number `stof` parses from `b`
otherwise, and the energy is `0` when `e` is empty and the number parsed from
`e` otherwise. -/
theorem interpret_reaction_line_defaults (neutrals ions : String → Int)
    (stof : String → Option ℚ) (stoi : String → Option Int) (u : reaction_type)
    (line : List String) (headers : hashtable) (r : reaction_type) (h' : hashtable)
    (hr : interpret_reaction_line neutrals ions stof stoi u line headers = .ok (r, h')) :
    ∃ b e, cell line (headers.index "branching").1 = .ok b ∧
      cell line (headers.index "heat").1 = .ok e ∧
      (b = "" → r.branching_ratio = 1) ∧ (b ≠ "" → stof b = some r.branching_ratio) ∧
      (e = "" → r.energy = 0) ∧ (e ≠ "" → stof e = some r.energy) := by
  obtain ⟨b, e, -, hb, he, -, hvb, hve, -⟩ :=
    interpret_reaction_line_numbers neutrals ions stof stoi u line headers r h' hr
  exact ⟨b, e, hb, he, (parse_or_ok hvb).1, (parse_or_ok hvb).2, (parse_or_ok hve).1,
    (parse_or_ok hve).2⟩

/-- The row `A + B -> C` with empty `branching` and `heat` cells gets the
branching ratio `1` and the energy `0`; with `0.5` and `2.0` in them it gets
`1/2` and `2`. -/
theorem interpret_reaction_line_defaults_witness :
    (interpret_reaction_line demo_neutrals demo_ions demo_stof demo_stoi demo_u
        demo_row_AB_C demo_headers = .ok (demo_reaction_AB_C, demo_headers.assign "branching" 10) ∧
      demo_reaction_AB_C.branching_ratio = 1 ∧ demo_reaction_AB_C.energy = 0) ∧
    (interpret_reaction_line demo_neutrals demo_ions demo_stof demo_stoi demo_u
        demo_row_AB_C_heat demo_headers =
        .ok ({ demo_reaction_AB_C with branching_ratio := 1 / 2, energy := 2 },
          demo_headers.assign "branching" 10) ∧
      demo_stof "0.5" = some (1 / 2) ∧ demo_stof "2.0" = some 2) := by
  obtain ⟨b, e, hb, he, hb0, -, he0, -⟩ :=
    interpret_reaction_line_defaults demo_neutrals demo_ions demo_stof demo_stoi demo_u
      demo_row_AB_C demo_headers demo_reaction_AB_C (demo_headers.assign "branching" 10) rfl
  obtain ⟨b', e', hb', he', -, hb1, -, he1⟩ :=
    interpret_reaction_line_defaults demo_neutrals demo_ions demo_stof demo_stoi demo_u
      demo_row_AB_C_heat demo_headers
      { demo_reaction_AB_C with branching_ratio := 1 / 2, energy := 2 }
      (demo_headers.assign "branching" 10) rfl
  have e1 : b = "" := (Except.ok.inj (hb.symm.trans rfl)).symm ▸ rfl
  have e2 : e = "" := (Except.ok.inj (he.symm.trans rfl)).symm ▸ rfl
  have e3 : b' = "0.5" := (Except.ok.inj (hb'.symm.trans rfl)).symm ▸ rfl
  have e4 : e' = "2.0" := (Except.ok.inj (he'.symm.trans rfl)).symm ▸ rfl
  subst e1 e2 e3 e4
  exact ⟨⟨rfl, hb0 rfl, he0 rfl⟩, rfl, hb1 (by decide), he1 (by decide)⟩

/-- Claim C12, as it is stated, fails: the row below has an empty `Numerator`
cell and `1` in the column `Formula Type`; the reaction returned has the type
`1`. -/
theorem interpret_reaction_line_type_without_numerator :
    cell demo_row_typed (demo_headers.index "Numerator").1 = .ok "" ∧
    cell demo_row_typed (demo_headers.index "Formula Type").1 = .ok "1" ∧
    (interpret_reaction_line demo_neutrals demo_ions demo_stof demo_stoi demo_u
        demo_row_typed demo_headers).map (fun p => p.1.type) = .ok 1 :=
  ⟨rfl, rfl, rfl⟩

/-- Claim C12, amended. For every row that `interpret_reaction_line` accepts,
the formula type is decided by the cell of the column `Formula Type` alone,
whatever the `Numerator` cell and the other cells contain: it is `0` when that
cell is empty, so for every row whose temperature dependence is absent and
whose `Formula Type` cell is empty, and the number `stoi` parses from the cell
otherwise. -/
theorem interpret_reaction_line_type (neutrals ions : String → Int)
    (stof : String → Option ℚ) (stoi : String → Option Int) (u : reaction_type)
    (line : List String) (headers : hashtable) (r : reaction_type) (h' : hashtable)
    (hr : interpret_reaction_line neutrals ions stof stoi u line headers = .ok (r, h')) :
    ∃ t, cell line (headers.index "Formula Type").1 = .ok t ∧
      (t = "" → r.type = 0) ∧ (t ≠ "" → stoi t = some r.type) := by
  obtain ⟨-, -, t, -, -, ht, -, -, hvt⟩ :=
    interpret_reaction_line_numbers neutrals ions stof stoi u line headers r h' hr
  exact ⟨t, ht, (parse_or_ok hvt).1, (parse_or_ok hvt).2⟩

/-- The row `A + B -> C` of the examples has empty `Numerator` and
`Formula Type` cells and gets the type `0`. -/
theorem interpret_reaction_line_type_witness :
    interpret_reaction_line demo_neutrals demo_ions demo_stof demo_stoi demo_u
        demo_row_AB_C demo_headers = .ok (demo_reaction_AB_C, demo_headers.assign "branching" 10) ∧
    cell demo_row_AB_C (demo_headers.index "Numerator").1 = .ok "" ∧
    cell demo_row_AB_C (demo_headers.index "Formula Type").1 = .ok "" ∧
    demo_reaction_AB_C.type = 0 := by
  obtain ⟨t, ht, h0, -⟩ :=
    interpret_reaction_line_type demo_neutrals demo_ions demo_stof demo_stoi demo_u
      demo_row_AB_C demo_headers demo_reaction_AB_C (demo_headers.assign "branching" 10) rfl
  have e1 : t = "" := (Except.ok.inj (ht.symm.trans rfl)).symm ▸ rfl
  exact ⟨rfl, rfl, rfl, h0 e1⟩

/-- Claim C13. The sampler should be handed the mean `rate` and the standard
deviation `p * rate`. The code hands it the standard deviation `0`: the
product initialises a second variable `stdv` that lives inside the `if` only.
On the table below the reaction has the rate `2` and `p = 1` in its `perturb`
cell, so `p * rate = 2`; a sampler that returns the mean it is handed gives
the rate `2`, and a sampler that returns the standard deviation it is handed
gives the rate `0`, for the specification `all` and for the list of the
reaction `0`. -/
theorem read_chemistry_file_perturbs_with_zero_deviation :
    cell demo_row_AB_C_perturb ((build_headers demo_header_perturb 0 ⟨[]⟩).index "perturb").1 =
      .ok "1" ∧
    demo_stoi "1" = some 1 ∧
    read_chemistry_file demo_neutrals demo_ions demo_stof demo_stoi demo_u demo_sample
        (demo_args_perturb demo_csv_perturb []) ⟨0, []⟩ = .ok (0, ⟨1, [demo_reaction_AB_C_two]⟩) ∧
    read_chemistry_file demo_neutrals demo_ions demo_stof demo_stoi demo_u demo_sample
        (demo_args_perturb demo_csv_perturb ["all"]) ⟨0, []⟩ =
      .ok (0, ⟨1, [demo_reaction_AB_C_two]⟩) ∧
    read_chemistry_file demo_neutrals demo_ions demo_stof demo_stoi demo_u demo_sample_stdv
        (demo_args_perturb demo_csv_perturb ["all"]) ⟨0, []⟩ =
      .ok (0, ⟨1, [{ demo_reaction_AB_C with rate := 0 }]⟩) ∧
    read_chemistry_file demo_neutrals demo_ions demo_stof demo_stoi demo_u demo_sample_stdv
        (demo_args_perturb demo_csv_perturb ["r0"]) ⟨0, []⟩ =
      .ok (0, ⟨1, [{ demo_reaction_AB_C with rate := 0 }]⟩) :=
  ⟨rfl, rfl, rfl, rfl, rfl, rfl⟩

/-- Claim C14. Perturbation frame. Whenever `read_chemistry_file` returns on a
table of at least 3 rows, whatever the perturbation specification (`all`, a
list of rows, or none), the object holds the reactions that the row loop left
(`st` is the state at the end of the row loop), in the same number and order,
and every member of every reaction but `rate` is as the row loop left it; the
count `nReactions` is unchanged too. -/
theorem read_chemistry_file_perturbation_frame (neutrals ions : String → Int)
    (stof : String → Option ℚ) (stoi : String → Option Int) (u : reaction_type)
    (sample : Nat → ℚ → ℚ → ℚ) (args : Inputs) (chem : Chemistry) (iErr : Int)
    (chem' : Chemistry)
    (hopen : args.is_open = true) (hgood : args.good = true) (hlen : 3 ≤ args.csv.length)
    (h : read_chemistry_file neutrals ions stof stoi u sample args chem = .ok (iErr, chem')) :
    ∃ st, read_lines neutrals ions stof stoi u (args.csv.drop 2) (loop_start u args.csv chem) =
        .ok st ∧
      chem'.nReactions = st.chem.nReactions ∧
      chem'.reactions.length = st.chem.reactions.length ∧
      ∀ (i : Nat) (r r' : reaction_type),
        st.chem.reactions[i]? = some r → chem'.reactions[i]? = some r' →
        species_part r' = species_part r ∧ r'.branching_ratio = r.branching_ratio ∧
        r'.energy = r.energy ∧ r'.numerator = r.numerator ∧
        r'.denominator = r.denominator ∧ r'.exponent = r.exponent ∧
        r'.piecewiseVar = r.piecewiseVar ∧ r'.min = r.min ∧ r'.max = r.max ∧
        r'.type = r.type := by
  rcases read_chemistry_file_cases neutrals ions stof stoi u sample args chem iErr chem' h
    with ⟨-, -, hc⟩ | ⟨-, -, hc⟩ | ⟨-, -, -, -, st, reactions', hl, hp, hc⟩
  · rcases hc with hc | hc
    · rw [hopen] at hc; cases hc
    · omega
  · rw [hgood] at hc; cases hc
  · have hmap := perturb_without_rate stoi sample args.csv args.perturb_values st.headers
      st.chem.reactions reactions' hp
    obtain ⟨h1, h2⟩ := same_but_rates st.chem.reactions reactions' hmap
    refine ⟨st, hl, ?_, ?_, ?_⟩
    · rw [hc]
    · rw [hc]; exact h1
    · rw [hc]; exact h2

/-- The table of the perturbation examples with a sampler that returns 7: for
the specification `all` and for the list of the reaction `0`, the reaction
stored is the one of the row loop, `A + B -> C`, with the rate 7 in place of
2. -/
theorem read_chemistry_file_perturbation_frame_witness :
    (read_chemistry_file demo_neutrals demo_ions demo_stof demo_stoi demo_u demo_sample_seven
        (demo_args_perturb demo_csv_perturb ["all"]) ⟨0, []⟩ =
      .ok (0, ⟨1, [{ demo_reaction_AB_C with rate := 7 }]⟩) ∧
     read_chemistry_file demo_neutrals demo_ions demo_stof demo_stoi demo_u demo_sample_seven
        (demo_args_perturb demo_csv_perturb ["r0"]) ⟨0, []⟩ =
      .ok (0, ⟨1, [{ demo_reaction_AB_C with rate := 7 }]⟩)) ∧
    ∃ st, read_lines demo_neutrals demo_ions demo_stof demo_stoi demo_u
        (demo_csv_perturb.drop 2) (loop_start demo_u demo_csv_perturb ⟨0, []⟩) = .ok st ∧
      st.chem.reactions = [demo_reaction_AB_C_two] ∧
      species_part { demo_reaction_AB_C with rate := 7 } = species_part demo_reaction_AB_C_two := by
  obtain ⟨st, hst, -, -, hf⟩ :=
    read_chemistry_file_perturbation_frame demo_neutrals demo_ions demo_stof demo_stoi demo_u
      demo_sample_seven (demo_args_perturb demo_csv_perturb ["all"]) ⟨0, []⟩ 0
      ⟨1, [{ demo_reaction_AB_C with rate := 7 }]⟩ rfl rfl (by decide) rfl
  have hst' : st.chem.reactions = [demo_reaction_AB_C_two] := by
    have h1 : Except.ok st = Except.ok (ε := Fault)
        (⟨(build_headers demo_header_perturb 0 ⟨[]⟩).assign "branching" 10,
          demo_reaction_AB_C_two, ⟨1, [demo_reaction_AB_C_two]⟩⟩ : reader_state) :=
      hst.symm.trans rfl
    rw [Except.ok.inj h1]
  refine ⟨⟨rfl, rfl⟩, st, hst, hst', ?_⟩
  exact (hf 0 demo_reaction_AB_C_two { demo_reaction_AB_C with rate := 7 }
    (by rw [hst']; rfl) rfl).1

/-- Claim C15. Accumulator initialisation in `calc_chemistry`. When the vectors
hold the `nSpecies` neutral and the `nIons` ion species, the initialisation
block returns, the state it returns is the one handed to
`calc_chemical_sources`, and in that state every neutral species has
`losses_scgc` equal to its `ionization_scgc` and `sources_scgc` all zeros, and
every ion species has `sources_scgc` equal to its `ionization_scgc` and
`losses_scgc` all zeros, whatever these fields held before the call. -/
theorem calc_chemistry_initial_accumulators {ρ σ : Type} (nSpecies nIons : Nat)
    (fill_electrons : Ions ρ σ → Ions ρ σ)
    (calc_chemical_sources : Neutrals ρ σ × Ions ρ σ → Neutrals ρ σ × Ions ρ σ)
    (solver_chemistry : List ℚ → List ℚ → List ℚ → ℚ → List ℚ) (dt : ℚ)
    (neutrals : Neutrals ρ σ) (ions : Ions ρ σ)
    (hN : nSpecies ≤ neutrals.neutrals.length)
    (hI : nIons ≤ (fill_electrons ions).species.length) :
    ∃ atSources : Neutrals ρ σ × Ions ρ σ,
      initialize_sources_losses nSpecies nIons neutrals (fill_electrons ions) = .ok atSources ∧
      calc_chemistry nSpecies nIons fill_electrons calc_chemical_sources solver_chemistry dt
          neutrals ions =
        (solve_densities nSpecies nIons solver_chemistry dt
          (calc_chemical_sources atSources).1 (calc_chemical_sources atSources).2).map
          (fun solved => (solved.1, fill_electrons solved.2)) ∧
      (∀ k, k < nSpecies → ∃ before s, neutrals.neutrals[k]? = some before ∧
        atSources.1.neutrals[k]? = some s ∧
        s.ionization_scgc = before.ionization_scgc ∧
        s.losses_scgc = s.ionization_scgc ∧
        s.sources_scgc.length = before.sources_scgc.length ∧
        ∀ x ∈ s.sources_scgc, x = 0) ∧
      (∀ k, k < nIons → ∃ before s, (fill_electrons ions).species[k]? = some before ∧
        atSources.2.species[k]? = some s ∧
        s.ionization_scgc = before.ionization_scgc ∧
        s.sources_scgc = s.ionization_scgc ∧
        s.losses_scgc.length = before.losses_scgc.length ∧
        ∀ x ∈ s.losses_scgc, x = 0) := by
  have hinit := initialize_sources_losses_eq nSpecies nIons neutrals (fill_electrons ions) hN hI
  refine ⟨_, hinit, ?_, ?_, ?_⟩
  · unfold calc_chemistry
    dsimp only
    rw [hinit]
    dsimp only
    cases solve_densities nSpecies nIons solver_chemistry dt
        (calc_chemical_sources
          (initial_accumulators nSpecies nIons (neutrals, fill_electrons ions))).1
        (calc_chemical_sources
          (initial_accumulators nSpecies nIons (neutrals, fill_electrons ions))).2 with
    | error e => rfl
    | ok solved => rfl
  · intro k hk
    have hlt : k < neutrals.neutrals.length := by omega
    refine ⟨neutrals.neutrals[k], init_neutral neutrals.neutrals[k],
      List.getElem?_eq_getElem hlt, ?_, rfl, rfl, ?_, ?_⟩
    · show (on_first nSpecies init_neutral neutrals.neutrals)[k]? = _
      rw [on_first_getElem? nSpecies _ _ hN k, if_pos hk, List.getElem?_eq_getElem hlt]
      rfl
    · simp [init_neutral, zeros]
    · intro x hx
      simp only [init_neutral, zeros, List.mem_map] at hx
      obtain ⟨_, -, hx0⟩ := hx
      exact hx0.symm
  · intro k hk
    have hlt : k < (fill_electrons ions).species.length := by omega
    refine ⟨(fill_electrons ions).species[k], init_ion (fill_electrons ions).species[k],
      List.getElem?_eq_getElem hlt, ?_, rfl, rfl, ?_, ?_⟩
    · show (on_first nIons init_ion (fill_electrons ions).species)[k]? = _
      rw [on_first_getElem? nIons _ _ hI k, if_pos hk, List.getElem?_eq_getElem hlt]
      rfl
    · simp [init_ion, zeros]
    · intro x hx
      simp only [init_ion, zeros, List.mem_map] at hx
      obtain ⟨_, -, hx0⟩ := hx
      exact hx0.symm

/-- One neutral and one ion species with sources 2, losses 3 and ionization
rate 4: at the call of `calc_chemical_sources` the neutral has sources 0 and
losses 4, the ion has sources 4 and losses 0, and the element of `ions.species`
that comes after the `nIons` ion species is as it was. -/
theorem calc_chemistry_initial_accumulators_witness :
    1 ≤ demo_Neutrals.neutrals.length ∧ 1 ≤ (id demo_Ions).species.length ∧
    initialize_sources_losses 1 1 demo_Neutrals (id demo_Ions) =
      .ok (⟨[{ demo_species with sources_scgc := [0], losses_scgc := [4] }], ()⟩,
        ⟨[{ demo_species with sources_scgc := [4], losses_scgc := [0] }, demo_species], ()⟩) ∧
    ∃ s : species_chars Unit,
      (⟨[{ demo_species with sources_scgc := [0], losses_scgc := [4] }], ()⟩ :
        Neutrals Unit Unit).neutrals[0]? = some s ∧
      s.losses_scgc = s.ionization_scgc ∧ ∀ x ∈ s.sources_scgc, x = 0 := by
  obtain ⟨atSources, hat, -, hn, -⟩ :=
    calc_chemistry_initial_accumulators 1 1 id id demo_solver 1 demo_Neutrals demo_Ions
      (by decide) (by decide)
  have he : atSources =
      (⟨[{ demo_species with sources_scgc := [0], losses_scgc := [4] }], ()⟩,
        ⟨[{ demo_species with sources_scgc := [4], losses_scgc := [0] }, demo_species], ()⟩) :=
    Except.ok.inj (hat.symm.trans rfl)
  obtain ⟨before, s, -, hs, -, hl, -, hz⟩ := hn 0 (by decide)
  rw [he] at hs
  exact ⟨by decide, by decide, rfl, s, hs, hl, hz⟩

/-- Claim C16. Step composition. With `fill_electrons`, `calc_chemical_sources`
and `solver_chemistry` taken as given functions that keep the number of
species, and vectors that hold the `nSpecies` neutral and the `nIons` ion
species, `calc_chemistry` returns, and the state it returns is
`fill_electrons` after the integration phase after `calc_chemical_sources`
after the accumulator initialisation after `fill_electrons`. The integration
phase gives each neutral and each ion species the density
`solver_chemistry (own density, own sources, own losses, dt)` and changes no
other field, no other element and no other member. -/
theorem calc_chemistry_is_composition {ρ σ : Type} (nSpecies nIons : Nat)
    (fill_electrons : Ions ρ σ → Ions ρ σ)
    (calc_chemical_sources : Neutrals ρ σ × Ions ρ σ → Neutrals ρ σ × Ions ρ σ)
    (solver_chemistry : List ℚ → List ℚ → List ℚ → ℚ → List ℚ) (dt : ℚ)
    (neutrals : Neutrals ρ σ) (ions : Ions ρ σ)
    (hfill : ∀ x, (fill_electrons x).species.length = x.species.length)
    (hsrc : ∀ p, (calc_chemical_sources p).1.neutrals.length = p.1.neutrals.length ∧
      (calc_chemical_sources p).2.species.length = p.2.species.length)
    (hN : nSpecies ≤ neutrals.neutrals.length) (hI : nIons ≤ ions.species.length) :
    calc_chemistry nSpecies nIons fill_electrons calc_chemical_sources solver_chemistry dt
        neutrals ions =
      .ok (calc_chemistry_composed nSpecies nIons fill_electrons calc_chemical_sources
        solver_chemistry dt (neutrals, ions)) ∧
    ∀ state : Neutrals ρ σ × Ions ρ σ,
      nSpecies ≤ state.1.neutrals.length → nIons ≤ state.2.species.length →
      (integration_phase nSpecies nIons solver_chemistry dt state).1.rest = state.1.rest ∧
      (integration_phase nSpecies nIons solver_chemistry dt state).2.rest = state.2.rest ∧
      (∀ k s, state.1.neutrals[k]? = some s →
        (integration_phase nSpecies nIons solver_chemistry dt state).1.neutrals[k]? =
          some (if k < nSpecies then
            { s with density_scgc :=
                solver_chemistry s.density_scgc s.sources_scgc s.losses_scgc dt }
          else s)) ∧
      (∀ k s, state.2.species[k]? = some s →
        (integration_phase nSpecies nIons solver_chemistry dt state).2.species[k]? =
          some (if k < nIons then
            { s with density_scgc :=
                solver_chemistry s.density_scgc s.sources_scgc s.losses_scgc dt }
          else s)) := by
  constructor
  · have hI' : nIons ≤ (fill_electrons ions).species.length := by rw [hfill]; exact hI
    have hinit :=
      initialize_sources_losses_eq nSpecies nIons neutrals (fill_electrons ions) hN hI'
    have hN2 : nSpecies ≤ (calc_chemical_sources
        (initial_accumulators nSpecies nIons (neutrals, fill_electrons ions))).1.neutrals.length := by
      rw [(hsrc _).1]
      show nSpecies ≤ (on_first nSpecies init_neutral neutrals.neutrals).length
      rw [on_first_length]; exact hN
    have hI2 : nIons ≤ (calc_chemical_sources
        (initial_accumulators nSpecies nIons (neutrals, fill_electrons ions))).2.species.length := by
      rw [(hsrc _).2]
      show nIons ≤ (on_first nIons init_ion (fill_electrons ions).species).length
      rw [on_first_length]; exact hI'
    have hsolve := solve_densities_eq nSpecies nIons solver_chemistry dt _ _ hN2 hI2
    unfold calc_chemistry
    dsimp only
    rw [hinit]
    dsimp only
    rw [hsolve]
    rfl
  · intro state hN' hI'
    refine ⟨rfl, rfl, ?_, ?_⟩
    · intro k s hs
      show (on_first nSpecies (solve_species solver_chemistry dt) state.1.neutrals)[k]? = _
      rw [on_first_getElem? nSpecies _ _ hN' k, hs]
      by_cases hk : k < nSpecies
      · rw [if_pos hk, if_pos hk]; rfl
      · rw [if_neg hk, if_neg hk]
    · intro k s hs
      show (on_first nIons (solve_species solver_chemistry dt) state.2.species)[k]? = _
      rw [on_first_getElem? nIons _ _ hI' k, hs]
      by_cases hk : k < nIons
      · rw [if_pos hk, if_pos hk]; rfl
      · rw [if_neg hk, if_neg hk]

/-- One neutral and one ion species, `fill_electrons` and
`calc_chemical_sources` that change nothing, and a solver that returns the
source rate: after the step the neutral has the density 0 and the ion the
density 4, their source rates at the integration. -/
theorem calc_chemistry_is_composition_witness :
    calc_chemistry 1 1 id id demo_solver 1 demo_Neutrals demo_Ions =
      .ok (calc_chemistry_composed 1 1 id id demo_solver 1 (demo_Neutrals, demo_Ions)) ∧
    calc_chemistry 1 1 id id demo_solver 1 demo_Neutrals demo_Ions =
      .ok (⟨[{ demo_species with
                density_scgc := [0], sources_scgc := [0], losses_scgc := [4] }], ()⟩,
        ⟨[{ demo_species with
              density_scgc := [4], sources_scgc := [4], losses_scgc := [0] },
          demo_species], ()⟩) :=
  ⟨(calc_chemistry_is_composition 1 1 id id demo_solver 1 demo_Neutrals demo_Ions
      (fun _ => rfl) (fun _ => ⟨rfl, rfl⟩) (by decide) (by decide)).1, rfl⟩

/-- Claim C17, as it is stated, fails: the result is a `double`, which does not
hold every number of milliseconds. For the valid date and time 2024-02-29
23:59:59.999 the seconds since the reference instant are 1867017599.999, and
`time_int_to_real` returns the `double` 3915419693873103 / 2097152, about
1867017599.9990001. -/
theorem time_int_to_real_rounds_milliseconds :
    days_in_month 2024 2 = 29 ∧
    86400 * (days_since_1965 2024 2 29 : ℚ) + 3600 * 23 + 60 * 59 + 59 + 999 / 1000 =
      1867017599999 / 1000 ∧
    (time_int_to_real standard_constants [2024, 2, 29, 23, 59, 59, 999]).toOption =
      some (3915419693873103 / 2097152) ∧
    (3915419693873103 / 2097152 : ℚ) ≠ 1867017599999 / 1000 := by
  have h : days_since_1965 2024 2 29 = 21608 := by decide!
  refine ⟨by decide, ?_, by decide!, by norm_num⟩
  rw [h]
  norm_num

/-- Claim C17, amended. With the reference year 1965, the month lengths 31, 28,
31, 30, 31, 30, 31, 31, 30, 31, 30, 31, days of 86400 seconds and years of 365
days, for every valid calendar date and time of day with a year from 1965 to
2099, `time_int_to_real` returns, and what it returns is within a quarter of a
microsecond of 86400 times the number of whole calendar days between
1965-01-01 and the date, plus 3600 * hour + 60 * minute + second +
millisecond / 1000; it is that number exactly whenever the milliseconds are a
multiple of 125, which is when millisecond / 1000 is a number a `double`
holds. -/
theorem time_int_to_real_seconds_since_1965
    (year month day hour minute second millisecond : Int)
    (hy1 : 1965 ≤ year) (hy2 : year ≤ 2099) (hm1 : 1 ≤ month) (hm2 : month ≤ 12)
    (hd1 : 1 ≤ day) (hd2 : day ≤ days_in_month year month.toNat)
    (hh1 : 0 ≤ hour) (hh2 : hour ≤ 23) (hmi1 : 0 ≤ minute) (hmi2 : minute ≤ 59)
    (hs1 : 0 ≤ second) (hs2 : second ≤ 59)
    (hms1 : 0 ≤ millisecond) (hms2 : millisecond ≤ 999) :
    ∃ t, time_int_to_real standard_constants
        [year, month, day, hour, minute, second, millisecond] = .ok t ∧
      |t - (86400 * (days_since_1965 year month day : ℚ) + 3600 * (hour : ℚ) +
        60 * (minute : ℚ) + (second : ℚ) + (millisecond : ℚ) / 1000)| ≤ 1 / 4000000 ∧
      ((125 : Int) ∣ millisecond →
        t = 86400 * (days_since_1965 year month day : ℚ) + 3600 * (hour : ℚ) +
          60 * (minute : ℚ) + (second : ℚ) + (millisecond : ℚ) / 1000) := by
  have hd31 := days_in_month_le year month.toNat
  have hc : year % 100 ≠ 0 ∨ year % 400 = 0 := by omega
  have hdoy := day_of_year_eq_ordinal year month day hm1 hm2 hc (by omega) (by omega)
  obtain ⟨-, hlo, hhi⟩ := day_of_year_loop_eq_ordinal year month hm1 hm2 hc
  have hord := ordinal_in_year_add year month day
  have hdiv : (year - 1965).tdiv 4 = (year - 1965) / 4 :=
    Int.tdiv_eq_ediv (by omega) (by omega)
  have hsum := days_of_years_from_1965 (year - 1965).toNat (by omega)
  have hn : (((year - 1965).toNat : Nat) : Int) = year - 1965 := Int.toNat_of_nonneg (by omega)
  rw [hn] at hsum
  have hdays : days_since_1965 year month day =
      (ordinal_in_year year month day - 1 + (year - 1965).tdiv 4) + 365 * (year - 1965) := by
    unfold days_since_1965
    rw [hsum, hdiv]
    ring
  obtain ⟨t1, t2, t3, t4, t5, t6, e1, e2, p3, e3, p4, e4, p5, e5, p6, e6, hnear, hexact⟩ :=
    double_sum_spec millisecond second minute hour
      (ordinal_in_year year month day - 1 + (year - 1965).tdiv 4) (year - 1965)
      hms1 hms2 hs1 hs2 hmi1 hmi2 hh1 hh2 (by omega) (by omega) (by omega) (by omega)
  have hX : (millisecond : ℚ) / 1000 + (second : ℚ) + (minute : ℚ) * 60 + (hour : ℚ) * 3600 +
      ((ordinal_in_year year month day - 1 + (year - 1965).tdiv 4 : Int) : ℚ) * 86400 +
      ((year - 1965 : Int) : ℚ) * (365 * 86400) =
      86400 * (days_since_1965 year month day : ℚ) + 3600 * (hour : ℚ) +
        60 * (minute : ℚ) + (second : ℚ) + (millisecond : ℚ) / 1000 := by
    rw [hdays]
    push_cast
    ring
  rw [hX] at hnear hexact
  refine ⟨t6, ?_, hnear, hexact⟩
  exact time_int_to_real_of_steps standard_constants year month day hour minute second
    millisecond (ordinal_in_year year month day) t1 t2 t3 t4 t5 t6
    (int_result_ok (by show -2147483648 ≤ year - 1965; omega)
      (by show year - 1965 ≤ 2147483647; omega))
    hdoy (int_result_ok (by omega) (by omega))
    (int_result_ok (by show -2147483648 ≤ _ - 1 + (year - 1965).tdiv 4; omega)
      (by show _ - 1 + (year - 1965).tdiv 4 ≤ 2147483647; omega))
    e1 e2 p3 e3 p4 e4 p5 e5 p6 e6

/-- The date 1970-01-01 00:00:00.000 is 1826 days after 1965-01-01 and gives
157766400 seconds, exactly. -/
theorem time_int_to_real_seconds_since_1965_witness :
    (1 : Int) ≤ days_in_month 1970 (1 : Int).toNat ∧ (125 : Int) ∣ 0 ∧
    days_since_1965 1970 1 1 = 1826 ∧
    ∃ t, time_int_to_real standard_constants [1970, 1, 1, 0, 0, 0, 0] = .ok t ∧
      t = 157766400 := by
  have h : days_since_1965 1970 1 1 = 1826 := by decide
  obtain ⟨t, ht, -, hexact⟩ := time_int_to_real_seconds_since_1965 1970 1 1 0 0 0 0
    (by decide) (by decide) (by decide) (by decide) (by decide) (by decide) (by decide)
    (by decide) (by decide) (by decide) (by decide) (by decide) (by decide) (by decide)
  refine ⟨by decide, by decide, h, t, ht, ?_⟩
  rw [hexact (by decide), h]
  norm_num

/-- Claim C18. `time_real_to_int` should undo `time_int_to_real`. It does not
return: its vector is declared empty and the first statement that writes
`itime[0]` is outside it, for 157766400 (the seconds of 1970-01-01) as for
every time. Besides, on a vector of 7 elements the same statements give the
month 1 and the day 32 for the seconds of 1970-02-01: the month loop goes on
while `nDays >` the length of the month, where `nDays` counts from 0. -/
theorem time_real_to_int_does_not_undo :
    (time_int_to_real standard_constants [1970, 1, 1, 0, 0, 0, 0]).toOption =
      some 157766400 ∧
    time_real_to_int standard_constants 157766400 = .error Fault.out_of_range ∧
    (time_int_to_real standard_constants [1970, 2, 1, 0, 0, 0, 0]).toOption =
      some 160444800 ∧
    (time_real_to_int_from standard_constants [0, 0, 0, 0, 0, 0, 0] 160444800).toOption =
      some [1970, 1, 32, 0, 0, 0, 0] :=
  ⟨by decide!, rfl, by decide!, by decide!⟩

/-- Claim C19, as it is stated, fails: 1900 is not a leap year of the Gregorian
calendar, so 1900-03-01 is the 60th day of its year and 1900-12-31 the 365th;
`day_of_year` gives 61 and 366. -/
theorem day_of_year_counts_leap_day_in_1900 :
    is_leap_year 1900 = false ∧
    ordinal_in_year 1900 3 1 = 60 ∧ day_of_year standard_constants 1900 3 1 = .ok 61 ∧
    ordinal_in_year 1900 12 31 = 365 ∧ day_of_year standard_constants 1900 12 31 = .ok 366 :=
  ⟨rfl, rfl, rfl, rfl, rfl⟩

/-- Claim C19, amended. `day_of_year` takes every year divisible by 4 for a
leap year. For every year whose leap status in the Gregorian calendar is
decided by divisibility by 4, that is every year that is not a multiple of
100 or is a multiple of 400 (so every year from 1901 to 2099), every month
from 1 to 12 and every day valid for that month, `day_of_year` is the 1-based
ordinal of the date within its year: 1 for January 1st, 365 for December 31st
of a common year and 366 for December 31st of a leap year. -/
theorem day_of_year_ordinal (year month day : Int) (hm1 : 1 ≤ month) (hm2 : month ≤ 12)
    (hd1 : 1 ≤ day) (hd2 : day ≤ days_in_month year month.toNat)
    (hc : year % 100 ≠ 0 ∨ year % 400 = 0) :
    day_of_year standard_constants year month day = .ok (ordinal_in_year year month day) ∧
    day_of_year standard_constants year 1 1 = .ok 1 ∧
    day_of_year standard_constants year 12 31 =
      .ok (if is_leap_year year then 366 else 365) := by
  have hd31 := days_in_month_le year month.toNat
  refine ⟨day_of_year_eq_ordinal year month day hm1 hm2 hc (by omega) (by omega), ?_, ?_⟩
  · rw [day_of_year_eq_ordinal year 1 1 (by decide) (by decide) hc (by decide) (by decide)]
    rfl
  · rw [day_of_year_eq_ordinal year 12 31 (by decide) (by decide) hc (by decide) (by decide)]
    congr 1
    by_cases hl : is_leap_year year = true
    · simp [ordinal_in_year, List.range_succ, days_in_month, hl]
    · simp [ordinal_in_year, List.range_succ, days_in_month, hl]

/-- The year 2024 is a leap year: 2024-03-01 is its 61st day and 2024-12-31
its 366th. -/
theorem day_of_year_ordinal_witness :
    (1 : Int) ≤ 3 ∧ (3 : Int) ≤ 12 ∧ (1 : Int) ≤ days_in_month 2024 (3 : Int).toNat ∧
    ((2024 : Int) % 100 ≠ 0 ∨ (2024 : Int) % 400 = 0) ∧
    ordinal_in_year 2024 3 1 = 61 ∧ is_leap_year 2024 = true ∧
    day_of_year standard_constants 2024 3 1 = .ok (ordinal_in_year 2024 3 1) ∧
    day_of_year standard_constants 2024 12 31 = .ok (if is_leap_year 2024 then 366 else 365) :=
  ⟨by decide, by decide, by decide, by decide, rfl, rfl,
    (day_of_year_ordinal 2024 3 1 (by decide) (by decide) (by decide) (by decide)
      (by decide)).1,
    (day_of_year_ordinal 2024 3 1 (by decide) (by decide) (by decide) (by decide)
      (by decide)).2.2⟩

/-- Claim C21. `find_species_id` gives neutrals precedence. For every name:
when the neutral registry returns an id greater than `-1` the result is that id
with `IsNeutral = true`; otherwise the result is what the ion registry returns
for the name, with `IsNeutral = false`. So `IsNeutral` is true exactly when the
neutral registry resolves the name, and the id is negative exactly when neither
registry resolves it. -/
theorem find_species_id_neutrals_first (neutrals ions : String → Int) (name : String) :
    (neutrals name > -1 → find_species_id neutrals ions name = (neutrals name, true)) ∧
    (¬ neutrals name > -1 → find_species_id neutrals ions name = (ions name, false)) ∧
    ((find_species_id neutrals ions name).2 = true ↔ neutrals name > -1) ∧
    ((find_species_id neutrals ions name).1 < 0 ↔
      ¬ neutrals name > -1 ∧ ¬ ions name > -1) := by
  unfold find_species_id
  by_cases h : neutrals name > -1
  · simp only [h, if_true, true_and, not_true_eq_false, false_and, iff_false, not_lt,
      false_implies, implies_true, iff_true]
    omega
  · simp only [h, if_false, false_implies, true_and, not_false_eq_true, implies_true,
      Bool.false_eq_true, iff_false, true_and]
    omega

/-- Claim C22. `solver_conduction` solves its tridiagonal system by the Thomas
algorithm. Over exact arithmetic, for every input of length `nPts >= 4` on
which no pivot `b(i) - cp(i-1)*a(i)`, `i = 2, ..., nPts-2`, is zero (the first
pivot `b(1)` is `-1`), the function returns and its vector `result` satisfies
`a(i)*result(i-1) + b(i)*result(i) + c(i)*result(i+1) = d(i)` for every row
`i = 1, ..., nPts-2`, the coefficients being the vectors `a`, `b`, `c`, `d`
that the function assembles; and `result(1) = value(1)`. -/
theorem solver_conduction_solves_tridiagonal (value lambda front : List ℚ) (dt : ℚ)
    (dx : List ℚ)
    (hn : 4 ≤ value.length) (hlambda : lambda.length = value.length)
    (hfront : front.length = value.length) (hdx : dx.length = value.length)
    (hpiv : ∀ i, 2 ≤ i → i ≤ value.length - 2 →
      (solver_conduction_locals value lambda front dt dx).b i -
        (solver_conduction_locals value lambda front dt dx).cp (i - 1) *
          (solver_conduction_locals value lambda front dt dx).a i ≠ 0) :
    (solver_conduction value lambda front dt dx).isSome = true ∧
    (solver_conduction_locals value lambda front dt dx).b 1 = -1 ∧
    (∀ i, 1 ≤ i → i ≤ value.length - 2 →
      (solver_conduction_locals value lambda front dt dx).a i *
          (solver_conduction_locals value lambda front dt dx).result (i - 1) +
        (solver_conduction_locals value lambda front dt dx).b i *
          (solver_conduction_locals value lambda front dt dx).result i +
        (solver_conduction_locals value lambda front dt dx).c i *
          (solver_conduction_locals value lambda front dt dx).result (i + 1) =
      (solver_conduction_locals value lambda front dt dx).d i) ∧
    (solver_conduction_locals value lambda front dt dx).result 1 = fvec_at value 1 := by
  obtain ⟨ha, hb, hc, hd, hcn⟩ := solver_conduction_boundary_rows value lambda front dx dt hn
  have hrows := thomas_rows
    (solver_conduction_locals value lambda front dt dx).a
    (solver_conduction_locals value lambda front dt dx).b
    (solver_conduction_locals value lambda front dt dx).c
    (solver_conduction_locals value lambda front dt dx).d
    (solver_conduction_locals value lambda front dt dx).cp
    (solver_conduction_locals value lambda front dt dx).dp
    (solver_conduction_locals value lambda front dt dx).result
    value.length hn rfl rfl rfl ha (by rw [hb]; norm_num) hcn hpiv
  refine ⟨?_, hb, hrows, ?_⟩
  · rw [solver_conduction_some value lambda front dx dt (by omega) hlambda hfront hdx]
    rfl
  · have h := hrows 1 (le_refl 1) (by omega)
    rw [ha, hb, hc, hd] at h
    linarith

/-- On the six points of the example no pivot is zero: the four rows of the
system are solved and `result(1)` is `value(1)`. -/
theorem solver_conduction_solves_tridiagonal_witness :
    4 ≤ demo_value.length ∧
    (∀ i, 1 ≤ i → i ≤ demo_value.length - 2 →
      (solver_conduction_locals demo_value demo_lambda demo_front (1 / 2) demo_dx).a i *
          (solver_conduction_locals demo_value demo_lambda demo_front (1 / 2) demo_dx).result
            (i - 1) +
        (solver_conduction_locals demo_value demo_lambda demo_front (1 / 2) demo_dx).b i *
          (solver_conduction_locals demo_value demo_lambda demo_front (1 / 2) demo_dx).result i +
        (solver_conduction_locals demo_value demo_lambda demo_front (1 / 2) demo_dx).c i *
          (solver_conduction_locals demo_value demo_lambda demo_front (1 / 2) demo_dx).result
            (i + 1) =
      (solver_conduction_locals demo_value demo_lambda demo_front (1 / 2) demo_dx).d i) ∧
    (solver_conduction_locals demo_value demo_lambda demo_front (1 / 2) demo_dx).result 1 =
      fvec_at demo_value 1 :=
  ⟨by decide,
    (solver_conduction_solves_tridiagonal demo_value demo_lambda demo_front (1 / 2) demo_dx
      (by decide) rfl rfl rfl
      (by
        intro i h1 h2
        have h3 : i ≤ 4 := h2
        interval_cases i <;> decide!)).2.2⟩

/-- Claim C23. For every input of length `nPts >= 4`, `solver_conduction`
returns a vector of length `nPts` that is zero at the indices `0`, `1`,
`nPts-2` and `nPts-1` and equals `result(i) - value(i)` at every other index
`i`. -/
theorem solver_conduction_returns_difference (value lambda front : List ℚ) (dt : ℚ)
    (dx : List ℚ)
    (hn : 4 ≤ value.length) (hlambda : lambda.length = value.length)
    (hfront : front.length = value.length) (hdx : dx.length = value.length) :
    ∃ conduction, solver_conduction value lambda front dt dx = some conduction ∧
      conduction.length = value.length ∧
      conduction[0]? = some 0 ∧ conduction[1]? = some 0 ∧
      conduction[value.length - 2]? = some 0 ∧ conduction[value.length - 1]? = some 0 ∧
      ∀ i, 2 ≤ i → i < value.length - 2 →
        conduction[i]? =
          some ((solver_conduction_locals value lambda front dt dx).result i -
            fvec_at value i) := by
  refine ⟨_, solver_conduction_some value lambda front dx dt (by omega) hlambda hfront hdx,
    by simp, ?_, ?_, ?_, ?_, ?_⟩
  · rw [List.getElem?_map, List.getElem?_range (by omega), Option.map_some',
      solver_conduction_locals_conduction, if_pos (by omega)]
  · rw [List.getElem?_map, List.getElem?_range (by omega), Option.map_some',
      solver_conduction_locals_conduction, if_pos (by omega)]
  · rw [List.getElem?_map, List.getElem?_range (by omega), Option.map_some',
      solver_conduction_locals_conduction, if_pos (by omega)]
  · rw [List.getElem?_map, List.getElem?_range (by omega), Option.map_some',
      solver_conduction_locals_conduction, if_pos (by omega)]
  · intro i h1 h2
    rw [List.getElem?_map, List.getElem?_range (by omega), Option.map_some',
      solver_conduction_locals_conduction, if_neg (by omega)]

/-- On the six points of the example the vector returned is zero but at the
indices `2` and `3`, where it is `result - value`. -/
theorem solver_conduction_returns_difference_witness :
    4 ≤ demo_value.length ∧
    solver_conduction demo_value demo_lambda demo_front (1 / 2) demo_dx =
      some [0, 0, 489 / 1414, -806 / 707, 0, 0] ∧
    ∃ conduction, solver_conduction demo_value demo_lambda demo_front (1 / 2) demo_dx =
        some conduction ∧
      conduction.length = demo_value.length ∧
      conduction[0]? = some 0 ∧ conduction[1]? = some 0 ∧
      conduction[demo_value.length - 2]? = some 0 ∧
      conduction[demo_value.length - 1]? = some 0 ∧
      ∀ i, 2 ≤ i → i < demo_value.length - 2 →
        conduction[i]? =
          some ((solver_conduction_locals demo_value demo_lambda demo_front (1 / 2)
            demo_dx).result i - fvec_at demo_value i) :=
  ⟨by decide, by decide!,
    solver_conduction_returns_difference demo_value demo_lambda demo_front (1 / 2) demo_dx
      (by decide) rfl rfl rfl⟩

end Aether
